import Mathlib

/-!
Verification development for the krug compiler front-end
(lexer, parser, IR builder, scope-resolution and type-declaration passes).

Source files embedded here:
  front/lex.go        (lexer)
  front/parse.go      (recursive-descent / precedence-climbing parser)
  ir build file       (AST -> IR lowering)
  middle/sym_resolve.go (scope resolution pass)
  middle/decl_type.go (type declaration pass)

Conventions of the embedding:
  - Go byte strings are `List Nat` (one Nat per byte, 0..255).
  - Go runes are `Nat` code points; the Go sentinel `eof = -1` is a separate
    constructor of `ConsumeRes`, never a code point.
  - machine loops are modelled with an explicit fuel parameter; running out
    of fuel yields a distinguished `fuelOut` result, a Go `panic` yields a
    distinguished failure value (`Option.none` or `.panicked`), so that a
    theorem about a successful run can never be satisfied by an aborted one.
  - `unicode.IsLetter` / `unicode.IsDigit` are embedded on their ASCII
    fragment only (the Go functions additionally accept non-ASCII Unicode
    classes); every theorem below evaluates the lexer exclusively on ASCII
    inputs, where the two definitions agree.
  - Helper code of the repository that is not part of the given sources
    (the `parser` base struct, the `Module`/`Impl`/`Block`/`SymbolTable`
    methods, the primitive-type table) is modelled from the specification;
    each such definition carries a `Modelled from the spec:` comment.
-/

namespace KrugSpec

/-- Token kinds of the lexer (front package). -/
inductive TokenType where
  | identifier
  | number
  | stringTok
  | charTok
  | symbol
  | endOfFile
deriving DecidableEq

/-- Token with lexeme, kind and byte span, as produced by NewToken. -/
structure Token where
  value : String
  kind : TokenType
  spanStart : Nat
  spanEnd : Nat
deriving DecidableEq

/-- NewToken from front/lex.go. -/
def NewToken (lexeme : String) (t : TokenType) (s e : Nat) : Token :=
  ⟨lexeme, t, s, e⟩

/-- Bytes of an ASCII string (Go source text is UTF-8; identical on ASCII,
and every concrete input used below is ASCII). -/
def strBytes (s : String) : List Nat :=
  s.data.map Char.toNat

/-- String from raw bytes, mirroring Go string(b) on ASCII data. -/
def byteStr (bs : List Nat) : String :=
  String.mk (bs.map Char.ofNat)

/-- Lexer state, mirroring the lexer struct of front/lex.go
(input, pos, start, width, stream). -/
structure LexState where
  input : List Nat
  pos : Nat
  start : Nat
  width : Nat
  stream : List Token
deriving DecidableEq

/-- Result of one consume call: a rune, the eof sentinel (-1 in Go), or the
panic that consume raises on utf8.RuneError. -/
inductive ConsumeRes where
  | eof
  | ch (c : Nat)
  | err
deriving DecidableEq

/-- Continuation byte test for UTF-8 decoding (0x80..0xBF). -/
def isCont (b : Nat) : Bool :=
  decide (128 ≤ b) && decide (b ≤ 191)

/-- utf8.DecodeRune on the head of a byte list: the decoded code point and
its width, or none where Go returns utf8.RuneError. -/
def decodeRune : List Nat → Option (Nat × Nat)
  | [] => none
  | b0 :: rest =>
    if b0 < 128 then some (b0, 1)
    else if b0 < 194 then none
    else if b0 ≤ 223 then
      match rest with
      | b1 :: _ =>
        if isCont b1 then some ((b0 - 194 + 2) * 64 + (b1 - 128), 2) else none
      | [] => none
    else if b0 ≤ 239 then
      match rest with
      | b1 :: b2 :: _ =>
        let lowOK :=
          if b0 = 224 then decide (160 ≤ b1) && decide (b1 ≤ 191)
          else if b0 = 237 then decide (128 ≤ b1) && decide (b1 ≤ 159)
          else isCont b1
        if lowOK && isCont b2 then
          some ((b0 - 224) * 4096 + (b1 - 128) * 64 + (b2 - 128), 3)
        else none
      | _ => none
    else if b0 ≤ 244 then
      match rest with
      | b1 :: b2 :: b3 :: _ =>
        let lowOK :=
          if b0 = 240 then decide (144 ≤ b1) && decide (b1 ≤ 191)
          else if b0 = 244 then decide (128 ≤ b1) && decide (b1 ≤ 143)
          else isCont b1
        if lowOK && isCont b2 && isCont b3 then
          some ((b0 - 240) * 262144 + (b1 - 128) * 4096 + (b2 - 128) * 64 + (b3 - 128), 4)
        else none
      | _ => none
    else none

/-- consume from front/lex.go: at end of input it returns eof with width 0;
on a byte sequence that Go decodes to utf8.RuneError it panics ("oh"). Note
that the valid three-byte encoding of U+FFFD itself also compares equal to
utf8.RuneError in the Go code and therefore also panics. -/
def consume : LexState → ConsumeRes × LexState
  | ⟨input, pos, start, width, stream⟩ =>
    if input.length ≤ pos then (.eof, ⟨input, pos, start, 0, stream⟩)
    else
      match decodeRune (input.drop pos) with
      | none => (.err, ⟨input, pos, start, width, stream⟩)
      | some (r, w) =>
        if r = 65533 then (.err, ⟨input, pos, start, width, stream⟩)
        else (.ch r, ⟨input, pos + w, start, w, stream⟩)

/-- rewind from front/lex.go. -/
def rewind : LexState → LexState
  | ⟨input, pos, start, width, stream⟩ => ⟨input, pos - width, start, width, stream⟩

/-- peek from front/lex.go: consume then rewind. -/
def peekRune (s : LexState) : ConsumeRes × LexState :=
  let (r, s1) := consume s
  (r, rewind s1)

/-- ignore from front/lex.go. -/
def ignore : LexState → LexState
  | ⟨input, pos, _, width, stream⟩ => ⟨input, pos, pos, width, stream⟩

/-- emit from front/lex.go: slice input[start:pos] into a lexeme, append the
token, move start to pos. -/
def emit : TokenType → LexState → LexState
  | t, ⟨input, pos, start, width, stream⟩ =>
    ⟨input, pos, pos, width,
     stream ++ [NewToken (byteStr ((input.drop start).take (pos - start))) t start pos]⟩

/-- accept from front/lex.go: none models the panic raised by consume.
strings.IndexRune never finds the eof rune (-1), so eof rewinds and
returns false. -/
def accept (valid : List Nat) (s : LexState) : Option (Bool × LexState) :=
  match consume s with
  | (.err, _) => none
  | (.eof, s1) => some (false, rewind s1)
  | (.ch c, s1) =>
    if valid.contains c then some (true, s1) else some (false, rewind s1)

/-- Result of a lexer run: a final state, a Go panic, or fuel exhaustion
(the latter only on runs that the Go code does not finish within the given
number of loop iterations). -/
inductive LexRes where
  | ok (s : LexState)
  | panicked
  | fuelOut
deriving DecidableEq

/-- acceptRun from front/lex.go: consume while the rune is in valid, then
rewind once. The Go loop consumes at least one byte per iteration or stops,
so fuel beyond the remaining input length never runs out. -/
def acceptRun (fuel : Nat) (valid : List Nat) (s : LexState) : LexRes :=
  match fuel with
  | 0 => .fuelOut
  | f + 1 =>
    match consume s with
    | (.err, _) => .panicked
    | (.eof, s1) => .ok (rewind s1)
    | (.ch c, s1) =>
      if valid.contains c then acceptRun f valid s1 else .ok (rewind s1)

/-- Registered one-character symbols from the init() call in front/lex.go:
arithmetic operators, brackets, comparison and punctuation characters. -/
def symbolSet : List Nat :=
  [43, 45, 47, 42, 37, 61,
   40, 41, 123, 125, 91, 93, 60, 62,
   46, 36, 33, 63, 35, 44, 124, 38,
   95, 126, 59, 58]

/-- isSymbol from front/lex.go. -/
def isSymbolB (c : Nat) : Bool :=
  symbolSet.contains c

/-- unicode.IsDigit, embedded on its ASCII fragment (every theorem below
runs the lexer on ASCII input only, where the two agree). -/
def isDigitB (c : Nat) : Bool :=
  decide (48 ≤ c) && decide (c ≤ 57)

/-- unicode.IsLetter, embedded on its ASCII fragment (see isDigitB). -/
def isLetterB (c : Nat) : Bool :=
  (decide (65 ≤ c) && decide (c ≤ 90)) || (decide (97 ≤ c) && decide (c ≤ 122))

/-- isAlphaNumeric from front/lex.go: underscore, letter or digit. -/
def isAlphaNumericB (c : Nat) : Bool :=
  c = 95 || isLetterB c || isDigitB c

/-- The two-character operators of the doubleSym map in front/lex.go:
==, !=, &&, ||, <=, >= as code-point pairs. -/
def doubleSymB (c1 c2 : Nat) : Bool :=
  (c1 = 61 && c2 = 61) || (c1 = 33 && c2 = 61) || (c1 = 38 && c2 = 38) ||
  (c1 = 124 && c2 = 124) || (c1 = 60 && c2 = 61) || (c1 = 62 && c2 = 61)

/-- Digit set "0123456789" of lexNumber's integer part. -/
def digitRun : List Nat :=
  [48, 49, 50, 51, 52, 53, 54, 55, 56, 57]

/-- Digit set of lexNumber's fractional part. The Go accept string is
"012345689", which omits the digit 7 (code point 55); the embedding keeps
that omission. -/
def fracRun : List Nat :=
  [48, 49, 50, 51, 52, 53, 54, 56, 57]

mutual

/-- lexStart from front/lex.go: dispatch on the next rune. The default
(unclassified) branch emits an EndOfFile token and stops the scan. -/
def lexStart : Nat → LexState → LexRes
  | 0, _ => .fuelOut
  | fuel + 1, s =>
    match consume s with
    | (.err, _) => .panicked
    | (.eof, s1) => .ok (rewind s1)
    | (.ch c, s1) =>
      if isDigitB c then lexNumber fuel (rewind s1)
      else if isAlphaNumericB c then lexIdentifier fuel (rewind s1)
      else if isSymbolB c then lexSymbol fuel (rewind s1)
      else if c = 34 then lexQuote fuel (rewind s1)
      else if c ≤ 32 then lexStart fuel (ignore s1)
      else .ok (emit .endOfFile (rewind s1))

/-- lexNumber from front/lex.go: a run of "0123456789", optionally one dot
followed by a run over the (seven-less) fractional digit set, then one
Number token. -/
def lexNumber : Nat → LexState → LexRes
  | 0, _ => .fuelOut
  | fuel + 1, s =>
    match acceptRun (fuel + 1) digitRun s with
    | .panicked => .panicked
    | .fuelOut => .fuelOut
    | .ok s1 =>
      match accept [46] s1 with
      | none => .panicked
      | some (true, s2) =>
        match acceptRun (fuel + 1) fracRun s2 with
        | .panicked => .panicked
        | .fuelOut => .fuelOut
        | .ok s3 => lexStart fuel (emit .number s3)
      | some (false, s2) => lexStart fuel (emit .number s2)

/-- lexIdentifier from front/lex.go: consume alphanumeric runes, rewind,
emit one Identifier token. -/
def lexIdentifier : Nat → LexState → LexRes
  | 0, _ => .fuelOut
  | fuel + 1, s =>
    match consume s with
    | (.err, _) => .panicked
    | (.eof, s1) => lexStart fuel (emit .identifier (rewind s1))
    | (.ch c, s1) =>
      if isAlphaNumericB c then lexIdentifier fuel s1
      else lexStart fuel (emit .identifier (rewind s1))

/-- lexQuote from front/lex.go: the opening quote must be accepted (panic
"expect" otherwise), then scan for the closing quote. -/
def lexQuote : Nat → LexState → LexRes
  | 0, _ => .fuelOut
  | fuel + 1, s =>
    match accept [34] s with
    | none => .panicked
    | some (false, _) => .panicked
    | some (true, s1) => lexQuoteLoop fuel s1

/-- Scanning loop of lexQuote. At end of input Go's consume keeps returning
eof with an unchanged state, so the Go loop never terminates; here that run
repeats until the fuel is exhausted (theorem c3 makes the divergence
explicit: the result is fuelOut for every fuel). -/
def lexQuoteLoop : Nat → LexState → LexRes
  | 0, _ => .fuelOut
  | fuel + 1, s =>
    match consume s with
    | (.err, _) => .panicked
    | (.eof, s1) => lexQuoteLoop fuel s1
    | (.ch c, s1) =>
      if c = 34 then lexStart fuel (emit .stringTok s1)
      else lexQuoteLoop fuel s1

/-- lexSymbol from front/lex.go: consume one symbol rune; if it and the
peeked rune form a registered two-character operator, consume the second as
well; emit one Symbol token. -/
def lexSymbol : Nat → LexState → LexRes
  | 0, _ => .fuelOut
  | fuel + 1, s =>
    match consume s with
    | (.err, _) => .panicked
    | (.eof, s1) => lexStart fuel (emit .symbol s1)
    | (.ch c1, s1) =>
      match peekRune s1 with
      | (.err, _) => .panicked
      | (.eof, s2) => lexStart fuel (emit .symbol s2)
      | (.ch c2, s2) =>
        if doubleSymB c1 c2 then
          match consume s2 with
          | (.err, _) => .panicked
          | (.eof, s3) => lexStart fuel (emit .symbol s3)
          | (.ch _, s3) => lexStart fuel (emit .symbol s3)
        else lexStart fuel (emit .symbol s2)

end

/-- Final outcome of tokenizeInput. -/
inductive LexOut where
  | ok (stream : List Token)
  | panicked
  | fuelOut
deriving DecidableEq

/-- tokenizeInput from front/lex.go: run the state-function loop from
lexStart on a fresh lexer state and return the token stream. -/
def tokenizeInput (fuel : Nat) (input : List Nat) : LexOut :=
  match lexStart fuel ⟨input, 0, 0, 0, []⟩ with
  | .ok s => .ok s.stream
  | .panicked => .panicked
  | .fuelOut => .fuelOut

/-! ## Parser (front/parse.go) -/

/-- Compiler diagnostics of the api package, restricted to the payloads the
embedded code constructs. -/
inductive CompilerError where
  | parseError (what : String) (fromPos toPos : Nat)
  | parseErrorNoPos (what : String)
  | unimplementedError (inFn what : String) (fromPos toPos : Nat)
  | unimplementedSimple (what : String)
  | unresolvedSymbol (name : String) (span : List Nat)
  | symbolError (name : String) (span : List Nat)
  | duplicateImpl (name : String)
deriving DecidableEq

/-- BadToken from front/parse.go (the zero Token value: empty lexeme). Its
kind is never inspected on any path exercised below; endOfFile stands in
for the zero TokenType. -/
def BadToken : Token :=
  ⟨"", .endOfFile, 0, 0⟩

/-- Token.Matches: true when the token lexeme equals one of the given
strings. Modelled from the spec: the token type of the front package is not
part of the given sources; every call site compares lexemes only. -/
def Token.Matches (t : Token) (vals : List String) : Bool :=
  vals.any (fun v => t.value == v)

/-- Parser state (the parser base struct: token stream, cursor position and
accumulated diagnostics). -/
structure PState where
  stream : List Token
  pos : Nat
  errs : List CompilerError
deriving DecidableEq

/-- hasNext of the parser base struct. Modelled from the spec: the cursor
has more tokens while pos is inside the stream. -/
def hasNextT (p : PState) : Bool :=
  decide (p.pos < p.stream.length)

/-- next of the parser base struct: the token under the cursor, BadToken
past the end. Modelled from the spec. -/
def nextTok (p : PState) : Token :=
  p.stream.getD p.pos BadToken

/-- peek(n) of the parser base struct. Modelled from the spec. -/
def peekAt (p : PState) (n : Nat) : Token :=
  p.stream.getD (p.pos + n) BadToken

/-- consume of the parser base struct: return the current token and advance.
Modelled from the spec. -/
def consumeTok : PState → Token × PState
  | ⟨stream, pos, errs⟩ => (nextTok ⟨stream, pos, errs⟩, ⟨stream, pos + 1, errs⟩)

/-- error of the parser base struct: append a diagnostic and continue.
Modelled from the spec (diagnostics accumulate, parsing is not aborted). -/
def errorP : PState → CompilerError → PState
  | ⟨stream, pos, errs⟩, e => ⟨stream, pos, errs ++ [e]⟩

/-- expect of the parser base struct. Modelled from the spec: on a match the
token is consumed and returned; on a mismatch a diagnostic carrying the
expectation is recorded, nothing is consumed and BadToken is returned. -/
def expectTok (p : PState) (v : String) : Token × PState :=
  if (nextTok p).Matches [v] then consumeTok p
  else (BadToken, errorP p (.parseErrorNoPos ("expected " ++ v)))

/-- expectKind of the parser base struct, by token kind. Modelled from the
spec, like expectTok. -/
def expectKind (p : PState) (k : TokenType) : Token × PState :=
  if (nextTok p).kind = k then consumeTok p
  else (BadToken, errorP p (.parseErrorNoPos ("expected token kind")))

/-- Keyword constants from front/parse.go. -/
def kwFn : String := "fn"
def kwLet : String := "let"
def kwType : String := "type"
def kwMut : String := "mut"
def kwBreak : String := "break"
def kwReturn : String := "return"
def kwNext : String := "next"
def kwTrait : String := "trait"
def kwStruct : String := "struct"
def kwImpl : String := "impl"
def kwLoop : String := "loop"
def kwDefer : String := "defer"
def kwWhile : String := "while"
def kwIf : String := "if"

/-- assignOperators from front/parse.go. -/
def assignOperatorsL : List String := ["=", "+=", "-=", "*=", "/="]

/-- unaryOperators from front/parse.go. -/
def unaryOperatorsL : List String := ["-", "!", "+", "@", "&", "~"]

/-- builtins from front/parse.go. -/
def builtinsL : List String := ["alloc", "sizeof", "len", "free", "move", "ref"]

/-- The opPrec operator-precedence table from front/parse.go. -/
def opPrecList : List (String × Int) :=
  [("*", 5), ("/", 5), ("%", 5),
   ("+", 4), ("-", 4),
   ("==", 3), ("!=", 3), ("<", 3), ("<=", 3), (">", 3), (">=", 3),
   ("&&", 2),
   ("||", 1)]

/-- Map lookup in the opPrec table. -/
def opPrecMap (s : String) : Option Int :=
  (opPrecList.find? (fun q => q.1 == s)).map (fun q => q.2)

/-- getOpPrec from front/parse.go: precedence of an operator, -1 for
anything not in the table. -/
def getOpPrec (s : String) : Int :=
  match opPrecMap s with
  | some p => p
  | none => -1

/-- Initializer kinds of the front package. Only InitStructure is produced
by the embedded parser; a second kind keeps the builder's kind test
meaningful. -/
inductive InitKind where
  | structureInit
  | otherInit
deriving DecidableEq

/-- Constant expression payloads (front package). The integer constant
holds the result of big.Int.SetString base 10 (none where Go stores nil);
the floating constant keeps the decimal text whose float64 value Go stores
(no claim depends on float arithmetic). -/
inductive ConstantNode where
  | integerConst (v : Option Int)
  | floatingConst (raw : String)
  | variableRef (tok : Token)
  | charConst (v : String)
  | stringConst (v : String)
deriving DecidableEq

mutual

/-- AST expression nodes of the front package. Go stores child expressions
as possibly-nil pointers; an absent child inside a list is the nilExpr
constructor, an absent optional field is none. -/
inductive ExpressionNode where
  | nilExpr
  | constant (c : ConstantNode)
  | binary (l : ExpressionNode) (op : String) (r : ExpressionNode)
  | unary (op : String) (v : Option ExpressionNode)
  | grouping (v : Option ExpressionNode)
  | exprList (vals : List ExpressionNode)
  | typeExpr (t : Option TypeNode)
  | builtin (name : String) (ref : Token) (args : List ExpressionNode)
  | call (left : ExpressionNode) (params : List ExpressionNode)
  | index (left : ExpressionNode) (sub : Option ExpressionNode)
  | path (vals : List ExpressionNode)
  | assign (l : ExpressionNode) (op : String) (r : Option ExpressionNode)
  | initExpr (kind : InitKind) (lhand : Token) (vals : List ExpressionNode)
  | lambda (proto : FunctionPrototypeDeclaration) (body : Option BlockNode)

/-- AST type nodes of the front package. -/
inductive TypeNode where
  | pointerType (base : ExpressionNode)
  | arrayType (base : Option ExpressionNode) (size : Option ExpressionNode)
  | tupleType (types : List ExpressionNode)
  | unresolvedType (name : String)
  | structureType (nameTok : Token) (fields : List NamedType)

/-- NamedType of the front package: (Mutable, Name, Owned, Type). -/
inductive NamedType where
  | mk (mutFlag : Bool) (name : Token) (owned : Bool) (type : Option ExpressionNode)

/-- FunctionPrototypeDeclaration of the front package. -/
inductive FunctionPrototypeDeclaration where
  | mk (name : Token) (args : List NamedType) (returnType : Option ExpressionNode)

/-- FunctionDeclaration of the front package: prototype plus optional body. -/
inductive FunctionDeclaration where
  | mk (proto : FunctionPrototypeDeclaration) (body : Option BlockNode)

/-- BlockNode of the front package. -/
inductive BlockNode where
  | mk (statements : List ParseTreeNode)

/-- ElseIfNode of the front package. -/
inductive ElseIfNode where
  | mk (cond : ExpressionNode) (body : BlockNode)

/-- ParseTreeNode of the front package: one constructor per node kind. -/
inductive ParseTreeNode where
  | mutStat (name : Token) (owned : Bool) (type : Option ExpressionNode)
      (value : Option ExpressionNode)
  | letStat (name : Token) (owned : Bool) (type : Option ExpressionNode)
      (value : Option ExpressionNode)
  | returnStat (value : Option ExpressionNode)
  | nextStat
  | breakStat
  | typeAlias (name : Token) (type : Option ExpressionNode)
  | labelStat (name : Token)
  | jumpStat (loc : Token)
  | ifStat (cond : Option ExpressionNode) (block : Option BlockNode)
      (elseIfs : List ElseIfNode) (elseBlock : Option BlockNode)
  | whileStat (cond : Option ExpressionNode) (post : Option ExpressionNode)
      (block : BlockNode)
  | loopStat (block : BlockNode)
  | deferStat (block : Option BlockNode) (stat : Option ParseTreeNode)
  | blockStat (block : Option BlockNode)
  | exprStat (e : ExpressionNode)
  | functionDecl (fd : FunctionDeclaration)
  | implDecl (name : Token) (functions : List FunctionDeclaration)
  | traitDecl (name : Token) (members : List FunctionPrototypeDeclaration)
  | structureDecl (name : Token) (fields : List NamedType)

end

/-- A nil child pointer placed inside a Go slice of expressions. -/
def orNil : Option ExpressionNode → ExpressionNode
  | some e => e
  | none => .nilExpr

/-- Proto accessor. -/
def FunctionDeclaration.proto : FunctionDeclaration → FunctionPrototypeDeclaration
  | .mk p _ => p

/-- Body accessor. -/
def FunctionDeclaration.body : FunctionDeclaration → Option BlockNode
  | .mk _ b => b

/-- Name accessor. -/
def FunctionPrototypeDeclaration.name : FunctionPrototypeDeclaration → Token
  | .mk n _ _ => n

/-- Argument-list accessor. -/
def FunctionPrototypeDeclaration.args : FunctionPrototypeDeclaration → List NamedType
  | .mk _ a _ => a

/-- Return-type accessor. -/
def FunctionPrototypeDeclaration.returnType : FunctionPrototypeDeclaration → Option ExpressionNode
  | .mk _ _ r => r

/-- Statement-list accessor. -/
def BlockNode.statements : BlockNode → List ParseTreeNode
  | .mk s => s

/-- big.Int.SetString with base 10 on the digit-run lexemes the lexer
produces: the decimal value, none where Go stores a nil big.Int. -/
def bigIntSetString (s : String) : Option Int :=
  if s.length ≠ 0 && s.data.all (fun c => c.isDigit) then
    some (Int.ofNat (s.data.foldl (fun a c => a * 10 + (c.toNat - 48)) 0))
  else none

/-- Success test of strconv.ParseFloat on the digit-and-dot lexemes the
lexer produces (at least one digit, at most one dot); parseOperand panics
where ParseFloat reports an error. -/
def floatOk (s : String) : Bool :=
  s.data.any (fun c => c.isDigit) &&
  s.data.all (fun c => c.isDigit || c = '.') &&
  decide (s.data.count '.' ≤ 1)

/-- Printable name of a token kind (used in the unimplemented-parse
diagnostic of parseOperand). -/
def tokenTypeName : TokenType → String
  | .identifier => "identifier"
  | .number => "number"
  | .stringTok => "string"
  | .charTok => "char"
  | .symbol => "symbol"
  | .endOfFile => "eof"

/-- Opening brace lexeme. -/
def lbrace : String := "\x7b"

/-- Closing brace lexeme. -/
def rbrace : String := "\x7d"

/-- parseUnresolvedType from front/parse.go. -/
def parseUnresolvedType (st : PState) : TypeNode × PState :=
  let (name, st1) := expectKind st .identifier
  (.unresolvedType name.value, st1)

set_option maxHeartbeats 2000000

mutual

/-- parsePointerType from front/parse.go. -/
def parsePointerType : Nat → PState → Option (Option TypeNode × PState)
  | 0, _ => none
  | f + 1, st =>
    let start := st.pos
    let (_, st1) := expectTok st ("*")
    match parseTypeExpression f st1 with
    | none => none
    | some (none, st2) =>
      some (none, errorP st2 (.parseError ("type after pointer") start st2.pos))
    | some (some base, st2) => some (some (.pointerType base), st2)
termination_by structural fuel _ => fuel

/-- parseArrayType from front/parse.go. -/
def parseArrayType : Nat → PState → Option (Option TypeNode × PState)
  | 0, _ => none
  | f + 1, st =>
    let start := st.pos
    let (_, st1) := expectTok st ("[")
    match parseTypeExpression f st1 with
    | none => none
    | some (baseOpt, st2) =>
      let st2b :=
        if baseOpt.isNone then errorP st2 (.parseError ("array type") start st2.pos) else st2
      let (_, st3) := expectTok st2b (";")
      match parseExpression f st3 with
      | none => none
      | some (sizeOpt, st4) =>
        let st4b :=
          if sizeOpt.isNone then
            errorP st4 (.parseError ("array length constant") start st4.pos)
          else st4
        let (_, st5) := expectTok st4b ("]")
        some (some (.arrayType baseOpt sizeOpt), st5)
termination_by structural fuel _ => fuel

/-- parseTupleType from front/parse.go. -/
def parseTupleType : Nat → PState → Option (Option TypeNode × PState)
  | 0, _ => none
  | f + 1, st =>
    let (_, st1) := expectTok st ("(")
    match tupleTypeLoop f [] st1 with
    | none => none
    | some (types, st2) =>
      let (_, st3) := expectTok st2 (")")
      some (some (.tupleType types), st3)
termination_by structural fuel _ => fuel

/-- Collection loop of parseTupleType. -/
def tupleTypeLoop : Nat → List ExpressionNode → PState → Option (List ExpressionNode × PState)
  | 0, _, _ => none
  | f + 1, types, st =>
    if hasNextT st then
      let st1 := if (nextTok st).Matches [","] then (consumeTok st).2 else st
      if (nextTok st1).Matches [")"] then some (types, st1)
      else
        match parseTypeExpression f st1 with
        | none => none
        | some (none, st2) => tupleTypeLoop f types st2
        | some (some t, st2) => tupleTypeLoop f (types ++ [t]) st2
    else some (types, st)
termination_by structural fuel _ _ => fuel

/-- parseTypeExpression from front/parse.go: dispatch to pointer, array,
tuple, structure or unresolved-name types; anything else records an
unimplemented diagnostic and yields the nil node. -/
def parseTypeExpression : Nat → PState → Option (Option ExpressionNode × PState)
  | 0, _ => none
  | f + 1, st =>
    let start := st.pos
    let curr := nextTok st
    if curr.Matches ["*"] then
      match parsePointerType f st with
      | none => none
      | some (tOpt, st1) => some (some (.typeExpr tOpt), st1)
    else if curr.Matches ["["] then
      match parseArrayType f st with
      | none => none
      | some (tOpt, st1) => some (some (.typeExpr tOpt), st1)
    else if curr.Matches ["("] then
      match parseTupleType f st with
      | none => none
      | some (tOpt, st1) => some (some (.typeExpr tOpt), st1)
    else if curr.Matches [kwStruct] then
      match parseStructureType f st with
      | none => none
      | some (tOpt, st1) => some (some (.typeExpr tOpt), st1)
    else if curr.kind = .identifier then
      let (t, st1) := parseUnresolvedType st
      some (some (.typeExpr (some t)), st1)
    else
      some (none, errorP st (.unimplementedError ("parseTypeExpression") ("type") start st.pos))
termination_by structural fuel _ => fuel

/-- parseStructureType from front/parse.go. -/
def parseStructureType : Nat → PState → Option (Option TypeNode × PState)
  | 0, _ => none
  | f + 1, st =>
    let start := st.pos
    let (fst, st1) := expectTok st kwStruct
    let (_, st2) := expectTok st1 lbrace
    match structFieldsLoop f start [] st2 with
    | none => none
    | some (fields, st3) =>
      let (_, st4) := expectTok st3 rbrace
      some (some (.structureType fst fields), st4)
termination_by structural fuel _ => fuel

/-- Field loop of parseStructureType (trailing commas are enforced). -/
def structFieldsLoop : Nat → Nat → List NamedType → PState → Option (List NamedType × PState)
  | 0, _, _, _ => none
  | f + 1, start, fields, st =>
    if hasNextT st then
      if (nextTok st).Matches [rbrace] then some (fields, st)
      else
        let (name, st1) := expectKind st .identifier
        match parseTypeExpression f st1 with
        | none => none
        | some (tOpt, st2) =>
          let st2b :=
            if tOpt.isNone then errorP st2 (.parseError ("type") start st2.pos) else st2
          let (_, st3) := expectTok st2b (",")
          structFieldsLoop f start (fields ++ [.mk true name false tOpt]) st3
    else some (fields, st)
termination_by structural fuel _ _ _ => fuel

/-- parseFunctionPrototypeDeclaration from front/parse.go. -/
def parseFunctionPrototypeDeclaration :
    Nat → PState → Option (FunctionPrototypeDeclaration × PState)
  | 0, _ => none
  | f + 1, st =>
    let start := st.pos
    let (_, st1) := expectTok st kwFn
    let (name, st2) := expectKind st1 .identifier
    let (_, st3) := expectTok st2 ("(")
    match protoArgsLoop f start 0 [] st3 with
    | none => none
    | some (args, st4) =>
      let (_, st5) := expectTok st4 (")")
      if (nextTok st5).Matches [lbrace, ";", ","] then
        some (.mk name args none, st5)
      else
        match parseTypeExpression f st5 with
        | none => none
        | some (typOpt, st6) => some (.mk name args typOpt, st6)
termination_by structural fuel _ => fuel

/-- Argument loop of parseFunctionPrototypeDeclaration (no trailing
commas; a nil argument type is still appended). -/
def protoArgsLoop : Nat → Nat → Nat → List NamedType → PState → Option (List NamedType × PState)
  | 0, _, _, _, _ => none
  | f + 1, start, idx, args, st =>
    if hasNextT st then
      if (nextTok st).Matches [")"] then some (args, st)
      else
        let st1 := if idx ≠ 0 then (expectTok st (",")).2 else st
        let (isMut, st2) :=
          if (nextTok st1).Matches [kwMut] then (true, (consumeTok st1).2) else (false, st1)
        let (owned, st3) :=
          if (nextTok st2).Matches ["~"] then (false, (consumeTok st2).2) else (true, st2)
        let (name, st4) := expectKind st3 .identifier
        match parseExpression f st4 with
        | none => none
        | some (typOpt, st5) =>
          let st5b :=
            if typOpt.isNone then
              errorP st5 (.parseError ("type after pointer") start st5.pos)
            else st5
          protoArgsLoop f start (idx + 1) (args ++ [.mk isMut name owned typOpt]) st5b
    else some (args, st)
termination_by structural fuel _ _ _ _ => fuel

/-- parseMut from front/parse.go: mut x [ type ] [ = val ]. The node is
returned even when both the type and the value are absent; that case only
records a diagnostic. -/
def parseMut : Nat → PState → Option (Option ParseTreeNode × PState)
  | 0, _ => none
  | f + 1, st =>
    let start := st.pos
    let (_, st1) := expectTok st kwMut
    let (owned, st2) :=
      if (nextTok st1).Matches ["~"] then (false, (consumeTok st1).2) else (true, st1)
    let (name, st3) := expectKind st2 .identifier
    let typRes : Option (Option ExpressionNode × PState) :=
      if (nextTok st3).Matches ["="] then some (none, st3)
      else
        match parseTypeExpression f st3 with
        | none => none
        | some (tOpt, st4) =>
          let st4b :=
            if tOpt.isNone then errorP st4 (.parseError ("type after assignment") start st4.pos)
            else st4
          some (tOpt, st4b)
    match typRes with
    | none => none
    | some (typOpt, st5) =>
      let valRes : Option (Option ExpressionNode × PState) :=
        if (nextTok st5).Matches ["="] then
          let (_, st6) := expectTok st5 ("=")
          match parseExpression f st6 with
          | none => none
          | some (vOpt, st7) =>
            let st7b :=
              if vOpt.isNone then errorP st7 (.parseError ("assignment") start st7.pos) else st7
            some (vOpt, st7b)
        else some (none, st5)
      match valRes with
      | none => none
      | some (valOpt, st8) =>
        let st8b :=
          if valOpt.isNone && typOpt.isNone then
            errorP st8 (.parseError ("value or type in mut statement") start st8.pos)
          else st8
        some (some (.mutStat name owned typOpt valOpt), st8b)
termination_by structural fuel _ => fuel

/-- parseLet from front/parse.go. -/
def parseLet : Nat → PState → Option (Option ParseTreeNode × PState)
  | 0, _ => none
  | f + 1, st =>
    let start := st.pos
    let (_, st1) := expectTok st kwLet
    let (owned, st2) :=
      if (nextTok st1).Matches ["~"] then (false, (consumeTok st1).2) else (true, st1)
    let (name, st3) := expectKind st2 .identifier
    let typRes : Option (Option ExpressionNode × PState) :=
      if (nextTok st3).Matches ["="] then some (none, st3)
      else
        match parseTypeExpression f st3 with
        | none => none
        | some (tOpt, st4) =>
          let st4b :=
            if tOpt.isNone then errorP st4 (.parseError ("type or assignment") start st4.pos)
            else st4
          some (tOpt, st4b)
    match typRes with
    | none => none
    | some (typOpt, st5) =>
      let valRes : Option (Option ExpressionNode × PState) :=
        if (nextTok st5).Matches ["="] then
          let (_, st6) := expectTok st5 ("=")
          match parseExpression f st6 with
          | none => none
          | some (vOpt, st7) =>
            let st7b :=
              if vOpt.isNone then
                errorP st7 (.parseError ("expression in let statement") start st7.pos)
              else st7
            some (vOpt, st7b)
        else some (none, st5)
      match valRes with
      | none => none
      | some (valOpt, st8) =>
        some (some (.letStat name owned typOpt valOpt), st8)
termination_by structural fuel _ => fuel

/-- parseReturn from front/parse.go. -/
def parseReturn : Nat → PState → Option (Option ParseTreeNode × PState)
  | 0, _ => none
  | f + 1, st =>
    if (nextTok st).Matches ["return"] then
      let start := st.pos
      let (_, st1) := expectTok st ("return")
      if (nextTok st1).Matches [";"] then some (some (.returnStat none), st1)
      else
        match parseExpression f st1 with
        | none => none
        | some (resOpt, st2) =>
          let st2b :=
            if resOpt.isNone then
              errorP st2 (.parseError ("semi-colon or expression") start st2.pos)
            else st2
          some (some (.returnStat resOpt), st2b)
    else some (none, st)
termination_by structural fuel _ => fuel

/-- parseNext from front/parse.go. -/
def parseNext : Nat → PState → Option (Option ParseTreeNode × PState)
  | 0, _ => none
  | _ + 1, st =>
    let (_, st1) := expectTok st ("next")
    some (some .nextStat, st1)

/-- parseBreak from front/parse.go. -/
def parseBreak : Nat → PState → Option (Option ParseTreeNode × PState)
  | 0, _ => none
  | _ + 1, st =>
    let (_, st1) := expectTok st ("break")
    some (some .breakStat, st1)

/-- parseTypeAlias from front/parse.go. -/
def parseTypeAlias : Nat → PState → Option (Option ParseTreeNode × PState)
  | 0, _ => none
  | f + 1, st =>
    let start := st.pos
    let (_, st1) := expectTok st kwType
    let (name, st2) := expectKind st1 .identifier
    let (_, st3) := expectTok st2 ("=")
    match parseTypeExpression f st3 with
    | none => none
    | some (tOpt, st4) =>
      let st4b :=
        if tOpt.isNone then errorP st4 (.parseError ("type or assignment") start st4.pos)
        else st4
      some (some (.typeAlias name tOpt), st4b)
termination_by structural fuel _ => fuel

/-- parseSemicolonStatement from front/parse.go. -/
def parseSemicolonStatement : Nat → PState → Option (Option ParseTreeNode × PState)
  | 0, _ => none
  | f + 1, st =>
    let curr := nextTok st
    if curr.Matches [kwMut] then parseMut f st
    else if curr.Matches [kwLet] then parseLet f st
    else if curr.Matches [kwType] then parseTypeAlias f st
    else if curr.Matches [kwReturn] then parseReturn f st
    else if curr.Matches ["$"] then parseLabel f st
    else if curr.Matches ["jump"] then parseJump f st
    else if curr.Matches [kwNext] then parseNext f st
    else if curr.Matches [kwBreak] then parseBreak f st
    else parseExpressionStatement f st
termination_by structural fuel _ => fuel

/-- parseStatBlock from front/parse.go: nil unless the block starts with an
opening brace. -/
def parseStatBlock : Nat → PState → Option (Option BlockNode × PState)
  | 0, _ => none
  | f + 1, st =>
    if (nextTok st).Matches [lbrace] then
      let (_, st1) := expectTok st lbrace
      match statBlockLoop f [] st1 with
      | none => none
      | some (stats, st2) =>
        let (_, st3) := expectTok st2 rbrace
        some (some (.mk stats), st3)
    else some (none, st)
termination_by structural fuel _ => fuel

/-- Statement loop of parseStatBlock. -/
def statBlockLoop : Nat → List ParseTreeNode → PState → Option (List ParseTreeNode × PState)
  | 0, _, _ => none
  | f + 1, stats, st =>
    if hasNextT st then
      if (nextTok st).Matches [rbrace] then some (stats, st)
      else
        match parseStatement f st with
        | none => none
        | some (none, st1) => statBlockLoop f stats st1
        | some (some s, st1) => statBlockLoop f (stats ++ [s]) st1
    else some (stats, st)
termination_by structural fuel _ _ => fuel

/-- parseIfElseChain from front/parse.go. -/
def parseIfElseChain : Nat → PState → Option (Option ParseTreeNode × PState)
  | 0, _ => none
  | f + 1, st =>
    if (nextTok st).Matches ["if"] then
      let start := st.pos
      let (_, st1) := expectTok st ("if")
      match parseExpression f st1 with
      | none => none
      | some (exprOpt, st2) =>
        let st2b :=
          if exprOpt.isNone then errorP st2 (.parseError ("condition") start st2.pos) else st2
        match parseStatBlock f st2b with
        | none => none
        | some (blockOpt, st3) =>
          let st3b :=
            if blockOpt.isNone then
              errorP st3 (.parseError ("block after condition") start st3.pos)
            else st3
          if (nextTok st3b).Matches ["else"] &&
              (hasNextT st3b && (peekAt st3b 1).Matches ["if"]) then
            match elseIfLoop f start [] st3b with
            | none => none
            | some (elses, st4) =>
              some (some (.ifStat exprOpt blockOpt elses none), st4)
          else if (nextTok st3b).Matches ["else"] then
            let (_, st4) := expectTok st3b ("else")
            match parseStatBlock f st4 with
            | none => none
            | some (bodyOpt, st5) =>
              let st5b :=
                if bodyOpt.isNone then
                  errorP st5 (.parseError ("block after else") start st5.pos)
                else st5
              some (some (.ifStat exprOpt blockOpt [] bodyOpt), st5b)
          else some (some (.ifStat exprOpt blockOpt [] none), st3b)
    else some (none, st)
termination_by structural fuel _ => fuel

/-- Else-if loop of parseIfElseChain (it re-expects "else"/"if" on every
iteration while tokens remain, recording diagnostics on mismatch, and
breaks once a condition or a body fails to parse). -/
def elseIfLoop : Nat → Nat → List ElseIfNode → PState → Option (List ElseIfNode × PState)
  | 0, _, _, _ => none
  | f + 1, start, elses, st =>
    if hasNextT st then
      let (_, st1) := expectTok st ("else")
      let (_, st2) := expectTok st1 ("if")
      match parseExpression f st2 with
      | none => none
      | some (condOpt, st3) =>
        match condOpt with
        | none =>
          some (elses, errorP st3 (.parseError ("condition in else if") start st3.pos))
        | some cond =>
          match parseStatBlock f st3 with
          | none => none
          | some (bodyOpt, st4) =>
            match bodyOpt with
            | none =>
              some (elses, errorP st4 (.parseError ("block after else if") start st4.pos))
            | some body => elseIfLoop f start (elses ++ [.mk cond body]) st4
    else some (elses, st)
termination_by structural fuel _ _ _ => fuel

/-- parseWhileLoop from front/parse.go. -/
def parseWhileLoop : Nat → PState → Option (Option ParseTreeNode × PState)
  | 0, _ => none
  | f + 1, st =>
    if (nextTok st).Matches ["while"] then
      let start := st.pos
      let (_, st1) := expectTok st ("while")
      match parseExpression f st1 with
      | none => none
      | some (valOpt, st2) =>
        let st2b :=
          if valOpt.isNone then
            errorP st2 (.parseError ("condition after while") start st2.pos)
          else st2
        let postRes : Option (Option ExpressionNode × PState) :=
          if (nextTok st2b).Matches [";"] then
            let (_, st3) := expectTok st2b (";")
            match parseExpression f st3 with
            | none => none
            | some (pOpt, st4) =>
              let st4b :=
                if pOpt.isNone then
                  errorP st4 (.parseError ("step expression in while loop") start st4.pos)
                else st4
              some (pOpt, st4b)
          else some (none, st2b)
        match postRes with
        | none => none
        | some (postOpt, st5) =>
          match parseStatBlock f st5 with
          | none => none
          | some (some block, st6) =>
            some (some (.whileStat valOpt postOpt block), st6)
          | some (none, st6) => some (none, st6)
    else some (none, st)
termination_by structural fuel _ => fuel

/-- parseLabel from front/parse.go. -/
def parseLabel : Nat → PState → Option (Option ParseTreeNode × PState)
  | 0, _ => none
  | _ + 1, st =>
    if (nextTok st).Matches ["$"] then
      let (_, st1) := expectTok st ("$")
      let (labelName, st2) := expectKind st1 .identifier
      some (some (.labelStat labelName), st2)
    else some (none, st)

/-- parseJump from front/parse.go. -/
def parseJump : Nat → PState → Option (Option ParseTreeNode × PState)
  | 0, _ => none
  | _ + 1, st =>
    if (nextTok st).Matches ["jump"] then
      let (_, st1) := expectTok st ("jump")
      let (label, st2) := expectKind st1 .identifier
      some (some (.jumpStat label), st2)
    else some (none, st)

/-- parseDefer from front/parse.go: a block or a single statement. -/
def parseDefer : Nat → PState → Option (Option ParseTreeNode × PState)
  | 0, _ => none
  | f + 1, st =>
    if (nextTok st).Matches ["defer"] then
      let (_, st1) := expectTok st ("defer")
      if (nextTok st1).Matches [lbrace] then
        match parseStatBlock f st1 with
        | none => none
        | some (none, st2) =>
          some (none, errorP st2 (.parseErrorNoPos ("Expected a block yo")))
        | some (some b, st2) => some (some (.deferStat (some b) none), st2)
      else
        match parseStatement f st1 with
        | none => none
        | some (sOpt, st2) => some (some (.deferStat none sOpt), st2)
    else some (none, st)
termination_by structural fuel _ => fuel

/-- parseLoop from front/parse.go. -/
def parseLoop : Nat → PState → Option (Option ParseTreeNode × PState)
  | 0, _ => none
  | f + 1, st =>
    if (nextTok st).Matches [kwLoop] then
      let (_, st1) := expectTok st kwLoop
      match parseStatBlock f st1 with
      | none => none
      | some (some block, st2) => some (some (.loopStat block), st2)
      | some (none, st2) => some (none, st2)
    else some (none, st)
termination_by structural fuel _ => fuel

/-- parseStatement from front/parse.go: block-introducing statements pass
through; everything else must be terminated by a semicolon. -/
def parseStatement : Nat → PState → Option (Option ParseTreeNode × PState)
  | 0, _ => none
  | f + 1, st =>
    let curr := nextTok st
    if curr.Matches [kwIf] then parseIfElseChain f st
    else if curr.Matches [kwLoop] then parseLoop f st
    else if curr.Matches [kwWhile] then parseWhileLoop f st
    else if curr.Matches [kwDefer] then parseDefer f st
    else if curr.Matches [lbrace] then
      match parseStatBlock f st with
      | none => none
      | some (bOpt, st1) => some (some (.blockStat bOpt), st1)
    else
      match parseSemicolonStatement f st with
      | none => none
      | some (none, st1) => some (none, st1)
      | some (some s, st1) =>
        let (_, st2) := expectTok st1 (";")
        some (some s, st2)
termination_by structural fuel _ => fuel

/-- parseFunctionDeclaration from front/parse.go. -/
def parseFunctionDeclaration : Nat → PState → Option (FunctionDeclaration × PState)
  | 0, _ => none
  | f + 1, st =>
    match parseFunctionPrototypeDeclaration f st with
    | none => none
    | some (proto, st1) =>
      match parseStatBlock f st1 with
      | none => none
      | some (bodyOpt, st2) => some (.mk proto bodyOpt, st2)

/-- parseImplDeclaration from front/parse.go. -/
def parseImplDeclaration : Nat → PState → Option ((Token × List FunctionDeclaration) × PState)
  | 0, _ => none
  | f + 1, st =>
    let (_, st1) := expectTok st ("impl")
    let (name, st2) := expectKind st1 .identifier
    let (_, st3) := expectTok st2 lbrace
    match implFnsLoop f [] st3 with
    | none => none
    | some (fns, st4) =>
      let (_, st5) := expectTok st4 rbrace
      some ((name, fns), st5)

/-- Method loop of parseImplDeclaration. -/
def implFnsLoop : Nat → List FunctionDeclaration → PState → Option (List FunctionDeclaration × PState)
  | 0, _, _ => none
  | f + 1, fns, st =>
    if hasNextT st then
      if (nextTok st).Matches [rbrace] then some (fns, st)
      else
        match parseFunctionDeclaration f st with
        | none => none
        | some (fn, st1) => implFnsLoop f (fns ++ [fn]) st1
    else some (fns, st)
termination_by structural fuel _ _ => fuel

/-- parseTraitDeclaration from front/parse.go. -/
def parseTraitDeclaration :
    Nat → PState → Option ((Token × List FunctionPrototypeDeclaration) × PState)
  | 0, _ => none
  | f + 1, st =>
    let (_, st1) := expectTok st ("trait")
    let (name, st2) := expectKind st1 .identifier
    let (_, st3) := expectTok st2 lbrace
    match traitMembersLoop f [] st3 with
    | none => none
    | some (members, st4) =>
      let (_, st5) := expectTok st4 rbrace
      some ((name, members), st5)

/-- Prototype loop of parseTraitDeclaration. -/
def traitMembersLoop :
    Nat → List FunctionPrototypeDeclaration → PState →
    Option (List FunctionPrototypeDeclaration × PState)
  | 0, _, _ => none
  | f + 1, members, st =>
    if hasNextT st then
      if (nextTok st).Matches [rbrace] then some (members, st)
      else
        match parseFunctionPrototypeDeclaration f st with
        | none => none
        | some (pt, st1) =>
          let (_, st2) := expectTok st1 (";")
          traitMembersLoop f (members ++ [pt]) st2
    else some (members, st)
termination_by structural fuel _ _ => fuel

/-- parseUnaryExpr from front/parse.go. -/
def parseUnaryExpr : Nat → PState → Option (Option ExpressionNode × PState)
  | 0, _ => none
  | f + 1, st =>
    if !hasNextT st || !(nextTok st).Matches unaryOperatorsL then some (none, st)
    else
      let start := st.pos
      let (op, st1) := consumeTok st
      match parseLeft f st1 with
      | none => none
      | some (rightOpt, st2) =>
        let st2b :=
          if rightOpt.isNone then
            errorP st2 (.parseError ("unary expression") start st2.pos)
          else st2
        some (some (.unary op.value rightOpt), st2b)
termination_by structural fuel _ => fuel

/-- parseGroupedList from front/parse.go: a parenthesised comma-separated
list; a nil element raises the todo panic. -/
def parseGroupedList : Nat → ExpressionNode → PState → Option (Option ExpressionNode × PState)
  | 0, _, _ => none
  | f + 1, fst, st =>
    match groupedListLoop f [fst] st with
    | none => none
    | some (list, st1) =>
      let (_, st2) := expectTok st1 (")")
      some (some (.exprList list), st2)
termination_by structural fuel _ _ => fuel

/-- Element loop of parseGroupedList. -/
def groupedListLoop : Nat → List ExpressionNode → PState → Option (List ExpressionNode × PState)
  | 0, _, _ => none
  | f + 1, list, st =>
    if hasNextT st && (nextTok st).Matches [","] then
      let (_, st1) := expectTok st (",")
      match parseExpression f st1 with
      | none => none
      | some (none, _) => none
      | some (some v, st2) => groupedListLoop f (list ++ [v]) st2
    else some (list, st)
termination_by structural fuel _ _ => fuel

/-- parseOperand from front/parse.go: groupings, grouped lists and literal
or identifier constants. -/
def parseOperand : Nat → PState → Option (Option ExpressionNode × PState)
  | 0, _ => none
  | f + 1, st =>
    if !hasNextT st then some (none, st)
    else
      let start := st.pos
      let curr := nextTok st
      if curr.Matches ["("] then
        let (_, st1) := expectTok st ("(")
        match parseExpression f st1 with
        | none => none
        | some (exprOpt, st2) =>
          if (nextTok st2).Matches [","] then parseGroupedList f (orNil exprOpt) st2
          else
            let (_, st3) := expectTok st2 (")")
            some (some (.grouping exprOpt), st3)
      else
        let (curr2, st1) := consumeTok st
        match curr2.kind with
        | .number =>
          if !(curr2.value.data.contains '.') then
            some (some (.constant (.integerConst (bigIntSetString curr2.value))), st1)
          else if floatOk curr2.value then
            some (some (.constant (.floatingConst curr2.value)), st1)
          else none
        | .identifier => some (some (.constant (.variableRef curr2)), st1)
        | .charTok => some (some (.constant (.charConst curr2.value)), st1)
        | .stringTok => some (some (.constant (.stringConst curr2.value)), st1)
        | .endOfFile => some (none, st1)
        | .symbol =>
          some (none,
            errorP st1 (.unimplementedError ("parse") (tokenTypeName curr2.kind) start st1.pos))
termination_by structural fuel _ => fuel

/-- parseBuiltin from front/parse.go: name ! [(] type-ref [args] [)]. -/
def parseBuiltin : Nat → PState → Option (Option ExpressionNode × PState)
  | 0, _ => none
  | f + 1, st =>
    let (builtinTok, st1) := expectKind st .identifier
    let (_, st2) := expectTok st1 ("!")
    let (parens, st3) :=
      if (nextTok st2).Matches ["("] then (true, (consumeTok st2).2) else (false, st2)
    let (ref, st4) := expectKind st3 .identifier
    if parens then
      match builtinArgsLoop f [] st4 with
      | none => none
      | some (args, st5) =>
        let (_, st6) := expectTok st5 (")")
        some (some (.builtin builtinTok.value ref args), st6)
    else some (some (.builtin builtinTok.value ref []), st4)
termination_by structural fuel _ => fuel

/-- Argument loop of parseBuiltin. -/
def builtinArgsLoop : Nat → List ExpressionNode → PState → Option (List ExpressionNode × PState)
  | 0, _, _ => none
  | f + 1, args, st =>
    if hasNextT st then
      let st1 := if (nextTok st).Matches [","] then (consumeTok st).2 else st
      if (nextTok st1).Matches [")"] then some (args, st1)
      else
        match parseExpression f st1 with
        | none => none
        | some (none, st2) => builtinArgsLoop f args st2
        | some (some a, st2) => builtinArgsLoop f (args ++ [a]) st2
    else some (args, st)
termination_by structural fuel _ _ => fuel

/-- parseCall from front/parse.go (a nil argument records a diagnostic and
is still appended). -/
def parseCall : Nat → ExpressionNode → PState → Option (Option ExpressionNode × PState)
  | 0, _, _ => none
  | f + 1, left, st =>
    let start := st.pos
    let (_, st1) := expectTok st ("(")
    match callArgsLoop f start 0 [] st1 with
    | none => none
    | some (params, st2) =>
      let (_, st3) := expectTok st2 (")")
      some (some (.call left params), st3)
termination_by structural fuel _ _ => fuel

/-- Argument loop of parseCall. -/
def callArgsLoop :
    Nat → Nat → Nat → List ExpressionNode → PState → Option (List ExpressionNode × PState)
  | 0, _, _, _, _ => none
  | f + 1, start, idx, params, st =>
    if hasNextT st && !(nextTok st).Matches [")"] then
      let st1 := if idx ≠ 0 then (expectTok st (",")).2 else st
      match parseExpression f st1 with
      | none => none
      | some (valOpt, st2) =>
        let st2b :=
          if valOpt.isNone then
            errorP st2 (.parseError ("parameter in call expression") start st2.pos)
          else st2
        callArgsLoop f start (idx + 1) (params ++ [orNil valOpt]) st2b
    else some (params, st)
termination_by structural fuel _ _ _ _ => fuel

/-- parseIndex from front/parse.go. -/
def parseIndex : Nat → ExpressionNode → PState → Option (Option ExpressionNode × PState)
  | 0, _, _ => none
  | f + 1, left, st =>
    let start := st.pos
    let (_, st1) := expectTok st ("[")
    match parseExpression f st1 with
    | none => none
    | some (valOpt, st2) =>
      let st2b :=
        if valOpt.isNone then
          errorP st2 (.parseError ("expression in array index") start st2.pos)
        else st2
      let (_, st3) := expectTok st2b ("]")
      some (some (.index left valOpt), st3)
termination_by structural fuel _ _ => fuel

/-- parseLambda from front/parse.go. -/
def parseLambda : Nat → PState → Option (Option ExpressionNode × PState)
  | 0, _ => none
  | f + 1, st =>
    match parseFunctionPrototypeDeclaration f st with
    | none => none
    | some (proto, st1) =>
      match parseStatBlock f st1 with
      | none => none
      | some (bodyOpt, st2) => some (some (.lambda proto bodyOpt), st2)
termination_by structural fuel _ => fuel

/-- parseInitializer from front/parse.go: : Name \x7b values \x7d. -/
def parseInitializer : Nat → PState → Option (Option ExpressionNode × PState)
  | 0, _ => none
  | f + 1, st =>
    let (_, st1) := expectTok st (":")
    let (lhand, st2) := expectKind st1 .identifier
    let (_, st3) := expectTok st2 lbrace
    match initListLoop f [] st3 with
    | none => none
    | some (els, st4) =>
      let (_, st5) := expectTok st4 rbrace
      some (some (.initExpr .structureInit lhand els), st5)
termination_by structural fuel _ => fuel

/-- Element loop of parseInitializer. -/
def initListLoop : Nat → List ExpressionNode → PState → Option (List ExpressionNode × PState)
  | 0, _, _ => none
  | f + 1, els, st =>
    if hasNextT st then
      let st1 := if (nextTok st).Matches [","] then (consumeTok st).2 else st
      if (nextTok st1).Matches [rbrace] then some (els, st1)
      else
        match parseExpression f st1 with
        | none => none
        | some (none, st2) => initListLoop f els st2
        | some (some e, st2) => initListLoop f (els ++ [e]) st2
    else some (els, st)
termination_by structural fuel _ _ => fuel

/-- parsePrimaryExpr from front/parse.go: type expressions, initializers,
lambdas, unary expressions, builtins, then an operand with optional
index or call postfix. The Go nil-check after parseInitializer is vacuous
(the initializer node is always constructed). -/
def parsePrimaryExpr : Nat → PState → Option (Option ExpressionNode × PState)
  | 0, _ => none
  | f + 1, st =>
    if !hasNextT st then some (none, st)
    else if (nextTok st).Matches [kwStruct, "*", "[", "("] then parseTypeExpression f st
    else if (nextTok st).Matches [":"] then parseInitializer f st
    else if (nextTok st).Matches [kwFn] then parseLambda f st
    else if (nextTok st).Matches unaryOperatorsL then parseUnaryExpr f st
    else if (nextTok st).Matches builtinsL then parseBuiltin f st
    else
      match parseOperand f st with
      | none => none
      | some (none, st1) => some (none, st1)
      | some (some left, st1) =>
        if (nextTok st1).Matches ["["] then parseIndex f left st1
        else if (nextTok st1).Matches ["("] then parseCall f left st1
        else some (some left, st1)
termination_by structural fuel _ => fuel

/-- parseLeft from front/parse.go. -/
def parseLeft : Nat → PState → Option (Option ExpressionNode × PState)
  | 0, _ => none
  | f + 1, st =>
    match parsePrimaryExpr f st with
    | none => none
    | some (some e, st1) => some (some e, st1)
    | some (none, st1) => parseUnaryExpr f st1
termination_by structural fuel _ => fuel

/-- parsePrec from front/parse.go: precedence climbing. The minimum
precedence for a right-hand operand is raised to one more than the current
operator precedence, and the loop accumulates a left-associative tree. -/
def parsePrec : Nat → Int → ExpressionNode → PState → Option (Option ExpressionNode × PState)
  | 0, _, _, _ => none
  | f + 1, lastPrec, left, st =>
    if hasNextT st then
      let prec := getOpPrec (nextTok st).value
      if prec < lastPrec then some (some left, st)
      else if !hasNextT st then some (some left, st)
      else if (opPrecMap (nextTok st).value).isNone then some (some left, st)
      else
        let (op, st1) := consumeTok st
        match parsePrimaryExpr f st1 with
        | none => none
        | some (none, st2) => some (none, st2)
        | some (some right, st2) =>
          if !hasNextT st2 then
            some (some (.binary left op.value right), st2)
          else
            let nextPrec := getOpPrec (nextTok st2).value
            if prec < nextPrec then
              match parsePrec f (prec + 1) right st2 with
              | none => none
              | some (none, st3) => some (none, st3)
              | some (some right2, st3) =>
                parsePrec f lastPrec (.binary left op.value right2) st3
            else parsePrec f lastPrec (.binary left op.value right) st2
    else some (some left, st)
termination_by structural fuel _ _ _ => fuel

/-- parseAssign from front/parse.go. -/
def parseAssign : Nat → ExpressionNode → PState → Option (Option ExpressionNode × PState)
  | 0, _, _ => none
  | f + 1, left, st =>
    if !hasNextT st then some (none, st)
    else
      let start := st.pos
      let (op, st1) := consumeTok st
      match parseExpression f st1 with
      | none => none
      | some (rightOpt, st2) =>
        let st2b :=
          if rightOpt.isNone then
            errorP st2 (.parseError ("expression after assignment operator") start st2.pos)
          else st2
        some (some (.assign left op.value rightOpt), st2b)
termination_by structural fuel _ _ => fuel

/-- parseDotList from front/parse.go: the flattened-looking list whose tail
elements come from full parseExpression calls (so nested dot lists nest a
path inside the path; the IR builder flattens them). -/
def parseDotList : Nat → ExpressionNode → PState → Option (Option ExpressionNode × PState)
  | 0, _, _ => none
  | f + 1, left, st =>
    let start := st.pos
    match dotListLoop f start [left] st with
    | none => none
    | some (list, st1) => some (some (.path list), st1)
termination_by structural fuel _ _ => fuel

/-- Element loop of parseDotList. -/
def dotListLoop : Nat → Nat → List ExpressionNode → PState → Option (List ExpressionNode × PState)
  | 0, _, _, _ => none
  | f + 1, start, list, st =>
    if hasNextT st && (nextTok st).Matches ["."] then
      let (_, st1) := expectTok st (".")
      match parseExpression f st1 with
      | none => none
      | some (valOpt, st2) =>
        let st2b :=
          if valOpt.isNone then
            errorP st2 (.parseError ("expression in dot-list") start st2.pos)
          else st2
        dotListLoop f start (list ++ [orNil valOpt]) st2b
    else some (list, st)
termination_by structural fuel _ _ _ => fuel

/-- parseExpression from front/parse.go: left operand, then dot-list,
assignment or precedence climbing. -/
def parseExpression : Nat → PState → Option (Option ExpressionNode × PState)
  | 0, _ => none
  | f + 1, st =>
    match parseLeft f st with
    | none => none
    | some (none, st1) => some (none, st1)
    | some (some left, st1) =>
      if (nextTok st1).Matches ["."] then parseDotList f left st1
      else if (nextTok st1).Matches assignOperatorsL then parseAssign f left st1
      else if (opPrecMap (nextTok st1).value).isSome then parsePrec f 0 left st1
      else some (some left, st1)
termination_by structural fuel _ => fuel

/-- parseExpressionStatement from front/parse.go. -/
def parseExpressionStatement : Nat → PState → Option (Option ParseTreeNode × PState)
  | 0, _ => none
  | f + 1, st =>
    match parseExpression f st with
    | none => none
    | some (some e, st1) => some (some (.exprStat e), st1)
    | some (none, st1) => some (none, st1)
termination_by structural fuel _ => fuel

/-- skipDirective from front/parse.go. -/
def skipDirective : Nat → PState → Option PState
  | 0, _ => none
  | f + 1, st =>
    let (_, st1) := expectTok st ("#")
    let (_, st2) := expectTok st1 lbrace
    match skipDirectiveLoop f st2 with
    | none => none
    | some st3 =>
      let (_, st4) := expectTok st3 rbrace
      some st4

/-- Skipping loop of skipDirective. -/
def skipDirectiveLoop : Nat → PState → Option PState
  | 0, _ => none
  | f + 1, st =>
    if hasNextT st && !(nextTok st).Matches [rbrace] then
      skipDirectiveLoop f (consumeTok st).2
    else some st
termination_by structural fuel _ => fuel

/-- parseNode from front/parse.go: one top-level declaration or statement;
the boolean mirrors the ok flag of the Go signature (always true). -/
def parseNode : Nat → PState → Option (Option ParseTreeNode × Bool × PState)
  | 0, _ => none
  | f + 1, st =>
    let start := st.pos
    let startingTok := nextTok st
    let curr := nextTok st
    if curr.Matches ["#"] then
      match skipDirective f st with
      | none => none
      | some st1 => some (none, true, st1)
    else if curr.Matches [kwTrait] then
      match parseTraitDeclaration f st with
      | none => none
      | some ((name, members), st1) => some (some (.traitDecl name members), true, st1)
    else if curr.Matches [kwImpl] then
      match parseImplDeclaration f st with
      | none => none
      | some ((name, fns), st1) => some (some (.implDecl name fns), true, st1)
    else if curr.Matches [kwFn] then
      match parseFunctionDeclaration f st with
      | none => none
      | some (fd, st1) => some (some (.functionDecl fd), true, st1)
    else if curr.Matches [kwType] then
      match parseTypeAlias f st with
      | none => none
      | some (nOpt, st1) =>
        let (_, st2) := expectTok st1 (";")
        some (nOpt, true, st2)
    else if curr.Matches [kwMut] then
      match parseMut f st with
      | none => none
      | some (nOpt, st1) =>
        let (_, st2) := expectTok st1 (";")
        some (nOpt, true, st2)
    else if curr.Matches [kwLet] then
      match parseLet f st with
      | none => none
      | some (nOpt, st1) =>
        let (_, st2) := expectTok st1 (";")
        some (nOpt, true, st2)
    else
      match parseExpressionStatement f st with
      | none => none
      | some (nOpt, st1) =>
        let st1b :=
          if nOpt.isNone then
            errorP st1 (.unimplementedError ("parse") startingTok.value start st1.pos)
          else st1
        let (_, st2) := expectTok st1b (";")
        some (nOpt, true, st2)

/-- Top-level loop of ParseTokenStream. -/
def parseNodesLoop :
    Nat → List ParseTreeNode → PState → Option (List ParseTreeNode × List CompilerError)
  | 0, _, _ => none
  | f + 1, nodes, st =>
    if hasNextT st then
      match parseNode f st with
      | none => none
      | some (nodeOpt, ok, st1) =>
        if ok then
          match nodeOpt with
          | some n => parseNodesLoop f (nodes ++ [n]) st1
          | none => parseNodesLoop f nodes st1
        else some (nodes, st1.errs)
    else some (nodes, st.errs)
termination_by structural fuel _ _ => fuel

end

/-- ParseTokenStream from front/parse.go: parse the whole token stream into
top-level nodes plus accumulated diagnostics. -/
def ParseTokenStream (fuel : Nat) (stream : List Token) :
    Option (List ParseTreeNode × List CompilerError) :=
  parseNodesLoop fuel [] ⟨stream, 0, []⟩

/-! ## IR data model (ir package) -/

/-- Both span offsets of a token (Token.Span in the api package). -/
def Token.spanList (t : Token) : List Nat :=
  [t.spanStart, t.spanEnd]

mutual

/-- IR types: primitives, pointers, arrays, tuples, forward references by
name, and concrete structures. -/
inductive Ty where
  | primitive (name : String)
  | pointer (base : Ty)
  | arrayTy (base : Ty) (size : Value)
  | tuple (els : List Ty)
  | reference (name : String)
  | structTy (s : StructureIR)

/-- IR structure: name and ordered field dictionary. -/
inductive StructureIR where
  | mk (name : Token) (fields : List TDEntry)

/-- One entry of a type dictionary: name, ownership flag and type.
Modelled from the spec: ordered name to (owned, type) mapping. -/
inductive TDEntry where
  | mk (name : String) (owned : Bool) (type : Ty)

/-- IR values (the Value variants of the ir package). emptyValue is the
zero Value that buildLambda returns for the unimplemented lambda case. -/
inductive Value where
  | integerValue (v : Option Int)
  | floatingValue (raw : String)
  | stringValue (v : String)
  | characterValue (v : String)
  | identifier (name : Token)
  | binary (l : Value) (op : String) (r : Value)
  | unary (op : String) (v : Value)
  | grouping (v : Value)
  | builtinValue (name : String) (type : Ty) (args : List Value)
  | callValue (left : Value) (params : List Value)
  | indexValue (left : Value) (sub : Value)
  | pathValue (vals : List Value)
  | initValue (kind : InitKind) (iden : Option Token) (vals : List Value)
  | assignValue (l : Value) (op : String) (r : Value)
  | emptyValue

end

/-- Scope tree of symbol tables: a mapping for the own scope plus an
optional outer scope (SymbolTable.Outer; the root has none). -/
inductive SymbolTable where
  | root (entries : List (String × Ty))
  | nested (entries : List (String × Ty)) (outer : SymbolTable)

/-- Outer link of a scope (none at the root). -/
def SymbolTable.outerOpt : SymbolTable → Option SymbolTable
  | .root _ => none
  | .nested _ o => some o

/-- Lookup. Modelled from the spec: identifier resolution walks outward
through Outer links until the name is found or the chain is exhausted. -/
def SymbolTable.lookupST : SymbolTable → String → Option Ty
  | .root es, n => (es.find? (fun p => p.1 == n)).map (fun p => p.2)
  | .nested es o, n =>
    match (es.find? (fun p => p.1 == n)).map (fun p => p.2) with
    | some t => some t
    | none => o.lookupST n

/-- RegisterType into the current scope. Modelled from the spec: the scope
holds a name-to-type mapping for that scope only; last write wins. -/
def SymbolTable.registerST : SymbolTable → String → Ty → SymbolTable
  | .root es, n, t => .root (es ++ [(n, t)])
  | .nested es o, n, t => .nested (es ++ [(n, t)]) o

/-- IR local declaration: name, optional type, ownership, mutability and
optional initial value. -/
inductive LocalIR where
  | mk (name : Token) (type : Option Ty) (owned : Bool) (mutableFlag : Bool)
      (val : Option Value)

/-- Name accessor. -/
def LocalIR.name : LocalIR → Token
  | .mk n _ _ _ _ => n

/-- Type accessor. -/
def LocalIR.type : LocalIR → Option Ty
  | .mk _ t _ _ _ => t

/-- Value accessor. -/
def LocalIR.val : LocalIR → Option Value
  | .mk _ _ _ _ v => v

mutual

/-- IR instructions (the Instruction variants of the ir package). -/
inductive Instruction where
  | localInstr (l : LocalIR)
  | allocaInstr (name : Token) (type : Option Ty) (val : Option Value)
  | returnInstr (val : Option Value)
  | ifInstr (cond : Value) (trueBlk : Block) (elseIfs : List ElseIfIR)
      (elseBlk : Option Block)
  | whileInstr (cond : Value) (post : Option Value) (body : Block)
  | loopInstr (body : Block)
  | blockInstr (b : Block)
  | breakInstr
  | nextInstr
  | jumpInstr (loc : Token)
  | labelInstr (name : Token)
  | exprInstr (v : Value)
  | deferInstr (d : DeferIR)

/-- IR defer payload: a single statement or a block. -/
inductive DeferIR where
  | mk (stat : Option Instruction) (block : Option Block)

/-- IR else-if arm. -/
inductive ElseIfIR where
  | mk (cond : Value) (body : Block)

/-- IR block. Modelled from the spec: Block(instructions, deferred,
trailing-return?) — an ordered instruction list, the deferred list, the
block scope and the single trailing-return slot. -/
inductive Block where
  | mk (instr : List Instruction) (stab : Option SymbolTable)
      (deferStack : List DeferIR) (ret : Option Instruction)

end

/-- Instruction-list accessor. -/
def Block.instrs : Block → List Instruction
  | .mk i _ _ _ => i

/-- Scope accessor. -/
def Block.stab : Block → Option SymbolTable
  | .mk _ s _ _ => s

/-- Deferred-list accessor. -/
def Block.defers : Block → List DeferIR
  | .mk _ _ d _ => d

/-- Trailing-return accessor. -/
def Block.retSlot : Block → Option Instruction
  | .mk _ _ _ r => r

/-- NewBlock of the ir package: empty block, no scope yet. -/
def NewBlock : Block :=
  .mk [] none [] none

/-- AddInstr. Modelled from the spec: append to the ordered instruction
list. -/
def Block.AddInstr : Block → Instruction → Block
  | .mk i s d r, ins => .mk (i ++ [ins]) s d r

/-- PushDefer. Modelled from the spec: append to the deferred list. -/
def Block.PushDefer : Block → DeferIR → Block
  | .mk i s d r, df => .mk i s (d ++ [df]) r

/-- SetReturn. Modelled from the spec: store into the single
trailing-return slot, overwriting any earlier return. -/
def Block.SetReturn : Block → Instruction → Block
  | .mk i s d _, ins => .mk i s d (some ins)

/-- IR function: name, per-parameter mutability table, parameter type
dictionary, return type, body and scope. -/
structure FunctionIR where
  name : Token
  mutabilityTable : List Bool
  params : List TDEntry
  returnType : Ty
  body : Block
  stab : Option SymbolTable

/-- IR impl: name and ordered method registry. -/
structure ImplIR where
  name : Token
  methods : List (String × FunctionIR)

/-- NewImpl of the ir package: no methods yet. -/
def NewImpl (name : Token) : ImplIR :=
  ⟨name, []⟩

/-- The IR module: name-keyed registries for structures, impls and
functions, function declaration order, and the root scope. -/
structure Module where
  nameM : String
  structures : List (String × StructureIR)
  impls : List (String × ImplIR)
  functions : List (String × FunctionIR)
  functionOrder : List Token
  rootST : SymbolTable

/-- NewModule of the ir package. -/
def NewModule (n : String) : Module :=
  ⟨n, [], [], [], [], .root []⟩

/-- Association-list get (Go map read, insertion order preserved). -/
def assocGet (l : List (String × α)) (k : String) : Option α :=
  (l.find? (fun p => p.1 == k)).map (fun p => p.2)

/-- Association-list set (Go map write: overwrite in place or append). -/
def assocSet (l : List (String × α)) (k : String) (v : α) : List (String × α) :=
  match l with
  | [] => [(k, v)]
  | (k1, v1) :: rest =>
    if k1 == k then (k, v) :: rest else (k1, v1) :: assocSet rest k v

/-- Structure name accessor. -/
def StructureIR.name : StructureIR → Token
  | .mk n _ => n

/-- Structure fields accessor. -/
def StructureIR.fields : StructureIR → List TDEntry
  | .mk _ f => f

/-- TypeDict Set. Modelled from the spec: overwrite the named entry or
append a new one, preserving order (last write wins). -/
def tdSet (d : List TDEntry) (n : String) (owned : Bool) (t : Ty) : List TDEntry :=
  match d with
  | [] => [.mk n owned t]
  | .mk n1 o1 t1 :: rest =>
    if n1 == n then .mk n owned t :: rest else .mk n1 o1 t1 :: tdSet rest n owned t

/-- Module.RegisterStructure. Modelled from the spec: register by name,
last write wins. -/
def Module.RegisterStructure (m : Module) (s : StructureIR) : Module :=
  { m with structures := assocSet m.structures s.name.value s }

/-- Module.GetStructure. Modelled from the spec. -/
def Module.GetStructure (m : Module) (k : String) : Option StructureIR :=
  assocGet m.structures k

/-- Module.SetStructure: write back a structure mutated in place by the Go
code (functional update of the registry). -/
def Module.SetStructure (m : Module) (k : String) (s : StructureIR) : Module :=
  { m with structures := assocSet m.structures k s }

/-- Module.RegisterImpl. Modelled from the spec: duplicate impl names are
detected and reported; the boolean is true exactly on a duplicate, in which
case the first registration is kept. -/
def Module.RegisterImpl (m : Module) (i : ImplIR) : Bool × Module :=
  if (assocGet m.impls i.name.value).isSome then (true, m)
  else (false, { m with impls := m.impls ++ [(i.name.value, i)] })

/-- Module.GetImpl. Modelled from the spec. -/
def Module.GetImpl (m : Module) (k : String) : Option ImplIR :=
  assocGet m.impls k

/-- Module.SetImpl: write back an impl mutated in place by the Go code. -/
def Module.SetImpl (m : Module) (k : String) (i : ImplIR) : Module :=
  { m with impls := assocSet m.impls k i }

/-- Impl.RegisterMethod. Modelled from the spec: duplicate method names are
flagged (false) and the first registration is kept. -/
def ImplIR.RegisterMethod (impl : ImplIR) (fn : FunctionIR) : Bool × ImplIR :=
  if (assocGet impl.methods fn.name.value).isSome then (false, impl)
  else (true, { impl with methods := impl.methods ++ [(fn.name.value, fn)] })

/-- Module.RegisterFunction. Modelled from the spec: name registry plus
declaration order. -/
def Module.RegisterFunction (m : Module) (fn : FunctionIR) : Module :=
  { m with functions := assocSet m.functions fn.name.value fn,
           functionOrder := m.functionOrder ++ [fn.name] }

/-- The PrimitiveType table. Modelled from the spec: canonical primitive
descriptors for the built-in type names. -/
def primitiveNames : List String :=
  ["void", "bool", "rune", "int", "uint",
   "u8", "u16", "u32", "u64", "s8", "s16", "s32", "s64", "f32", "f64"]

/-- Primitive lookup of the ir package (Modelled from the spec). -/
def PrimitiveType (n : String) : Option Ty :=
  if primitiveNames.contains n then some (.primitive n) else none

/-- The canonical Void type of the ir package (Modelled from the spec:
return types default to it). -/
def Void : Ty :=
  .primitive "void"

/-! ## IR builder (AST to IR lowering) -/

/-- buildUnresolvedType: primitive names map to their canonical
descriptor, anything else becomes a Reference carrying the raw name. -/
def buildUnresolvedType (n : String) : Ty :=
  match PrimitiveType n with
  | some t => t
  | none => .reference n

/-- buildConst of the builder: constants map 1:1 onto Value variants. -/
def buildConst : ConstantNode → Value
  | .integerConst v => .integerValue v
  | .floatingConst raw => .floatingValue raw
  | .stringConst v => .stringValue v
  | .charConst v => .characterValue v
  | .variableRef tok => .identifier tok

/-- NewStructure via declareStructure: the named structure with an empty
field dictionary (fields are filled by the second sweep). -/
def declareStructure (name : Token) : StructureIR :=
  .mk name []

mutual

/-- buildType of the builder, reached through the parser's TypeExpression
wrapper: the Go code switches on the wrapped type node and panics on a nil
node or on any expression that is not a type expression (its default
unimplemented-type panic). -/
def buildTypeOfExpr : Nat → ExpressionNode → Option Ty
  | 0, _ => none
  | f + 1, e =>
    match e with
    | .typeExpr (some t) => buildTypeNode f t
    | _ => none
termination_by structural fuel _ => fuel

/-- buildType on a type node: unresolved names, pointers, arrays and
tuples; a structure type node hits the default panic of the Go switch. -/
def buildTypeNode : Nat → TypeNode → Option Ty
  | 0, _ => none
  | f + 1, t =>
    match t with
    | .unresolvedType n => some (buildUnresolvedType n)
    | .pointerType base =>
      match buildTypeOfExpr f base with
      | none => none
      | some b => some (.pointer b)
    | .arrayType baseOpt sizeOpt =>
      match sizeOpt with
      | none => none
      | some sz =>
        match buildExpr f sz with
        | none => none
        | some size =>
          match baseOpt with
          | none => none
          | some be =>
            match buildTypeOfExpr f be with
            | none => none
            | some b => some (.arrayTy b size)
    | .tupleType types =>
      match buildTypeList f types with
      | none => none
      | some ts => some (.tuple ts)
    | .structureType _ _ => none
termination_by structural fuel _ => fuel

/-- Elementwise buildType over a tuple's component list. -/
def buildTypeList : Nat → List ExpressionNode → Option (List Ty)
  | 0, _ => none
  | f + 1, es =>
    match es with
    | [] => some []
    | e :: rest =>
      match buildTypeOfExpr f e with
      | none => none
      | some t =>
        match buildTypeList f rest with
        | none => none
        | some ts => some (t :: ts)
termination_by structural fuel _ => fuel

/-- buildExpr of the builder: each AST expression kind maps 1:1 onto an IR
Value variant; a path whose flattening ends in a binary expression is
reassociated so the path becomes the left operand of the binary expression;
list and type expressions hit the default unhandled-expression panic; a nil
child dereferences a nil pointer. The builtin case reconciles the parser's
type-reference token with the builder's type lowering by treating the
referenced name as an unresolved type. -/
def buildExpr : Nat → ExpressionNode → Option Value
  | 0, _ => none
  | f + 1, e =>
    match e with
    | .constant c => some (buildConst c)
    | .lambda _ _ => some .emptyValue
    | .binary l op r =>
      match buildExpr f l with
      | none => none
      | some lv =>
        match buildExpr f r with
        | none => none
        | some rv => some (.binary lv op rv)
    | .grouping vOpt =>
      match vOpt with
      | none => none
      | some v =>
        match buildExpr f v with
        | none => none
        | some vv => some (.grouping vv)
    | .builtin name ref args =>
      match buildExprList f args with
      | none => none
      | some avs => some (.builtinValue name (buildUnresolvedType ref.value) avs)
    | .unary op vOpt =>
      match vOpt with
      | none => none
      | some v =>
        match buildExpr f v with
        | none => none
        | some vv => some (.unary op vv)
    | .assign l op rOpt =>
      match rOpt with
      | none => none
      | some r =>
        match buildExpr f l with
        | none => none
        | some lv =>
          match buildExpr f r with
          | none => none
          | some rv => some (.assignValue lv op rv)
    | .call left params =>
      match buildExpr f left with
      | none => none
      | some lv =>
        match buildExprList f params with
        | none => none
        | some pvs => some (.callValue lv pvs)
    | .path vals =>
      match buildPathExpression f vals with
      | none => none
      | some flat =>
        match flat.getLast? with
        | none => none
        | some last =>
          match last with
          | .binary lh op rh =>
            some (.binary (.pathValue (flat.dropLast ++ [lh])) op rh)
          | _ => some (.pathValue flat)
    | .index l sOpt =>
      match buildExpr f l with
      | none => none
      | some lv =>
        match sOpt with
        | none => none
        | some s =>
          match buildExpr f s with
          | none => none
          | some sv => some (.indexValue lv sv)
    | .initExpr kind lhand vals =>
      match buildExprList f vals with
      | none => none
      | some vvs =>
        let iden := if kind = .structureInit then some lhand else none
        some (.initValue kind iden vvs)
    | .exprList _ => none
    | .typeExpr _ => none
    | .nilExpr => none
termination_by structural fuel _ => fuel

/-- Elementwise buildExpr over an argument list. -/
def buildExprList : Nat → List ExpressionNode → Option (List Value)
  | 0, _ => none
  | f + 1, es =>
    match es with
    | [] => some []
    | e :: rest =>
      match buildExpr f e with
      | none => none
      | some v =>
        match buildExprList f rest with
        | none => none
        | some vs => some (v :: vs)
termination_by structural fuel _ => fuel

/-- buildPathExpression's element loop: each element is lowered, and a
lowered element that is itself a path is spliced into the enclosing value
list (the builder's flattening of the parser's nested paths). -/
def buildPathExpression : Nat → List ExpressionNode → Option (List Value)
  | 0, _ => none
  | f + 1, es =>
    match es with
    | [] => some []
    | e :: rest =>
      match buildExpr f e with
      | none => none
      | some v =>
        match buildPathExpression f rest with
        | none => none
        | some vs =>
          match v with
          | .pathValue inner => some (inner ++ vs)
          | _ => some (v :: vs)
termination_by structural fuel _ => fuel

end

/-- buildLetStat: value first, then the declared type (a let without either
stays typeless; type inference is a no-op TODO in the builder). -/
def buildLetStat (fuel : Nat) (name : Token) (owned : Bool)
    (typOpt valOpt : Option ExpressionNode) : Option Instruction :=
  match (match valOpt with
         | none => some none
         | some v => (buildExpr fuel v).map some) with
  | none => none
  | some val =>
    match typOpt with
    | some t =>
      match buildTypeOfExpr fuel t with
      | none => none
      | some ty => some (.localInstr (.mk name (some ty) owned true val))
    | none => some (.localInstr (.mk name none owned true val))

/-- buildMutStat: like buildLetStat, except that a mut statement with
neither a declared type nor a value panics ("no expression to infer
from"). -/
def buildMutStat (fuel : Nat) (name : Token) (owned : Bool)
    (typOpt valOpt : Option ExpressionNode) : Option Instruction :=
  match (match valOpt with
         | none => some none
         | some v => (buildExpr fuel v).map some) with
  | none => none
  | some val =>
    match typOpt with
    | some t =>
      match buildTypeOfExpr fuel t with
      | none => none
      | some ty => some (.localInstr (.mk name (some ty) owned true val))
    | none =>
      match val with
      | none => none
      | some v => some (.localInstr (.mk name none owned true (some v)))

/-- buildReturnStat. -/
def buildReturnStat (fuel : Nat) (valOpt : Option ExpressionNode) : Option Instruction :=
  match valOpt with
  | none => some (.returnInstr none)
  | some v =>
    match buildExpr fuel v with
    | none => none
    | some vv => some (.returnInstr (some vv))

mutual

/-- buildStat of the builder: one IR instruction per statement kind; any
statement kind without a case (type aliases and declarations appearing in
statement position) hits the default unimplemented-stat panic. -/
def buildStat : Nat → ParseTreeNode → Option Instruction
  | 0, _ => none
  | f + 1, stat =>
    match stat with
    | .blockStat bOpt =>
      match bOpt with
      | none => none
      | some b =>
        match buildBlock f b with
        | none => none
        | some blk => some (.blockInstr blk)
    | .letStat name owned typOpt valOpt => buildLetStat f name owned typOpt valOpt
    | .mutStat name owned typOpt valOpt => buildMutStat f name owned typOpt valOpt
    | .returnStat valOpt => buildReturnStat f valOpt
    | .breakStat => some .breakInstr
    | .nextStat => some .nextInstr
    | .loopStat b =>
      match buildBlock f b with
      | none => none
      | some blk => some (.loopInstr blk)
    | .whileStat condOpt postOpt blk =>
      match condOpt with
      | none => none
      | some ce =>
        match buildExpr f ce with
        | none => none
        | some cond =>
          match (match postOpt with
                 | none => some none
                 | some pe => (buildExpr f pe).map some) with
          | none => none
          | some post =>
            match buildBlock f blk with
            | none => none
            | some body => some (.whileInstr cond post body)
    | .ifStat condOpt blockOpt elifs elseOpt =>
      match condOpt with
      | none => none
      | some ce =>
        match buildExpr f ce with
        | none => none
        | some cond =>
          match blockOpt with
          | none => none
          | some be =>
            match buildBlock f be with
            | none => none
            | some t =>
              match buildElifList f elifs with
              | none => none
              | some arms =>
                match (match elseOpt with
                       | none => some none
                       | some eb => (buildBlock f eb).map some) with
                | none => none
                | some fblk => some (.ifInstr cond t arms fblk)
    | .deferStat blockOpt statOpt =>
      match (match statOpt with
             | none => some none
             | some s => (buildStat f s).map some) with
      | none => none
      | some stIr =>
        match (match blockOpt with
               | none => some none
               | some b => (buildBlock f b).map some) with
        | none => none
        | some blkIr => some (.deferInstr (.mk stIr blkIr))
    | .exprStat e =>
      match buildExpr f e with
      | none => none
      | some v => some (.exprInstr v)
    | .jumpStat loc => some (.jumpInstr loc)
    | .labelStat n => some (.labelInstr n)
    | .typeAlias _ _ => none
    | .functionDecl _ => none
    | .implDecl _ _ => none
    | .traitDecl _ _ => none
    | .structureDecl _ _ => none
termination_by structural fuel _ => fuel

/-- Else-if arms of buildIfStat. -/
def buildElifList : Nat → List ElseIfNode → Option (List ElseIfIR)
  | 0, _ => none
  | f + 1, arms =>
    match arms with
    | [] => some []
    | .mk cond body :: rest =>
      match buildExpr f cond with
      | none => none
      | some cv =>
        match buildBlock f body with
        | none => none
        | some bb =>
          match buildElifList f rest with
          | none => none
          | some bs => some (.mk cv bb :: bs)
termination_by structural fuel _ => fuel

/-- buildBlock of the builder: lower every statement, moving defers to the
deferred list and returns to the trailing-return slot; everything else is
appended to the ordered instruction list (the Go nil-check on the lowered
statement is vacuous since buildStat panics instead of returning nil). -/
def buildBlock : Nat → BlockNode → Option Block
  | 0, _ => none
  | f + 1, b => buildBlockLoop f NewBlock b.statements
termination_by structural fuel _ => fuel

/-- Statement loop of buildBlock. -/
def buildBlockLoop : Nat → Block → List ParseTreeNode → Option Block
  | 0, _, _ => none
  | f + 1, res, stats =>
    match stats with
    | [] => some res
    | stat :: rest =>
      match buildStat f stat with
      | none => none
      | some st =>
        let res2 :=
          match st with
          | .deferInstr d => res.PushDefer d
          | .returnInstr _ => res.SetReturn st
          | _ => res.AddInstr st
        buildBlockLoop f res2 rest
termination_by structural fuel _ _ => fuel

end

/-- Parameter loop of buildFunc: one type-dictionary entry plus one
mutability flag per declared argument. -/
def buildParamsLoop (fuel : Nat) :
    List NamedType → List TDEntry → List Bool → Option (List TDEntry × List Bool)
  | [], params, mt => some (params, mt)
  | .mk isMut name owned typOpt :: rest, params, mt =>
    match typOpt with
    | none => none
    | some te =>
      match buildTypeOfExpr fuel te with
      | none => none
      | some ty => buildParamsLoop fuel rest (tdSet params name.value owned ty) (mt ++ [isMut])

/-- buildFunc of the builder: parameter table and mutability table in
declaration order, return type defaulting to Void, and the lowered body (a
bodyless declaration dereferences a nil block and panics). -/
def buildFunc (fuel : Nat) (fd : FunctionDeclaration) : Option FunctionIR :=
  match buildParamsLoop fuel fd.proto.args [] [] with
  | none => none
  | some (params, mt) =>
    match (match fd.proto.returnType with
           | none => some Void
           | some rt => buildTypeOfExpr fuel rt) with
    | none => none
    | some ret =>
      match fd.body with
      | none => none
      | some b =>
        match buildBlock fuel b with
        | none => none
        | some body => some ⟨fd.proto.name, mt, params, ret, body, none⟩

/-- Method loop of buildTree's impl sweep: lower each declared method and
register it, reporting a symbol error (and keeping the first registration)
on a duplicate method name. -/
def registerMethodsInto (fuel : Nat) :
    ImplIR → List FunctionDeclaration → List CompilerError →
    Option (ImplIR × List CompilerError)
  | impl, [], errs => some (impl, errs)
  | impl, fn :: rest, errs =>
    match buildFunc fuel fn with
    | none => none
    | some bf =>
      let (ok, impl2) := impl.RegisterMethod bf
      let errs2 :=
        if ok then errs
        else errs ++ [.symbolError fn.proto.name.value fn.proto.name.spanList]
      registerMethodsInto fuel impl2 rest errs2

/-- First sweep of buildTree: register every structure (with empty fields)
and impl (with no methods) by name, collecting the declaration nodes for
the later sweeps and reporting duplicate impl names. -/
def buildTreeSweep1 (m : Module) (errs : List CompilerError) :
    List ParseTreeNode →
    List (Token × List NamedType) → List (Token × List FunctionDeclaration) →
    Module × List CompilerError ×
      List (Token × List NamedType) × List (Token × List FunctionDeclaration)
  | [], sNodes, iNodes => (m, errs, sNodes, iNodes)
  | n :: rest, sNodes, iNodes =>
    match n with
    | .structureDecl name fields =>
      buildTreeSweep1 (m.RegisterStructure (declareStructure name)) errs rest
        (sNodes ++ [(name, fields)]) iNodes
    | .implDecl name fns =>
      let (dup, m2) := m.RegisterImpl (NewImpl name)
      let errs2 := if dup then errs ++ [.duplicateImpl name.value] else errs
      buildTreeSweep1 m2 errs2 rest sNodes (iNodes ++ [(name, fns)])
    | _ => buildTreeSweep1 m errs rest sNodes iNodes

/-- Field loop of buildTree's structure sweep. -/
def buildStructFields (fuel : Nat) :
    StructureIR → List NamedType → Option StructureIR
  | s, [] => some s
  | .mk sname fields, .mk _ fname owned typOpt :: rest =>
    match typOpt with
    | none => none
    | some te =>
      match buildTypeOfExpr fuel te with
      | none => none
      | some ty => buildStructFields fuel (.mk sname (tdSet fields fname.value owned ty)) rest

/-- Second sweep of buildTree: fill the fields of every structure declared
in sweep one (a structure that is suddenly missing from the registry is a
programmer-invariant panic). -/
def buildTreeSweep2 (fuel : Nat) :
    Module → List (Token × List NamedType) → Option Module
  | m, [] => some m
  | m, (name, fields) :: rest =>
    match m.GetStructure name.value with
    | none => none
    | some s =>
      match buildStructFields fuel s fields with
      | none => none
      | some s2 => buildTreeSweep2 fuel (m.SetStructure name.value s2) rest

/-- Third sweep of buildTree: lower and register the methods of every impl
node (both nodes of a duplicated impl feed the single registered impl). -/
def buildTreeSweep3 (fuel : Nat) :
    Module → List CompilerError → List (Token × List FunctionDeclaration) →
    Option (Module × List CompilerError)
  | m, errs, [] => some (m, errs)
  | m, errs, (name, fns) :: rest =>
    match m.GetImpl name.value with
    | none => none
    | some impl =>
      match registerMethodsInto fuel impl fns errs with
      | none => none
      | some (impl2, errs2) => buildTreeSweep3 fuel (m.SetImpl name.value impl2) errs2 rest

/-- Final sweep of buildTree: lower every top-level function declaration. -/
def buildTreeSweep4 (fuel : Nat) :
    Module → List ParseTreeNode → Option Module
  | m, [] => some m
  | m, n :: rest =>
    match n with
    | .functionDecl fd =>
      match buildFunc fuel fd with
      | none => none
      | some fn => buildTreeSweep4 fuel (m.RegisterFunction fn) rest
    | _ => buildTreeSweep4 fuel m rest

/-- buildTree of the builder: the two declaration sweeps (register, then
fill) followed by the function sweep. -/
def buildTree (fuel : Nat) (m : Module) (errs : List CompilerError)
    (nodes : List ParseTreeNode) : Option (Module × List CompilerError) :=
  match buildTreeSweep1 m errs nodes [] [] with
  | (m1, errs1, sNodes, iNodes) =>
    match buildTreeSweep2 fuel m1 sNodes with
    | none => none
    | some m2 =>
      match buildTreeSweep3 fuel m2 errs1 iNodes with
      | none => none
      | some (m3, errs3) =>
        match buildTreeSweep4 fuel m3 nodes with
        | none => none
        | some m4 => some (m4, errs3)

/-- Tree loop of build. -/
def buildLoop (fuel : Nat) :
    Module → List CompilerError → List (List ParseTreeNode) →
    Option (Module × List CompilerError)
  | m, errs, [] => some (m, errs)
  | m, errs, tree :: rest =>
    match buildTree fuel m errs tree with
    | none => none
    | some (m2, errs2) => buildLoop fuel m2 errs2 rest

/-- build of the builder: a single module named main, filled from every
parsed unit in order. -/
def build (fuel : Nat) (trees : List (List ParseTreeNode)) :
    Option (Module × List CompilerError) :=
  buildLoop fuel (NewModule ("main")) [] trees

/-! ## Scope resolution pass (middle/sym_resolve.go) -/

/-- State of the scope-resolution pass: current scope cursor and
diagnostics. -/
structure ResState where
  curr : Option SymbolTable
  errs : List CompilerError
deriving Nonempty

/-- push of the pass: point the cursor at the given scope. -/
def resPush (s : ResState) (stab : Option SymbolTable) : ResState :=
  { s with curr := stab }

/-- pop of the pass: step outward (a no-op on a nil cursor, as in the Go
code). -/
def resPop (s : ResState) : ResState :=
  match s.curr with
  | none => s
  | some st => { s with curr := st.outerOpt }

/-- resolveIden: look the identifier up through the scope chain, reporting
an UnresolvedSymbol diagnostic on failure; a nil cursor dereferences nil
and panics. -/
def resolveIden (s : ResState) (name : Token) : Option ResState :=
  match s.curr with
  | none => none
  | some st =>
    if (st.lookupST name.value).isSome then some s
    else some { s with errs := s.errs ++ [.unresolvedSymbol name.value name.spanList] }

/-- resolveCall: a TODO stub in the source (no sub-expression is
resolved). -/
def resolveCall (s : ResState) : Option ResState :=
  some s

/-- resolveAssign: a TODO stub in the source. -/
def resolveAssign (s : ResState) : Option ResState :=
  some s

mutual

/-- resolveValue of the pass: literals succeed, binary expressions resolve
both operands, identifiers are looked up; every other value kind hits the
default unhandled-value panic. -/
def resolveValue : Nat → ResState → Value → Option ResState
  | 0, _, _ => none
  | f + 1, s, v =>
    match v with
    | .integerValue _ => some s
    | .stringValue _ => some s
    | .floatingValue _ => some s
    | .binary l _ r =>
      match resolveValue f s l with
      | none => none
      | some s1 => resolveValue f s1 r
    | .identifier name => resolveIden s name
    | _ => none
termination_by structural fuel _ _ => fuel

/-- resolveInstr of the pass. Locals and allocas resolve their optional
value, returns resolve their optional value, if statements resolve the
condition and recurse into every branch block (else-if conditions are not
resolved), while loops resolve the condition — and, when a post expression
is present, resolve the condition a second time instead of the post
expression — and recurse into the body; calls and assigns reach their TODO
stubs; every other instruction kind hits the default unhandled panic. -/
def resolveInstr : Nat → ResState → Instruction → Option ResState
  | 0, _, _ => none
  | f + 1, s, i =>
    match i with
    | .allocaInstr _ _ valOpt =>
      match valOpt with
      | none => some s
      | some v => resolveValue f s v
    | .localInstr l =>
      match l.val with
      | none => some s
      | some v => resolveValue f s v
    | .returnInstr valOpt =>
      match valOpt with
      | none => some s
      | some v => resolveValue f s v
    | .ifInstr cond t elifs elseOpt =>
      match resolveValue f s cond with
      | none => none
      | some s1 =>
        match resolveBlock f s1 t with
        | none => none
        | some s2 =>
          match resolveElifBlocks f s2 elifs with
          | none => none
          | some s3 =>
            match elseOpt with
            | none => some s3
            | some e => resolveBlock f s3 e
    | .whileInstr cond postOpt body =>
      match resolveValue f s cond with
      | none => none
      | some s1 =>
        match (match postOpt with
               | none => some s1
               | some _ => resolveValue f s1 cond) with
        | none => none
        | some s2 => resolveBlock f s2 body
    | .loopInstr body => resolveBlock f s body
    | .blockInstr b => resolveBlock f s b
    | .exprInstr (.callValue _ _) => resolveCall s
    | .exprInstr (.assignValue _ _ _) => resolveAssign s
    | _ => none
termination_by structural fuel _ _ => fuel

/-- Else-if body loop of resolveInstr. -/
def resolveElifBlocks : Nat → ResState → List ElseIfIR → Option ResState
  | 0, _, _ => none
  | f + 1, s, arms =>
    match arms with
    | [] => some s
    | .mk _ body :: rest =>
      match resolveBlock f s body with
      | none => none
      | some s1 => resolveElifBlocks f s1 rest
termination_by structural fuel _ _ => fuel

/-- resolveBlock of the pass: push the block scope, resolve the ordered
instruction list, pop. The trailing-return slot and the deferred list are
not visited. -/
def resolveBlock : Nat → ResState → Block → Option ResState
  | 0, _, _ => none
  | f + 1, s, b =>
    match resolveInstrList f (resPush s b.stab) b.instrs with
    | none => none
    | some s1 => some (resPop s1)
termination_by structural fuel _ _ => fuel

/-- Instruction loop of resolveBlock and resolveFunc. -/
def resolveInstrList : Nat → ResState → List Instruction → Option ResState
  | 0, _, _ => none
  | f + 1, s, is =>
    match is with
    | [] => some s
    | i :: rest =>
      match resolveInstr f s i with
      | none => none
      | some s1 => resolveInstrList f s1 rest
termination_by structural fuel _ _ => fuel

end

/-- resolveFunc of the pass: push the function scope and resolve the
instructions of the body's ordered list (the body's trailing-return slot is
never visited). -/
def resolveFunc (fuel : Nat) (s : ResState) (fn : FunctionIR) : Option ResState :=
  match resolveInstrList fuel (resPush s fn.stab) fn.body.instrs with
  | none => none
  | some s1 => some (resPop s1)

/-- Method loop of symResolve. -/
def resolveMethods (fuel : Nat) :
    ResState → List (String × FunctionIR) → Option ResState
  | s, [] => some s
  | s, (_, fn) :: rest =>
    match resolveFunc fuel s fn with
    | none => none
    | some s1 => resolveMethods fuel s1 rest

/-- Impl loop of symResolve. -/
def resolveImpls (fuel : Nat) :
    ResState → List (String × ImplIR) → Option ResState
  | s, [] => some s
  | s, (_, impl) :: rest =>
    match resolveMethods fuel s impl.methods with
    | none => none
    | some s1 => resolveImpls fuel s1 rest

/-- Function loop of symResolve (the Go code ranges over a map; the
registry's insertion order stands in for the unspecified iteration
order). -/
def resolveFns (fuel : Nat) :
    ResState → List (String × FunctionIR) → Option ResState
  | s, [] => some s
  | s, (_, fn) :: rest =>
    match resolveFunc fuel s fn with
    | none => none
    | some s1 => resolveFns fuel s1 rest

/-- symResolve of middle/sym_resolve.go: resolve every impl method body,
then every top-level function body, returning the diagnostics. -/
def symResolve (fuel : Nat) (mod : Module) : Option (List CompilerError) :=
  match resolveImpls fuel ⟨none, []⟩ mod.impls with
  | none => none
  | some s1 =>
    match resolveFns fuel s1 mod.functions with
    | none => none
    | some s2 => some s2.errs

/-! ## Type declaration pass (middle/decl_type.go) -/

/-- State of the type-declaration pass: the module, diagnostics and the
scope cursor. -/
structure DeclState where
  mod : Module
  errs : List CompilerError
  curr : Option SymbolTable

/-- push of the pass. -/
def declPush (d : DeclState) (stab : Option SymbolTable) : DeclState :=
  { d with curr := stab }

/-- pop of the pass: unconditional outer step (a nil cursor dereferences
nil and panics). -/
def declPop (d : DeclState) : Option DeclState :=
  match d.curr with
  | none => none
  | some st => some { d with curr := st.outerOpt }

/-- regType of the pass: register into the current scope (a nil cursor
panics). -/
def regType (d : DeclState) (n : String) (t : Ty) : Option DeclState :=
  match d.curr with
  | none => none
  | some st => some { d with curr := some (st.registerST n t) }

/-- visitLocal of middle/decl_type.go: a typeless local reports the
unimplemented-type-inference diagnostic and is skipped; a local whose
declared type is a Reference is bound to the registered structure of that
name when one exists — the type field is rewritten in place — and left as
the dangling Reference otherwise, with no diagnostic in either case; the
(possibly rewritten) type is then registered under the local's name. -/
def visitLocal (d : DeclState) (l : LocalIR) : Option (LocalIR × DeclState) :=
  match l with
  | .mk name typOpt owned mu val =>
    match typOpt with
    | none =>
      some (.mk name none owned mu val,
        { d with errs := d.errs ++ [.unimplementedSimple ("type inference")] })
    | some t =>
      let t2 :=
        match t with
        | .reference rn =>
          match assocGet d.mod.structures rn with
          | some s => Ty.structTy s
          | none => Ty.reference rn
        | other => other
      match regType d name.value t2 with
      | none => none
      | some d2 => some (.mk name (some t2) owned mu val, d2)

/-- visitAlloca of middle/decl_type.go. -/
def visitAlloca (d : DeclState) (name : Token) (typOpt : Option Ty)
    (val : Option Value) : Option (Instruction × DeclState) :=
  match typOpt with
  | none =>
    some (.allocaInstr name none val,
      { d with errs := d.errs ++ [.unimplementedSimple ("type inference")] })
  | some t =>
    match regType d name.value t with
    | none => none
    | some d2 => some (.allocaInstr name (some t) val, d2)

/-- Printable instruction kind for the unimplemented-visitor diagnostic. -/
def instrKindName : Instruction → String
  | .localInstr _ => "Local"
  | .allocaInstr _ _ _ => "Alloca"
  | .returnInstr _ => "Return"
  | .ifInstr _ _ _ _ => "IfStatement"
  | .whileInstr _ _ _ => "WhileLoop"
  | .loopInstr _ => "Loop"
  | .blockInstr _ => "Block"
  | .breakInstr => "Break"
  | .nextInstr => "Next"
  | .jumpInstr _ => "Jump"
  | .labelInstr _ => "Label"
  | .exprInstr _ => "ExpressionStatement"
  | .deferInstr _ => "Defer"

mutual

/-- visitInstr of middle/decl_type.go: blocks recurse, locals and allocas
are registered, returns are ignored; every other instruction kind reports
an unimplemented-visitor diagnostic (not a panic). -/
def visitInstr : Nat → DeclState → Instruction → Option (Instruction × DeclState)
  | 0, _, _ => none
  | f + 1, d, i =>
    match i with
    | .blockInstr b =>
      match visitBlock f d b with
      | none => none
      | some (b2, d2) => some (.blockInstr b2, d2)
    | .localInstr l =>
      match visitLocal d l with
      | none => none
      | some (l2, d2) => some (.localInstr l2, d2)
    | .allocaInstr name typOpt val => visitAlloca d name typOpt val
    | .returnInstr v => some (.returnInstr v, d)
    | _ =>
      some (i, { d with
        errs := d.errs ++ [.unimplementedSimple ("visitInstr: " ++ instrKindName i)] })
termination_by structural fuel _ _ => fuel

/-- visitBlock of middle/decl_type.go: push the block scope, visit the
ordered instruction list, pop. -/
def visitBlock : Nat → DeclState → Block → Option (Block × DeclState)
  | 0, _, _ => none
  | f + 1, d, b =>
    match visitInstrList f (declPush d b.stab) b.instrs with
    | none => none
    | some (is2, d2) =>
      match declPop d2 with
      | none => none
      | some d3 => some (.mk is2 b.stab b.defers b.retSlot, d3)
termination_by structural fuel _ _ => fuel

/-- Instruction loop of visitBlock and declType. -/
def visitInstrList : Nat → DeclState → List Instruction →
    Option (List Instruction × DeclState)
  | 0, _, _ => none
  | f + 1, d, is =>
    match is with
    | [] => some ([], d)
    | i :: rest =>
      match visitInstr f d i with
      | none => none
      | some (i2, d2) =>
        match visitInstrList f d2 rest with
        | none => none
        | some (rest2, d3) => some (i2 :: rest2, d3)
termination_by structural fuel _ _ => fuel

end

/-- Function loop of declType, in FunctionOrder (a name missing from the
function registry dereferences a nil function and panics). -/
def declTypeFns (fuel : Nat) : DeclState → List Token → Option DeclState
  | d, [] => some d
  | d, name :: rest =>
    match assocGet d.mod.functions name.value with
    | none => none
    | some fn =>
      match visitInstrList fuel (declPush d fn.stab) fn.body.instrs with
      | none => none
      | some (is2, d2) =>
        let fn2 := { fn with body := .mk is2 fn.body.stab fn.body.defers fn.body.retSlot }
        let d3 := { d2 with mod :=
          { d2.mod with functions := assocSet d2.mod.functions name.value fn2 } }
        match declPop d3 with
        | none => none
        | some d4 => declTypeFns fuel d4 rest

/-- declType of middle/decl_type.go: start at the module root scope and
visit every function body in declaration order. -/
def declType (fuel : Nat) (mod : Module) : Option (Module × List CompilerError) :=
  let d := declPush ⟨mod, [], none⟩ (some mod.rootST)
  match declTypeFns fuel d mod.functionOrder with
  | none => none
  | some d2 => some (d2.mod, d2.errs)

/-! ## Specification-side definitions used by the theorem statements -/

/-- Composition of the pipeline stages lex, parse, build (the control flow
of the service is strictly left-to-right through the stage list). -/
def frontPipeline (lexFuel parseFuel buildFuel : Nat) (src : List Nat) :
    Option (Module × List CompilerError) :=
  match tokenizeInput lexFuel src with
  | .ok stream =>
    match ParseTokenStream parseFuel stream with
    | some (nodes, _) => build buildFuel [nodes]
    | none => none
  | _ => none

/-- Precedence at the root of an expression tree: the table precedence of
the root operator for a binary node, a sentinel above every table entry
otherwise. -/
def rootPrecE : ExpressionNode → Int
  | .binary _ op _ => getOpPrec op
  | _ => 1000

/-- A left-associative binary tree respecting the precedence table: at
every binary node the operator is in the table, the left subtree binds at
least as tightly (so equal precedences lean left) and the right subtree
binds strictly tighter. -/
def wellAssoc : ExpressionNode → Bool
  | .binary l op r =>
    wellAssoc l && wellAssoc r && decide (0 ≤ getOpPrec op) &&
    decide (getOpPrec op ≤ rootPrecE l) && decide (getOpPrec op < rootPrecE r)
  | _ => true

/-- In-order frontier of an expression tree: operators and leaves in source
order. -/
def frontier : ExpressionNode → List (String ⊕ ExpressionNode)
  | .binary l op r => frontier l ++ [Sum.inl op] ++ frontier r
  | e => [Sum.inr e]

/-- A Number token (spans irrelevant to expression structure). -/
def numTok (s : String) : Token :=
  ⟨s, .number, 0, 0⟩

/-- A Symbol token. -/
def opTok (s : String) : Token :=
  ⟨s, .symbol, 0, 0⟩

/-- Token tail of a binary-operator chain: operator, atom, operator, atom,
and so on. -/
def chainTokens (rest : List (String × String)) : List Token :=
  rest.flatMap (fun p => [opTok p.1, numTok p.2])

/-- Tokens of a full binary-operator chain: leading atom, then the tail. -/
def exprTokens (a : String) (rest : List (String × String)) : List Token :=
  numTok a :: chainTokens rest

/-- A nonempty all-digit lexeme (exactly what the lexer's integer-number
tokens look like). -/
def digitOnly (s : String) : Bool :=
  decide (s.length ≠ 0) && s.data.all Char.isDigit

/-- Chain condition: every operator is in the precedence table and every
atom is a digit lexeme. -/
def opsOK (rest : List (String × String)) : Bool :=
  rest.all (fun p => decide (0 ≤ getOpPrec p.1) && digitOnly p.2)

/-- The leaf the parser produces for a digit atom. -/
def leafOf (s : String) : ExpressionNode :=
  .constant (.integerConst (bigIntSetString s))

/-- Frontier of a chain tail. -/
def flatFrontier (rest : List (String × String)) : List (String ⊕ ExpressionNode) :=
  rest.flatMap (fun p => [Sum.inl p.1, Sum.inr (leafOf p.2)])

/-- Frontier of a full chain. -/
def chainFrontier (a : String) (rest : List (String × String)) :
    List (String ⊕ ExpressionNode) :=
  Sum.inr (leafOf a) :: flatFrontier rest

/-- Tokens still to be consumed by the parser. -/
def remTok (st : PState) : List Token :=
  st.stream.drop st.pos

/-- Bound used while climbing: the first pending operator does not bind
tighter than the tree already built to its left. -/
def headBound (left : ExpressionNode) : List (String × String) → Prop
  | [] => True
  | (o, _) :: _ => getOpPrec o ≤ rootPrecE left

/-- One flattening step over built path values: a nested path is spliced
into the enclosing list, everything else is kept (the loop body of
buildPathExpression). -/
def flattenValues (vs : List Value) : List Value :=
  vs.flatMap (fun v => match v with | .pathValue l => l | _ => [v])

/-- Path test on IR values. -/
def isPathValue : Value → Bool
  | .pathValue _ => true
  | _ => false

/-- Return test on IR instructions. -/
def isReturnInstr : Instruction → Bool
  | .returnInstr _ => true
  | _ => false

/-- Defer test on IR instructions. -/
def isDeferInstr : Instruction → Bool
  | .deferInstr _ => true
  | _ => false

/-- The defers of a statement list, each lowered by buildStat, in order
(fuel mirrors the per-statement fuel of buildBlock's loop). -/
def loweredDefers : Nat → List ParseTreeNode → List DeferIR
  | 0, _ => []
  | f + 1, stats =>
    match stats with
    | [] => []
    | s :: rest =>
      match buildStat f s with
      | some (.deferInstr d) => d :: loweredDefers f rest
      | _ => loweredDefers f rest

/-- The lowering of the last return statement of a statement list, if any
(fuel mirrors buildBlock's loop). -/
def loweredLastReturn : Nat → List ParseTreeNode → Option Instruction
  | 0, _ => none
  | f + 1, stats =>
    match stats with
    | [] => none
    | s :: rest =>
      match loweredLastReturn f rest with
      | some r => some r
      | none =>
        match buildStat f s with
        | some (.returnInstr v) => some (.returnInstr v)
        | _ => none

/-- All bytes ASCII (where the embedded character classes agree with Go's
Unicode tables). -/
def allAscii (bs : List Nat) : Bool :=
  bs.all (fun b => decide (b < 128))

/-- Duplicate-implementation test on diagnostics. -/
def isDuplicateImplErr : CompilerError → Bool
  | .duplicateImpl _ => true
  | _ => false

/-- The token under the cursor is a table operator, or nothing is pending. -/
def opHead : List Token → Prop
  | [] => True
  | t :: _ => (opPrecMap t.value).isSome = true

/-! ## Theorems -/

/-- c3: the claim, as stated, is false: tokenize does not return a token
stream on every input. On the single byte 0xFF (invalid UTF-8), consume
decodes utf8.RuneError and the lexer panics. -/
theorem c3_lexer_total_counterexample :
    tokenizeInput 1 [255] = .panicked := by
  rfl

/-- c4: the fractional accept-run of lexNumber omits the digit 7, so
lexing "1.75" emits two Number tokens "1." and "75" instead of the single
token "1.75" the claim requires; with a fraction avoiding the digit 7
(here "1.65") a single maximal token is emitted. -/
theorem c4_fractional_run_drops_seven :
    tokenizeInput 50 (strBytes ("1.75")) =
      .ok [⟨"1.", .number, 0, 2⟩, ⟨"75", .number, 2, 4⟩] ∧
    tokenizeInput 50 (strBytes ("1.65")) =
      .ok [⟨"1.65", .number, 0, 4⟩] := by
  exact ⟨rfl, rfl⟩

/-- c5: the while case of resolveInstr resolves the condition a second
time when a post expression is present and never resolves the post
expression itself: an unresolved identifier k in the post position goes
undiagnosed (first conjunct), while an unresolved condition u is reported
twice (second conjunct). The claim requires the post expression to be
resolved. -/
theorem c5_while_post_not_resolved :
    (resolveInstr 30 ⟨some (.root [("c", Void)]), []⟩
        (.whileInstr (.identifier ⟨"c", .identifier, 0, 1⟩)
          (some (.identifier ⟨"k", .identifier, 5, 6⟩))
          (.mk [] (some (.nested [] (.root [("c", Void)]))) [] none))).map ResState.errs =
      some [] ∧
    (resolveInstr 30 ⟨some (.root [("c", Void)]), []⟩
        (.whileInstr (.identifier ⟨"u", .identifier, 0, 1⟩)
          (some (.identifier ⟨"k", .identifier, 5, 6⟩))
          (.mk [] (some (.nested [] (.root [("c", Void)]))) [] none))).map ResState.errs =
      some [.unresolvedSymbol ("u") [0, 1], .unresolvedSymbol ("u") [0, 1]] := by
  exact ⟨rfl, rfl⟩

/-- c6: running the pipeline on fn f() with a local x and the expression
x + y in a return statement, then the Scope Resolution pass, reports no
diagnostic at all — not the single UnresolvedSymbolError for y the claim
requires — because buildBlock hoists the return into the block's
trailing-return slot and the pass only walks the ordered instruction
list. -/
theorem c6_unresolved_y_not_reported :
    ((frontPipeline 500 60 60
        (strBytes ("fn f() \x7b mut x = 1; return x + y; \x7d"))).bind
      (fun p => symResolve 60 p.1)) = some [] := by
  rfl

/-- Helper: one flattening step over a list with no nested path leaves the
list unchanged. -/
theorem flattenValues_flat (vs : List Value) (h : ∀ v ∈ vs, isPathValue v = false) :
    flattenValues vs = vs := by
  induction vs with
  | nil => rfl
  | cons v rest ih =>
    have hv : isPathValue v = false := h v (List.mem_cons_self v rest)
    have hrest : flattenValues rest = rest :=
      ih (fun x hx => h x (List.mem_cons_of_mem v hx))
    cases v <;> simp [flattenValues, isPathValue] at hv ⊢ <;>
      simpa [flattenValues] using hrest

/-- Helper: the element loop of buildPathExpression is exactly the
flattening step applied to the elementwise lowering. -/
theorem buildPathExpression_eq (fuel : Nat) (es : List ExpressionNode) :
    buildPathExpression fuel es = (buildExprList fuel es).map flattenValues := by
  induction fuel generalizing es with
  | zero => rfl
  | succ f ih =>
    cases es with
    | nil => rfl
    | cons e rest =>
      simp only [buildPathExpression, buildExprList]
      cases hbe : buildExpr f e with
      | none => rfl
      | some v =>
        rw [ih rest]
        cases hbl : buildExprList f rest with
        | none => rfl
        | some vs => cases v <;> simp [flattenValues]

/-- c2: lexing and parsing a.b.c yields a path nested inside a path; the
builder's buildPathExpression flattens it into the single Path of the
three identifiers a, b, c; the builder's loop is exactly the flattening
step applied to the lowered elements; and that flattening step is a no-op
on an already-flat value list (idempotence). -/
theorem c2_path_flattening :
    tokenizeInput 100 (strBytes ("a.b.c")) =
      .ok [⟨"a", .identifier, 0, 1⟩, ⟨".", .symbol, 1, 2⟩, ⟨"b", .identifier, 2, 3⟩,
           ⟨".", .symbol, 3, 4⟩, ⟨"c", .identifier, 4, 5⟩] ∧
    parseExpression 30
        ⟨[⟨"a", .identifier, 0, 1⟩, ⟨".", .symbol, 1, 2⟩, ⟨"b", .identifier, 2, 3⟩,
          ⟨".", .symbol, 3, 4⟩, ⟨"c", .identifier, 4, 5⟩], 0, []⟩ =
      some (some (.path [.constant (.variableRef ⟨"a", .identifier, 0, 1⟩),
          .path [.constant (.variableRef ⟨"b", .identifier, 2, 3⟩),
                 .constant (.variableRef ⟨"c", .identifier, 4, 5⟩)]]),
        ⟨[⟨"a", .identifier, 0, 1⟩, ⟨".", .symbol, 1, 2⟩, ⟨"b", .identifier, 2, 3⟩,
          ⟨".", .symbol, 3, 4⟩, ⟨"c", .identifier, 4, 5⟩], 5, []⟩) ∧
    buildExpr 30 (.path [.constant (.variableRef ⟨"a", .identifier, 0, 1⟩),
        .path [.constant (.variableRef ⟨"b", .identifier, 2, 3⟩),
               .constant (.variableRef ⟨"c", .identifier, 4, 5⟩)]]) =
      some (.pathValue [.identifier ⟨"a", .identifier, 0, 1⟩,
        .identifier ⟨"b", .identifier, 2, 3⟩, .identifier ⟨"c", .identifier, 4, 5⟩]) ∧
    (∀ fuel es, buildPathExpression fuel es = (buildExprList fuel es).map flattenValues) ∧
    (∀ vs, (∀ v ∈ vs, isPathValue v = false) → flattenValues vs = vs) := by
  exact ⟨rfl, rfl, rfl, buildPathExpression_eq, flattenValues_flat⟩

/-- c2 witness: the flattening-step no-op conjunct applied to the concrete
already-flat value list of the identifiers a, b, c. -/
theorem c2_path_flattening_witness :
    flattenValues [.identifier ⟨"a", .identifier, 0, 1⟩,
        .identifier ⟨"b", .identifier, 2, 3⟩, .identifier ⟨"c", .identifier, 4, 5⟩] =
      [.identifier ⟨"a", .identifier, 0, 1⟩,
       .identifier ⟨"b", .identifier, 2, 3⟩, .identifier ⟨"c", .identifier, 4, 5⟩] :=
  c2_path_flattening.2.2.2.2 _ (by
    intro v hv
    simp only [List.mem_cons, List.not_mem_nil, or_false] at hv
    rcases hv with rfl | rfl | rfl <;> rfl)

/-- c8: for a Local whose declared type is a Reference, the Type
Declaration pass rewrites the type field in place to the registered
Structure of that name when one exists, and leaves the dangling Reference
otherwise; in both cases no diagnostic is reported (the diagnostics list
of the resulting state is unchanged) and the resulting type is registered
under the local's name. -/
theorem c8_reference_binding :
    ∀ mod errs st tok name owned mu val,
      ((∀ s, assocGet mod.structures name = some s →
        visitLocal ⟨mod, errs, some st⟩ (.mk tok (some (.reference name)) owned mu val) =
          some (.mk tok (some (.structTy s)) owned mu val,
            ⟨mod, errs, some (st.registerST tok.value (.structTy s))⟩)) ∧
      (assocGet mod.structures name = none →
        visitLocal ⟨mod, errs, some st⟩ (.mk tok (some (.reference name)) owned mu val) =
          some (.mk tok (some (.reference name)) owned mu val,
            ⟨mod, errs, some (st.registerST tok.value (.reference name))⟩))) := by
  intro mod errs st tok name owned mu val
  constructor
  · intro s hs
    simp [visitLocal, hs, regType]
  · intro hn
    simp [visitLocal, hn, regType]

/-- c8 witness: a module registering structure P binds a Reference-typed
local to that structure with no diagnostic. -/
theorem c8_reference_binding_witness :
    visitLocal ⟨{ NewModule ("main") with
        structures := [("P", .mk ⟨"P", .identifier, 0, 1⟩ [])] }, [], some (.root [])⟩
      (.mk ⟨"v", .identifier, 2, 3⟩ (some (.reference ("P"))) true true none) =
    some (.mk ⟨"v", .identifier, 2, 3⟩
        (some (.structTy (.mk ⟨"P", .identifier, 0, 1⟩ []))) true true none,
      ⟨{ NewModule ("main") with
          structures := [("P", .mk ⟨"P", .identifier, 0, 1⟩ [])] }, [],
        some ((SymbolTable.root []).registerST ("v")
          (.structTy (.mk ⟨"P", .identifier, 0, 1⟩ [])))⟩) :=
  (c8_reference_binding _ _ _ _ ("P") _ _ _).1 _ rfl

/-- Helper: what one pass of buildBlock's statement loop does to the block
being accumulated: the ordered instruction list is extended only with
instructions that are neither returns nor defers, the deferred list is
extended with the lowered defers in order, and the trailing-return slot
ends up holding the lowering of the last return (keeping the incoming slot
only when the statements contain no return). -/
theorem buildBlockLoop_spec :
    ∀ f res stats blk, buildBlockLoop f res stats = some blk →
      (∃ added, blk.instrs = res.instrs ++ added ∧
          ∀ i ∈ added, isReturnInstr i = false ∧ isDeferInstr i = false) ∧
      blk.defers = res.defers ++ loweredDefers f stats ∧
      blk.retSlot = (match loweredLastReturn f stats with
                     | some r => some r
                     | none => res.retSlot) := by
  intro f
  induction f with
  | zero => intro res stats blk h; exact absurd h (by simp [buildBlockLoop])
  | succ f ih =>
    intro res stats blk h
    cases stats with
    | nil =>
      simp only [buildBlockLoop, Option.some.injEq] at h
      subst h
      exact ⟨⟨[], by simp, by simp⟩, by simp [loweredDefers], by simp [loweredLastReturn]⟩
    | cons s rest =>
      simp only [buildBlockLoop] at h
      cases hb : buildStat f s with
      | none => rw [hb] at h; exact absurd h (by simp)
      | some st =>
        rw [hb] at h
        cases res with
        | mk rIns rStab rDef rRet =>
          cases st with
          | deferInstr d =>
            have hrec := ih _ _ _ h
            refine ⟨hrec.1, ?_, ?_⟩
            · rw [hrec.2.1]
              simp [Block.PushDefer, Block.defers, loweredDefers, hb]
            · rw [hrec.2.2]
              simp only [loweredLastReturn, hb, Block.PushDefer, Block.retSlot]
              cases loweredLastReturn f rest <;> rfl
          | returnInstr v =>
            have hrec := ih _ _ _ h
            refine ⟨hrec.1, ?_, ?_⟩
            · rw [hrec.2.1]
              simp [Block.SetReturn, Block.defers, loweredDefers, hb]
            · rw [hrec.2.2]
              simp only [loweredLastReturn, hb, Block.SetReturn, Block.retSlot]
              cases loweredLastReturn f rest <;> rfl
          | localInstr l =>
            have hrec := ih _ _ _ h
            refine ⟨?_, ?_, ?_⟩
            · obtain ⟨added, ha, hprop⟩ := hrec.1
              refine ⟨Instruction.localInstr l :: added, ?_, ?_⟩
              · rw [ha]; simp [Block.AddInstr, Block.instrs]
              · intro i hi
                rcases List.mem_cons.mp hi with rfl | hi2
                · exact ⟨rfl, rfl⟩
                · exact hprop i hi2
            · rw [hrec.2.1]; simp [Block.AddInstr, Block.defers, loweredDefers, hb]
            · rw [hrec.2.2]
              simp only [loweredLastReturn, hb, Block.AddInstr, Block.retSlot]
              cases loweredLastReturn f rest <;> rfl
          | allocaInstr n t v =>
            have hrec := ih _ _ _ h
            refine ⟨?_, ?_, ?_⟩
            · obtain ⟨added, ha, hprop⟩ := hrec.1
              refine ⟨Instruction.allocaInstr n t v :: added, ?_, ?_⟩
              · rw [ha]; simp [Block.AddInstr, Block.instrs]
              · intro i hi
                rcases List.mem_cons.mp hi with rfl | hi2
                · exact ⟨rfl, rfl⟩
                · exact hprop i hi2
            · rw [hrec.2.1]; simp [Block.AddInstr, Block.defers, loweredDefers, hb]
            · rw [hrec.2.2]
              simp only [loweredLastReturn, hb, Block.AddInstr, Block.retSlot]
              cases loweredLastReturn f rest <;> rfl
          | ifInstr c t e el =>
            have hrec := ih _ _ _ h
            refine ⟨?_, ?_, ?_⟩
            · obtain ⟨added, ha, hprop⟩ := hrec.1
              refine ⟨Instruction.ifInstr c t e el :: added, ?_, ?_⟩
              · rw [ha]; simp [Block.AddInstr, Block.instrs]
              · intro i hi
                rcases List.mem_cons.mp hi with rfl | hi2
                · exact ⟨rfl, rfl⟩
                · exact hprop i hi2
            · rw [hrec.2.1]; simp [Block.AddInstr, Block.defers, loweredDefers, hb]
            · rw [hrec.2.2]
              simp only [loweredLastReturn, hb, Block.AddInstr, Block.retSlot]
              cases loweredLastReturn f rest <;> rfl
          | whileInstr c p b2 =>
            have hrec := ih _ _ _ h
            refine ⟨?_, ?_, ?_⟩
            · obtain ⟨added, ha, hprop⟩ := hrec.1
              refine ⟨Instruction.whileInstr c p b2 :: added, ?_, ?_⟩
              · rw [ha]; simp [Block.AddInstr, Block.instrs]
              · intro i hi
                rcases List.mem_cons.mp hi with rfl | hi2
                · exact ⟨rfl, rfl⟩
                · exact hprop i hi2
            · rw [hrec.2.1]; simp [Block.AddInstr, Block.defers, loweredDefers, hb]
            · rw [hrec.2.2]
              simp only [loweredLastReturn, hb, Block.AddInstr, Block.retSlot]
              cases loweredLastReturn f rest <;> rfl
          | loopInstr b2 =>
            have hrec := ih _ _ _ h
            refine ⟨?_, ?_, ?_⟩
            · obtain ⟨added, ha, hprop⟩ := hrec.1
              refine ⟨Instruction.loopInstr b2 :: added, ?_, ?_⟩
              · rw [ha]; simp [Block.AddInstr, Block.instrs]
              · intro i hi
                rcases List.mem_cons.mp hi with rfl | hi2
                · exact ⟨rfl, rfl⟩
                · exact hprop i hi2
            · rw [hrec.2.1]; simp [Block.AddInstr, Block.defers, loweredDefers, hb]
            · rw [hrec.2.2]
              simp only [loweredLastReturn, hb, Block.AddInstr, Block.retSlot]
              cases loweredLastReturn f rest <;> rfl
          | blockInstr b2 =>
            have hrec := ih _ _ _ h
            refine ⟨?_, ?_, ?_⟩
            · obtain ⟨added, ha, hprop⟩ := hrec.1
              refine ⟨Instruction.blockInstr b2 :: added, ?_, ?_⟩
              · rw [ha]; simp [Block.AddInstr, Block.instrs]
              · intro i hi
                rcases List.mem_cons.mp hi with rfl | hi2
                · exact ⟨rfl, rfl⟩
                · exact hprop i hi2
            · rw [hrec.2.1]; simp [Block.AddInstr, Block.defers, loweredDefers, hb]
            · rw [hrec.2.2]
              simp only [loweredLastReturn, hb, Block.AddInstr, Block.retSlot]
              cases loweredLastReturn f rest <;> rfl
          | breakInstr =>
            have hrec := ih _ _ _ h
            refine ⟨?_, ?_, ?_⟩
            · obtain ⟨added, ha, hprop⟩ := hrec.1
              refine ⟨Instruction.breakInstr :: added, ?_, ?_⟩
              · rw [ha]; simp [Block.AddInstr, Block.instrs]
              · intro i hi
                rcases List.mem_cons.mp hi with rfl | hi2
                · exact ⟨rfl, rfl⟩
                · exact hprop i hi2
            · rw [hrec.2.1]; simp [Block.AddInstr, Block.defers, loweredDefers, hb]
            · rw [hrec.2.2]
              simp only [loweredLastReturn, hb, Block.AddInstr, Block.retSlot]
              cases loweredLastReturn f rest <;> rfl
          | nextInstr =>
            have hrec := ih _ _ _ h
            refine ⟨?_, ?_, ?_⟩
            · obtain ⟨added, ha, hprop⟩ := hrec.1
              refine ⟨Instruction.nextInstr :: added, ?_, ?_⟩
              · rw [ha]; simp [Block.AddInstr, Block.instrs]
              · intro i hi
                rcases List.mem_cons.mp hi with rfl | hi2
                · exact ⟨rfl, rfl⟩
                · exact hprop i hi2
            · rw [hrec.2.1]; simp [Block.AddInstr, Block.defers, loweredDefers, hb]
            · rw [hrec.2.2]
              simp only [loweredLastReturn, hb, Block.AddInstr, Block.retSlot]
              cases loweredLastReturn f rest <;> rfl
          | jumpInstr t =>
            have hrec := ih _ _ _ h
            refine ⟨?_, ?_, ?_⟩
            · obtain ⟨added, ha, hprop⟩ := hrec.1
              refine ⟨Instruction.jumpInstr t :: added, ?_, ?_⟩
              · rw [ha]; simp [Block.AddInstr, Block.instrs]
              · intro i hi
                rcases List.mem_cons.mp hi with rfl | hi2
                · exact ⟨rfl, rfl⟩
                · exact hprop i hi2
            · rw [hrec.2.1]; simp [Block.AddInstr, Block.defers, loweredDefers, hb]
            · rw [hrec.2.2]
              simp only [loweredLastReturn, hb, Block.AddInstr, Block.retSlot]
              cases loweredLastReturn f rest <;> rfl
          | labelInstr t =>
            have hrec := ih _ _ _ h
            refine ⟨?_, ?_, ?_⟩
            · obtain ⟨added, ha, hprop⟩ := hrec.1
              refine ⟨Instruction.labelInstr t :: added, ?_, ?_⟩
              · rw [ha]; simp [Block.AddInstr, Block.instrs]
              · intro i hi
                rcases List.mem_cons.mp hi with rfl | hi2
                · exact ⟨rfl, rfl⟩
                · exact hprop i hi2
            · rw [hrec.2.1]; simp [Block.AddInstr, Block.defers, loweredDefers, hb]
            · rw [hrec.2.2]
              simp only [loweredLastReturn, hb, Block.AddInstr, Block.retSlot]
              cases loweredLastReturn f rest <;> rfl
          | exprInstr v =>
            have hrec := ih _ _ _ h
            refine ⟨?_, ?_, ?_⟩
            · obtain ⟨added, ha, hprop⟩ := hrec.1
              refine ⟨Instruction.exprInstr v :: added, ?_, ?_⟩
              · rw [ha]; simp [Block.AddInstr, Block.instrs]
              · intro i hi
                rcases List.mem_cons.mp hi with rfl | hi2
                · exact ⟨rfl, rfl⟩
                · exact hprop i hi2
            · rw [hrec.2.1]; simp [Block.AddInstr, Block.defers, loweredDefers, hb]
            · rw [hrec.2.2]
              simp only [loweredLastReturn, hb, Block.AddInstr, Block.retSlot]
              cases loweredLastReturn f rest <;> rfl

/-- c9: in every successful buildBlock lowering, no return and no defer
instruction appears in the block's ordered instruction list: the defers
are moved, in order, into the deferred list, and the trailing-return slot
holds exactly the lowering of the last return statement of the block (so a
return anywhere is hoisted there, and a later return overwrites an earlier
one), or nothing when the block has no return. -/
theorem c9_return_and_defer_hoisting :
    ∀ f b blk, buildBlock (f + 1) b = some blk →
      (∀ i, i ∈ blk.instrs → isReturnInstr i = false ∧ isDeferInstr i = false) ∧
      blk.defers = loweredDefers f b.statements ∧
      blk.retSlot = loweredLastReturn f b.statements := by
  intro f b blk h
  have hspec := buildBlockLoop_spec f NewBlock b.statements blk h
  refine ⟨?_, ?_, ?_⟩
  · intro i hi
    obtain ⟨added, ha, hprop⟩ := hspec.1
    rw [ha] at hi
    simp only [NewBlock, Block.instrs, List.nil_append] at hi
    exact hprop i hi
  · have := hspec.2.1
    simpa [NewBlock, Block.defers] using this
  · rw [hspec.2.2]
    cases loweredLastReturn f b.statements <;> rfl

/-- c9 witness: a block containing a defer, a break, and two returns
lowers to a block whose instruction list holds only the break, whose
deferred list holds the one defer, and whose return slot holds the second
(overwriting) return. -/
theorem c9_return_and_defer_hoisting_witness :
    (∀ i, i ∈ (Block.mk [.breakInstr] none
        [.mk (some .breakInstr) none] (some (.returnInstr none))).instrs →
      isReturnInstr i = false ∧ isDeferInstr i = false) ∧
    (Block.mk [.breakInstr] none [.mk (some .breakInstr) none]
        (some (.returnInstr none))).defers =
      loweredDefers 10 [.returnStat (some (.constant (.integerConst (some 1)))),
        .deferStat none (some .breakStat), .breakStat, .returnStat none] ∧
    (Block.mk [.breakInstr] none [.mk (some .breakInstr) none]
        (some (.returnInstr none))).retSlot =
      loweredLastReturn 10 [.returnStat (some (.constant (.integerConst (some 1)))),
        .deferStat none (some .breakStat), .breakStat, .returnStat none] :=
  c9_return_and_defer_hoisting 10
    (.mk [.returnStat (some (.constant (.integerConst (some 1)))),
      .deferStat none (some .breakStat), .breakStat, .returnStat none]) _ rfl

/-- Helper: assocGet on a cons. -/
theorem assocGet_cons {α : Type} (k1 : String) (v1 : α) (rest : List (String × α))
    (k : String) :
    assocGet ((k1, v1) :: rest) k = if k1 == k then some v1 else assocGet rest k := by
  by_cases hk : (k1 == k) = true <;> simp [assocGet, List.find?, hk]

/-- Helper: an association-list hit survives appending further entries. -/
theorem assocGet_append_left {α : Type} (l l2 : List (String × α)) (k : String) (v : α)
    (h : assocGet l k = some v) : assocGet (l ++ l2) k = some v := by
  induction l with
  | nil => simp [assocGet, List.find?] at h
  | cons p rest ih =>
    obtain ⟨k1, v1⟩ := p
    rw [assocGet_cons] at h
    rw [List.cons_append, assocGet_cons]
    by_cases hk : (k1 == k) = true
    · rw [if_pos hk] at h ⊢
      exact h
    · rw [if_neg hk] at h ⊢
      exact ih h

/-- Helper: the impl produced by the method-registration loop does not
depend on the incoming diagnostics list. -/
theorem registerMethodsInto_indep (fns : List FunctionDeclaration) :
    ∀ fuel impl errsA errsB iA eA,
      registerMethodsInto fuel impl fns errsA = some (iA, eA) →
      ∃ eB, registerMethodsInto fuel impl fns errsB = some (iA, eB) := by
  induction fns with
  | nil =>
    intro fuel impl errsA errsB iA eA h
    simp only [registerMethodsInto, Option.some.injEq, Prod.mk.injEq] at h
    exact ⟨errsB, by simp [registerMethodsInto, h.1]⟩
  | cons fn rest ih =>
    intro fuel impl errsA errsB iA eA h
    simp only [registerMethodsInto] at h ⊢
    cases hbf : buildFunc fuel fn with
    | none => simp [hbf] at h
    | some bf =>
      simp only [hbf] at h ⊢
      exact ih fuel _ _ _ iA eA h

/-- Helper: the method-registration loop never removes or overwrites an
already-registered method. -/
theorem registerMethodsInto_preserves (fns : List FunctionDeclaration) :
    ∀ fuel impl errs i2 e2,
      registerMethodsInto fuel impl fns errs = some (i2, e2) →
      ∀ k v, assocGet impl.methods k = some v → assocGet i2.methods k = some v := by
  induction fns with
  | nil =>
    intro fuel impl errs i2 e2 h k v hk
    simp only [registerMethodsInto, Option.some.injEq, Prod.mk.injEq] at h
    rw [← h.1]
    exact hk
  | cons fn rest ih =>
    intro fuel impl errs i2 e2 h k v hk
    simp only [registerMethodsInto] at h
    cases hbf : buildFunc fuel fn with
    | none => simp [hbf] at h
    | some bf =>
      simp only [hbf] at h
      by_cases hmem : (assocGet impl.methods bf.name.value).isSome = true
      · simp [ImplIR.RegisterMethod, hmem] at h
        exact ih fuel _ _ _ _ h k v hk
      · simp [ImplIR.RegisterMethod, hmem] at h
        refine ih fuel _ _ _ _ h k v ?_
        exact assocGet_append_left _ _ k v hk

/-- Helper: the method-registration loop adds only symbol-error
diagnostics; the duplicate-impl diagnostics are unchanged. -/
theorem registerMethodsInto_dup_errs (fns : List FunctionDeclaration) :
    ∀ fuel impl errs i2 e2,
      registerMethodsInto fuel impl fns errs = some (i2, e2) →
      e2.filter isDuplicateImplErr = errs.filter isDuplicateImplErr := by
  induction fns with
  | nil =>
    intro fuel impl errs i2 e2 h
    simp only [registerMethodsInto, Option.some.injEq, Prod.mk.injEq] at h
    rw [← h.2]
  | cons fn rest ih =>
    intro fuel impl errs i2 e2 h
    simp only [registerMethodsInto] at h
    cases hbf : buildFunc fuel fn with
    | none => simp [hbf] at h
    | some bf =>
      simp only [hbf] at h
      by_cases hmem : (assocGet impl.methods bf.name.value).isSome = true
      · simp [ImplIR.RegisterMethod, hmem] at h
        rw [ih fuel _ _ _ _ h]
        simp [List.filter_append, isDuplicateImplErr]
      · simp [ImplIR.RegisterMethod, hmem] at h
        exact ih fuel _ _ _ _ h

/-- c7: building a unit that declares the same impl name twice reports
exactly one duplicate-implementation diagnostic, for that name; and every
method registered while lowering the first impl declaration is still
registered, unchanged, in the module's single impl for that name after the
whole build. -/
theorem c7_duplicate_impl_once_first_kept :
    ∀ fuel t1 t2 fns1 fns2 m2 errs2,
      t1.value = t2.value →
      buildTree fuel (NewModule ("main")) []
          [.implDecl t1 fns1, .implDecl t2 fns2] = some (m2, errs2) →
      errs2.filter isDuplicateImplErr = [.duplicateImpl t1.value] ∧
      ∃ impl2, m2.GetImpl t1.value = some impl2 ∧
        ∀ implF errsA errsB,
          registerMethodsInto fuel (NewImpl t1) fns1 errsA = some (implF, errsB) →
          ∀ k v, assocGet implF.methods k = some v →
            assocGet impl2.methods k = some v := by
  intro fuel t1 t2 fns1 fns2 m2 errs2 hname h
  obtain ⟨v1, k1, a1, b1⟩ := t1
  obtain ⟨v2, k2, a2, b2⟩ := t2
  simp only [Token.value] at hname
  subst hname
  have hs1 : buildTreeSweep1 (NewModule ("main")) []
      [.implDecl ⟨v1, k1, a1, b1⟩ fns1, .implDecl ⟨v1, k2, a2, b2⟩ fns2] [] [] =
      (⟨"main", [], [(v1, ⟨⟨v1, k1, a1, b1⟩, []⟩)], [], [], .root []⟩,
       [.duplicateImpl v1], [],
       [(⟨v1, k1, a1, b1⟩, fns1), (⟨v1, k2, a2, b2⟩, fns2)]) := by
    simp [buildTreeSweep1, Module.RegisterImpl, NewModule, NewImpl, assocGet, List.find?,
      Token.value]
  rw [buildTree, hs1] at h
  simp only [buildTreeSweep2, buildTreeSweep3, Module.GetImpl, assocGet, List.find?,
    beq_self_eq_true, Option.map_some'] at h
  cases hr1 : registerMethodsInto fuel ⟨⟨v1, k1, a1, b1⟩, []⟩ fns1
      [CompilerError.duplicateImpl v1] with
  | none => rw [hr1] at h; simp at h
  | some p1 =>
    obtain ⟨implA, errsX⟩ := p1
    rw [hr1] at h
    simp only [Module.SetImpl, assocSet, beq_self_eq_true, if_true, List.find?,
      Option.map_some'] at h
    cases hr2 : registerMethodsInto fuel implA fns2 errsX with
    | none => rw [hr2] at h; simp at h
    | some p2 =>
      obtain ⟨implB, errsY⟩ := p2
      rw [hr2] at h
      simp only [buildTreeSweep4, Option.some.injEq, Prod.mk.injEq] at h
      obtain ⟨hm, he⟩ := h
      subst he
      constructor
      · rw [registerMethodsInto_dup_errs fns2 fuel _ _ _ _ hr2,
          registerMethodsInto_dup_errs fns1 fuel _ _ _ _ hr1]
        simp [isDuplicateImplErr, Token.value]
      · refine ⟨implB, ?_, ?_⟩
        · rw [← hm]
          simp [Module.GetImpl, Module.SetImpl, assocSet, assocGet, List.find?, Token.value]
        · intro implF errsA errsB hreg k v hk
          obtain ⟨eB, heB⟩ := registerMethodsInto_indep fns1 fuel
            ⟨⟨v1, k1, a1, b1⟩, []⟩ errsA [CompilerError.duplicateImpl v1] implF errsB hreg
          have hFA : implF = implA := by
            have h12 := heB.symm.trans hr1
            simpa using congrArg (fun q => (Option.map Prod.fst q)) h12
          subst hFA
          exact registerMethodsInto_preserves fns2 fuel implF errsX implB errsY hr2 k v hk

/-- c7 witness: the duplicate-impl theorem instantiated on a concrete
unit declaring impl A twice, each with a method m1; the build result is
evaluated explicitly. -/
theorem c7_duplicate_impl_once_first_kept_witness :
    buildTree 30 (NewModule ("main")) []
        [.implDecl ⟨"A", .identifier, 0, 1⟩
            [.mk (.mk ⟨"m1", .identifier, 2, 4⟩ [] none) (some (.mk []))],
         .implDecl ⟨"A", .identifier, 9, 10⟩
            [.mk (.mk ⟨"m1", .identifier, 12, 14⟩ [] none) (some (.mk []))]] =
      some (⟨"main", [],
              [("A", ⟨⟨"A", .identifier, 0, 1⟩,
                 [("m1", ⟨⟨"m1", .identifier, 2, 4⟩, [], [], Void,
                    .mk [] none [] none, none⟩)]⟩)],
              [], [], .root []⟩,
            [.duplicateImpl ("A"), .symbolError ("m1") [12, 14]]) ∧
    List.filter isDuplicateImplErr
        [.duplicateImpl ("A"), .symbolError ("m1") [12, 14]] =
      [.duplicateImpl (Token.value ⟨"A", .identifier, 0, 1⟩)] :=
  ⟨rfl,
   (c7_duplicate_impl_once_first_kept 30 ⟨"A", .identifier, 0, 1⟩
      ⟨"A", .identifier, 9, 10⟩
      [.mk (.mk ⟨"m1", .identifier, 2, 4⟩ [] none) (some (.mk []))]
      [.mk (.mk ⟨"m1", .identifier, 12, 14⟩ [] none) (some (.mk []))]
      _ _ rfl rfl).1⟩

/-- c10: lowering a mut statement with neither type nor value panics at
any fuel (first conjunct); the parser, on "mut x;", records diagnostics
but still returns the MutableStatement node with both fields absent
(second and third conjuncts); and building a unit whose function body
contains that node aborts at every fuel instead of producing a diagnostic
(fourth conjunct). -/
theorem c10_mut_without_type_or_value_panics :
    (∀ fuel name owned, buildMutStat fuel name owned none none = none) ∧
    tokenizeInput 100 (strBytes ("mut x;")) =
      .ok [⟨"mut", .identifier, 0, 3⟩, ⟨"x", .identifier, 4, 5⟩, ⟨";", .symbol, 5, 6⟩] ∧
    ParseTokenStream 60
        [⟨"mut", .identifier, 0, 3⟩, ⟨"x", .identifier, 4, 5⟩, ⟨";", .symbol, 5, 6⟩] =
      some ([.mutStat ⟨"x", .identifier, 4, 5⟩ true none none],
        [.unimplementedError ("parseTypeExpression") ("type") 2 2,
         .parseError ("type after assignment") 0 2,
         .parseError ("value or type in mut statement") 0 2]) ∧
    (∀ bf, build bf
        [[.functionDecl (.mk (.mk ⟨"g", .identifier, 3, 4⟩ [] none)
            (some (.mk [.mutStat ⟨"x", .identifier, 13, 14⟩ true none none])))]] = none) := by
  refine ⟨fun fuel name owned => rfl, rfl, rfl, fun bf => ?_⟩
  match bf with
  | 0 => rfl
  | b1 + 1 =>
    match b1 with
    | 0 => rfl
    | b2 + 1 =>
      match b2 with
      | 0 => rfl
      | b3 + 1 => rfl


/-- Helper: a nonempty remaining-token list fixes hasNext, the cursor token
and the remainder after one consume. -/
theorem remTok_cons_facts {stream : List Token} {pos : Nat} {errs : List CompilerError}
    {x : Token} {tail : List Token}
    (h : remTok ⟨stream, pos, errs⟩ = x :: tail) :
    hasNextT ⟨stream, pos, errs⟩ = true ∧ nextTok ⟨stream, pos, errs⟩ = x ∧
    remTok ⟨stream, pos + 1, errs⟩ = tail := by
  unfold remTok at h
  refine ⟨?_, ?_, ?_⟩
  · unfold hasNextT
    simp only [decide_eq_true_eq]
    by_contra hlt
    push_neg at hlt
    rw [List.drop_eq_nil_of_le hlt] at h
    exact List.cons_ne_nil x tail h.symm
  · unfold nextTok
    have h2 : stream[pos]? = some x := by
      rw [← List.head?_drop, h, List.head?_cons]
    simp [List.getD_eq_getElem?_getD, h2]
  · unfold remTok
    rw [← List.tail_drop, h, List.tail_cons]

/-- Helper: an empty remaining-token list means the cursor is past the end. -/
theorem remTok_nil_facts {stream : List Token} {pos : Nat} {errs : List CompilerError}
    (h : remTok ⟨stream, pos, errs⟩ = []) :
    hasNextT ⟨stream, pos, errs⟩ = false ∧ nextTok ⟨stream, pos, errs⟩ = BadToken := by
  unfold remTok at h
  have hlen : stream.length ≤ pos := by
    by_contra hc
    push_neg at hc
    have := List.length_drop pos stream
    rw [h] at this
    simp at this
    omega
  constructor
  · unfold hasNextT
    simp only [decide_eq_false_iff_not]
    omega
  · unfold nextTok
    have h2 : stream[pos]? = none := List.getElem?_eq_none hlen
    simp [List.getD_eq_getElem?_getD, h2]

/-- Helper: an operator with a table entry is one of the thirteen table
keys. -/
theorem op_mem {v : String} (h : (opPrecMap v).isSome = true) :
    v ∈ ["*", "/", "%", "+", "-", "==", "!=", "<", "<=", ">", ">=", "&&", "||"] := by
  unfold opPrecMap at h
  cases hf : opPrecList.find? (fun q => q.1 == v) with
  | none => rw [hf] at h; simp at h
  | some q =>
    have hmem := List.mem_of_find?_eq_some hf
    have hq := List.find?_some hf
    simp only [beq_iff_eq] at hq
    subst hq
    simp only [opPrecList, List.mem_cons, List.not_mem_nil, or_false,
      Prod.mk.injEq] at hmem
    rcases hmem with ⟨rfl, -⟩ | ⟨rfl, -⟩ | ⟨rfl, -⟩ | ⟨rfl, -⟩ | ⟨rfl, -⟩ | ⟨rfl, -⟩ |
      ⟨rfl, -⟩ | ⟨rfl, -⟩ | ⟨rfl, -⟩ | ⟨rfl, -⟩ | ⟨rfl, -⟩ | ⟨rfl, -⟩ | ⟨rfl, -⟩ <;>
      decide

/-- Helper: a table operator token never matches the dot, the assignment
operators, the bracket openers, and its precedence lies in 0..5. -/
theorem opTok_facts {t : Token} (h : (opPrecMap t.value).isSome = true) :
    Token.Matches t ["."] = false ∧ Token.Matches t assignOperatorsL = false ∧
    Token.Matches t ["["] = false ∧ Token.Matches t ["("] = false ∧
    0 ≤ getOpPrec t.value ∧ getOpPrec t.value ≤ 5 := by
  have hm := op_mem h
  obtain ⟨v, k, a, b⟩ := t
  simp only [Token.value] at hm ⊢
  fin_cases hm <;>
    exact ⟨by simp [Token.Matches], by simp [Token.Matches, assignOperatorsL],
      by simp [Token.Matches], by simp [Token.Matches], by decide, by decide⟩

/-- Helper: a table operator has a table entry (isNone is false). -/
theorem opPrec_not_none {v : String} (h : (opPrecMap v).isSome = true) :
    (opPrecMap v).isNone = false := by
  cases hc : opPrecMap v with
  | none => rw [hc] at h; simp at h
  | some p => rfl

/-- Helper: a digit lexeme matches no string of a list of non-digit
lexemes. -/
theorem digit_notMatches {s : String} (hs : digitOnly s = true) {L : List String}
    (hL : L.all (fun v => !digitOnly v) = true) :
    Token.Matches (numTok s) L = false := by
  unfold Token.Matches numTok
  simp only [List.any_eq_false]
  intro v hv
  intro htrue
  have hsv : s = v := by
    have : ((⟨s, .number, 0, 0⟩ : Token).value == v) = true := htrue
    simpa using this
  have hv2 := List.all_eq_true.mp hL v hv
  rw [← hsv, hs] at hv2
  exact absurd hv2 (by decide)

/-- Helper: a digit lexeme contains no dot. -/
theorem digit_no_dot {s : String} (hs : digitOnly s = true) :
    s.data.contains '.' = false := by
  unfold digitOnly at hs
  simp only [Bool.and_eq_true, List.all_eq_true, decide_eq_true_eq] at hs
  by_contra hc
  simp only [Bool.not_eq_false] at hc
  have hmem : ('.') ∈ s.data := by
    simpa using hc
  exact absurd (hs.2 ('.') hmem) (by decide)

/-- Helper: parseOperand on a digit token produces the integer-constant
leaf and advances the cursor one token. -/
theorem parseOperand_digit {stream : List Token} {pos : Nat} {errs : List CompilerError}
    {s : String} {tail : List Token} (f : Nat)
    (hs : digitOnly s = true)
    (hrem : remTok ⟨stream, pos, errs⟩ = numTok s :: tail) :
    parseOperand (f + 1) ⟨stream, pos, errs⟩ =
      some (some (leafOf s), ⟨stream, pos + 1, errs⟩) := by
  obtain ⟨hnext, hcur, -⟩ := remTok_cons_facts hrem
  have hpar : Token.Matches (numTok s) ["("] = false := digit_notMatches hs (by decide)
  have hkind : (numTok s).kind = TokenType.number := rfl
  have hval : (numTok s).value = s := rfl
  simp only [parseOperand, hnext, hcur, hpar, Bool.not_true, Bool.false_eq_true,
    if_false, consumeTok, hkind, hval, digit_no_dot hs, leafOf]
  simp

/-- Helper: parsePrimaryExpr on a digit token whose successor is a table
operator (or the end of the stream) produces the integer-constant leaf. -/
theorem parsePrimaryExpr_digit {stream : List Token} {pos : Nat} {errs : List CompilerError}
    {s : String} {tail : List Token} (f : Nat)
    (hs : digitOnly s = true)
    (hrem : remTok ⟨stream, pos, errs⟩ = numTok s :: tail)
    (hop : opHead tail) :
    parsePrimaryExpr (f + 2) ⟨stream, pos, errs⟩ =
      some (some (leafOf s), ⟨stream, pos + 1, errs⟩) := by
  obtain ⟨hnext, hcur, hrem1⟩ := remTok_cons_facts hrem
  have h1 : Token.Matches (numTok s) [kwStruct, "*", "[", "("] = false :=
    digit_notMatches hs (by decide)
  have h2 : Token.Matches (numTok s) [":"] = false := digit_notMatches hs (by decide)
  have h3 : Token.Matches (numTok s) [kwFn] = false := digit_notMatches hs (by decide)
  have h4 : Token.Matches (numTok s) unaryOperatorsL = false :=
    digit_notMatches hs (by decide)
  have h5 : Token.Matches (numTok s) builtinsL = false := digit_notMatches hs (by decide)
  have hbr : Token.Matches (nextTok ⟨stream, pos + 1, errs⟩) ["["] = false ∧
      Token.Matches (nextTok ⟨stream, pos + 1, errs⟩) ["("] = false := by
    cases tail with
    | nil =>
      obtain ⟨-, hbt⟩ := remTok_nil_facts hrem1
      rw [hbt]
      exact ⟨by decide, by decide⟩
    | cons t ts =>
      obtain ⟨-, hc2, -⟩ := remTok_cons_facts hrem1
      rw [hc2]
      have hf := opTok_facts (t := t) hop
      exact ⟨hf.2.2.1, hf.2.2.2.1⟩
  simp only [parsePrimaryExpr, hnext, hcur, h1, h2, h3, h4, h5, Bool.not_true,
    Bool.false_eq_true, if_false, parseOperand_digit f hs hrem, hbr.1, hbr.2]

/-- Helper: parseLeft on a digit token reduces to the parsePrimaryExpr
leaf. -/
theorem parseLeft_digit {stream : List Token} {pos : Nat} {errs : List CompilerError}
    {s : String} {tail : List Token} (f : Nat)
    (hs : digitOnly s = true)
    (hrem : remTok ⟨stream, pos, errs⟩ = numTok s :: tail)
    (hop : opHead tail) :
    parseLeft (f + 3) ⟨stream, pos, errs⟩ =
      some (some (leafOf s), ⟨stream, pos + 1, errs⟩) := by
  simp only [parseLeft, parsePrimaryExpr_digit f hs hrem hop]

/-- Helper: a nonnegative precedence means the operator is in the table. -/
theorem getOpPrec_nonneg_isSome {v : String} (h : 0 ≤ getOpPrec v) :
    (opPrecMap v).isSome = true := by
  cases hc : opPrecMap v with
  | none =>
    exfalso
    unfold getOpPrec at h
    rw [hc] at h
    exact absurd h (by decide)
  | some p => rfl

/-- Helper: opsOK of a chain tail splits into the head operator bound, the
head digit lexeme and opsOK of the rest. -/
theorem opsOK_cons {o d : String} {rest : List (String × String)}
    (h : opsOK ((o, d) :: rest) = true) :
    0 ≤ getOpPrec o ∧ digitOnly d = true ∧ opsOK rest = true := by
  unfold opsOK at h ⊢
  simp only [List.all_cons, Bool.and_eq_true, decide_eq_true_eq] at h
  exact ⟨h.1.1, h.1.2, h.2⟩

/-- Helper: opsOK restricts to a suffix. -/
theorem opsOK_right {a b : List (String × String)} (h : opsOK (a ++ b) = true) :
    opsOK b = true := by
  unfold opsOK at h ⊢
  rw [List.all_append] at h
  exact (Bool.and_eq_true_iff.mp h).2

/-- Helper: the token list of a chain tail starts with a table operator or
is empty. -/
theorem opHead_chain {rest : List (String × String)} (h : opsOK rest = true) :
    opHead (chainTokens rest) := by
  cases rest with
  | nil => exact trivial
  | cons p r2 =>
    obtain ⟨o2, d2⟩ := p
    have hc := opsOK_cons h
    show (opPrecMap (opTok o2).value).isSome = true
    exact getOpPrec_nonneg_isSome hc.1

/-- Helper: the chain-token list of a cons. -/
theorem chainTokens_cons (o d : String) (rest : List (String × String)) :
    chainTokens ((o, d) :: rest) = opTok o :: numTok d :: chainTokens rest := by
  simp [chainTokens]

/-- One-step unfolding of parsePrec at positive fuel (the source body,
stated once so the climb proof can rewrite the outer call only). -/
theorem parsePrec_succ (f : Nat) (lastPrec : Int) (left : ExpressionNode) (st : PState) :
    parsePrec (f + 1) lastPrec left st =
      (if hasNextT st then
        let prec := getOpPrec (nextTok st).value
        if prec < lastPrec then some (some left, st)
        else if !hasNextT st then some (some left, st)
        else if (opPrecMap (nextTok st).value).isNone then some (some left, st)
        else
          let (op, st1) := consumeTok st
          match parsePrimaryExpr f st1 with
          | none => none
          | some (none, st2) => some (none, st2)
          | some (some right, st2) =>
            if !hasNextT st2 then
              some (some (.binary left op.value right), st2)
            else
              let nextPrec := getOpPrec (nextTok st2).value
              if prec < nextPrec then
                match parsePrec f (prec + 1) right st2 with
                | none => none
                | some (none, st3) => some (none, st3)
                | some (some right2, st3) =>
                  parsePrec f lastPrec (.binary left op.value right2) st3
              else parsePrec f lastPrec (.binary left op.value right) st2
      else some (some left, st)) := rfl

/-- Helper: precedence climbing on a binary-operator chain. From any well
associated left tree whose pending-operator head does not outbind it,
parsePrec consumes a maximal prefix of the chain, returns a well-associated
tree with the corresponding frontier, stops exactly when the pending
operator binds below lastPrec, and keeps the diagnostics unchanged. -/
theorem parsePrec_climb :
    ∀ fuel (rest : List (String × String)) (lastPrec : Int) (left : ExpressionNode)
      (stream : List Token) (pos : Nat) (errs : List CompilerError),
      2 * rest.length + 2 ≤ fuel →
      opsOK rest = true →
      wellAssoc left = true →
      headBound left rest →
      remTok ⟨stream, pos, errs⟩ = chainTokens rest →
      ∃ e pos2 pre suf,
        parsePrec fuel lastPrec left ⟨stream, pos, errs⟩ =
          some (some e, ⟨stream, pos2, errs⟩) ∧
        rest = pre ++ suf ∧
        remTok ⟨stream, pos2, errs⟩ = chainTokens suf ∧
        wellAssoc e = true ∧
        frontier e = frontier left ++ flatFrontier pre ∧
        (match suf with | [] => True | (o2, _) :: _ => getOpPrec o2 < lastPrec) ∧
        min lastPrec (rootPrecE left) ≤ rootPrecE e := by
  intro fuel
  induction fuel with
  | zero =>
    intro rest lastPrec left stream pos errs hf hops hwa hhb hrem
    omega
  | succ f ih =>
    intro rest lastPrec left stream pos errs hf hops hwa hhb hrem
    cases rest with
    | nil =>
      have hrem0 : remTok ⟨stream, pos, errs⟩ = [] := by simpa [chainTokens] using hrem
      obtain ⟨hnext, -⟩ := remTok_nil_facts hrem0
      refine ⟨left, pos, [], [], ?_, rfl, ?_, hwa, by simp [flatFrontier], trivial,
        min_le_right _ _⟩
      · rw [parsePrec_succ]
        simp [hnext]
      · simpa [chainTokens] using hrem0
    | cons hd rest1 =>
      obtain ⟨o, d⟩ := hd
      rw [chainTokens_cons] at hrem
      obtain ⟨hnext, hcur, hrem1⟩ := remTok_cons_facts hrem
      obtain ⟨hprec0, hdig, hops1⟩ := opsOK_cons hops
      have hov : (opTok o).value = o := rfl
      have hsome : (opPrecMap o).isSome = true := getOpPrec_nonneg_isSome hprec0
      have hnone : (opPrecMap o).isNone = false := opPrec_not_none hsome
      have hle5 : getOpPrec o ≤ 5 :=
        (opTok_facts (t := opTok o) hsome).2.2.2.2.2
      have hhb1 : getOpPrec o ≤ rootPrecE left := hhb
      by_cases hlt : getOpPrec o < lastPrec
      · refine ⟨left, pos, [], (o, d) :: rest1, ?_, rfl, ?_, hwa,
          by simp [flatFrontier], hlt, min_le_right _ _⟩
        · rw [parsePrec_succ]
          simp [hnext, hcur, hov, hlt]
        · rw [chainTokens_cons]
          exact hrem
      · push_neg at hlt
        have hnlt : ¬(getOpPrec o < lastPrec) := not_lt.mpr hlt
        have hf3 : 2 * rest1.length + 3 ≤ f := by
          simp only [List.length_cons] at hf
          omega
        obtain ⟨g, rfl⟩ : ∃ g, f = g + 2 := ⟨f - 2, by omega⟩
        have hopH : opHead (chainTokens rest1) := opHead_chain hops1
        have hpp :=
          @parsePrimaryExpr_digit stream (pos + 1) errs d (chainTokens rest1)
            g hdig hrem1 hopH
        obtain ⟨-, -, hrem2⟩ := remTok_cons_facts hrem1
        cases rest1 with
        | nil =>
          have hrem20 : remTok ⟨stream, pos + 1 + 1, errs⟩ = [] := by
            simpa [chainTokens] using hrem2
          obtain ⟨hnext2, -⟩ := remTok_nil_facts hrem20
          refine ⟨.binary left o (leafOf d), pos + 1 + 1, [(o, d)], [], ?_, rfl, ?_, ?_,
            ?_, trivial, ?_⟩
          · rw [parsePrec_succ]
            simp [hnext, hcur, hov, hnlt, hnone, consumeTok, hpp, hnext2]
          · simpa [chainTokens] using hrem20
          · simp only [wellAssoc, Bool.and_eq_true, decide_eq_true_eq]
            refine ⟨⟨⟨⟨hwa, trivial⟩, hprec0⟩, hhb1⟩, ?_⟩
            have hr : rootPrecE (leafOf d) = 1000 := rfl
            rw [hr]
            omega
          · simp [frontier, flatFrontier, leafOf]
          · have hr : rootPrecE (.binary left o (leafOf d)) = getOpPrec o := rfl
            rw [hr]
            exact le_trans (min_le_left _ _) hlt
        | cons hd2 rest2 =>
          obtain ⟨o2, d2⟩ := hd2
          rw [chainTokens_cons] at hrem2
          obtain ⟨hnext2, hcur2, -⟩ := remTok_cons_facts hrem2
          obtain ⟨hprec02, -, -⟩ := opsOK_cons hops1
          have hov2 : (opTok o2).value = o2 := rfl
          have hle52 : getOpPrec o2 ≤ 5 :=
            (opTok_facts (t := opTok o2) (getOpPrec_nonneg_isSome hprec02)).2.2.2.2.2
          by_cases hnp : getOpPrec o < getOpPrec o2
          · have hws : wellAssoc (leafOf d) = true := by simp [wellAssoc, leafOf]
            have hhbr : headBound (leafOf d) ((o2, d2) :: rest2) := by
              show getOpPrec o2 ≤ rootPrecE (leafOf d)
              have hr : rootPrecE (leafOf d) = 1000 := rfl
              rw [hr]
              omega
            obtain ⟨r2e, pos3, pre2, suf2, hA2, hB2, hC2, hD2, hE2, hF2, hG2⟩ :=
              ih ((o2, d2) :: rest2) (getOpPrec o + 1) (leafOf d) stream (pos + 1 + 1)
                errs (by simp only [List.length_cons] at hf3 ⊢; omega) hops1 hws hhbr
                (by rw [chainTokens_cons]; exact hrem2)
            have hprecleft : getOpPrec o < rootPrecE r2e := by
              have hG2b := hG2
              have hr : rootPrecE (leafOf d) = 1000 := rfl
              rw [hr, min_eq_left (by omega : getOpPrec o + 1 ≤ (1000 : Int))] at hG2b
              omega
            have hwb : wellAssoc (.binary left o r2e) = true := by
              simp only [wellAssoc, Bool.and_eq_true, decide_eq_true_eq]
              exact ⟨⟨⟨⟨hwa, hD2⟩, hprec0⟩, hhb1⟩, hprecleft⟩
            have hhb2 : headBound (.binary left o r2e) suf2 := by
              cases suf2 with
              | nil => exact trivial
              | cons q qs =>
                obtain ⟨o3, d3⟩ := q
                show getOpPrec o3 ≤ rootPrecE (.binary left o r2e)
                have hr : rootPrecE (.binary left o r2e) = getOpPrec o := rfl
                rw [hr]
                have hf2 : getOpPrec o3 < getOpPrec o + 1 := hF2
                omega
            have hops2 : opsOK suf2 = true := by
              rw [hB2] at hops1
              exact opsOK_right hops1
            have hlen2 : suf2.length ≤ rest2.length + 1 := by
              have := congrArg List.length hB2
              simp only [List.length_cons, List.length_append] at this
              omega
            obtain ⟨e, pos4, pre3, suf3, hA3, hB3, hC3, hD3, hE3, hF3, hG3⟩ :=
              ih suf2 lastPrec (.binary left o r2e) stream pos3 errs
                (by simp only [List.length_cons] at hf3; omega) hops2 hwb hhb2 hC2
            refine ⟨e, pos4, (o, d) :: (pre2 ++ pre3), suf3, ?_, ?_, hC3, hD3, ?_,
              hF3, ?_⟩
            · rw [parsePrec_succ]
              simp [hnext, hcur, hov, hnlt, hnone, consumeTok, hpp, hnext2, hcur2,
                hov2, hnp, hA2, hA3]
            · rw [hB3] at hB2
              rw [hB2]
              simp
            · rw [hE3,
                show frontier (.binary left o r2e) =
                  frontier left ++ [Sum.inl o] ++ frontier r2e from rfl, hE2]
              simp [frontier, flatFrontier, leafOf, List.append_assoc]
            · have hr : rootPrecE (.binary left o r2e) = getOpPrec o := rfl
              rw [hr, min_eq_left hlt] at hG3
              exact le_trans (min_le_left _ _) hG3
          · push_neg at hnp
            have hnnp : ¬(getOpPrec o < getOpPrec o2) := not_lt.mpr hnp
            have hwb : wellAssoc (.binary left o (leafOf d)) = true := by
              simp only [wellAssoc, Bool.and_eq_true, decide_eq_true_eq]
              refine ⟨⟨⟨⟨hwa, trivial⟩, hprec0⟩, hhb1⟩, ?_⟩
              have hr : rootPrecE (leafOf d) = 1000 := rfl
              rw [hr]
              omega
            have hhb2 : headBound (.binary left o (leafOf d)) ((o2, d2) :: rest2) := by
              show getOpPrec o2 ≤ rootPrecE (.binary left o (leafOf d))
              have hr : rootPrecE (.binary left o (leafOf d)) = getOpPrec o := rfl
              rw [hr]
              exact hnp
            obtain ⟨e, pos3, pre2, suf2, hA2, hB2, hC2, hD2, hE2, hF2, hG2⟩ :=
              ih ((o2, d2) :: rest2) lastPrec (.binary left o (leafOf d)) stream
                (pos + 1 + 1) errs
                (by simp only [List.length_cons] at hf3 ⊢; omega) hops1 hwb hhb2
                (by rw [chainTokens_cons]; exact hrem2)
            refine ⟨e, pos3, (o, d) :: pre2, suf2, ?_, ?_, hC2, hD2, ?_, hF2, ?_⟩
            · rw [parsePrec_succ]
              simp [hnext, hcur, hov, hnlt, hnone, consumeTok, hpp, hnext2, hcur2,
                hov2, hnnp, hA2]
            · rw [hB2]
              simp
            · rw [hE2,
                show frontier (.binary left o (leafOf d)) =
                  frontier left ++ [Sum.inl o] ++ frontier (leafOf d) from rfl]
              simp [frontier, flatFrontier, leafOf, List.append_assoc]
            · have hr : rootPrecE (.binary left o (leafOf d)) = getOpPrec o := rfl
              rw [hr, min_eq_left hlt] at hG2
              exact le_trans (min_le_left _ _) hG2

/-- c1: parseExpression on any binary-operator chain (digit atoms, table
operators) consumes the whole chain and returns a left-associative binary
tree respecting the fixed precedence table — at every binary node the
operator binds no tighter than its left subtree and strictly less tightly
than its right subtree — whose in-order frontier is the source chain, with
no diagnostics recorded; and parsing "1 + 2 * 3" through the lexer and
parser yields Binary(1, +, Binary(2, *, 3)). -/
theorem c1_precedence_climbing :
    (∀ (fuel : Nat) (a : String) (rest : List (String × String)) (stream : List Token)
        (pos : Nat) (errs : List CompilerError),
        digitOnly a = true → opsOK rest = true →
        2 * rest.length + 4 ≤ fuel →
        remTok ⟨stream, pos, errs⟩ = exprTokens a rest →
        ∃ e pos2,
          parseExpression fuel ⟨stream, pos, errs⟩ =
            some (some e, ⟨stream, pos2, errs⟩) ∧
          remTok ⟨stream, pos2, errs⟩ = [] ∧
          wellAssoc e = true ∧
          frontier e = chainFrontier a rest) ∧
    tokenizeInput 100 (strBytes ("1 + 2 * 3")) =
      .ok [⟨"1", .number, 0, 1⟩, ⟨"+", .symbol, 2, 3⟩, ⟨"2", .number, 4, 5⟩,
           ⟨"*", .symbol, 6, 7⟩, ⟨"3", .number, 8, 9⟩] ∧
    parseExpression 20
        ⟨[⟨"1", .number, 0, 1⟩, ⟨"+", .symbol, 2, 3⟩, ⟨"2", .number, 4, 5⟩,
          ⟨"*", .symbol, 6, 7⟩, ⟨"3", .number, 8, 9⟩], 0, []⟩ =
      some (some (.binary (leafOf ("1")) ("+")
              (.binary (leafOf ("2")) ("*") (leafOf ("3")))),
            ⟨[⟨"1", .number, 0, 1⟩, ⟨"+", .symbol, 2, 3⟩, ⟨"2", .number, 4, 5⟩,
              ⟨"*", .symbol, 6, 7⟩, ⟨"3", .number, 8, 9⟩], 5, []⟩) := by
  refine ⟨?_, rfl, rfl⟩
  intro fuel a rest stream pos errs hda hops hf hrem
  obtain ⟨f, rfl⟩ : ∃ f, fuel = f + 4 := ⟨fuel - 4, by omega⟩
  have hrem' : remTok ⟨stream, pos, errs⟩ = numTok a :: chainTokens rest := hrem
  obtain ⟨-, -, hrem1⟩ := remTok_cons_facts hrem'
  have hopH : opHead (chainTokens rest) := opHead_chain hops
  have hpl := parseLeft_digit f hda hrem' hopH
  cases rest with
  | nil =>
    have hrem10 : remTok ⟨stream, pos + 1, errs⟩ = [] := by
      simpa [chainTokens] using hrem1
    obtain ⟨-, hbt⟩ := remTok_nil_facts hrem10
    have hm1 : Token.Matches BadToken ["."] = false := by decide
    have hm2 : Token.Matches BadToken assignOperatorsL = false := by decide
    have hm3 : (opPrecMap BadToken.value).isSome = false := by decide
    refine ⟨leafOf a, pos + 1, ?_, hrem10, by simp [wellAssoc, leafOf], ?_⟩
    · simp only [parseExpression, hpl, hbt, hm1, hm2, hm3]
      simp
    · simp [chainFrontier, flatFrontier, frontier, leafOf]
  | cons hd rest1 =>
    obtain ⟨o, d⟩ := hd
    rw [chainTokens_cons] at hrem1
    obtain ⟨-, hcur1, -⟩ := remTok_cons_facts hrem1
    obtain ⟨hprec0, -, -⟩ := opsOK_cons hops
    have hsome : (opPrecMap o).isSome = true := getOpPrec_nonneg_isSome hprec0
    have hfacts := opTok_facts (t := opTok o) hsome
    have hle5 : getOpPrec o ≤ 5 := hfacts.2.2.2.2.2
    have hov : (opTok o).value = o := rfl
    have hhb : headBound (leafOf a) ((o, d) :: rest1) := by
      show getOpPrec o ≤ rootPrecE (leafOf a)
      have hr : rootPrecE (leafOf a) = 1000 := rfl
      rw [hr]
      omega
    obtain ⟨e, pos2, pre, suf, hA, hB, hC, hD, hE, hF, hG⟩ :=
      parsePrec_climb (f + 3) ((o, d) :: rest1) 0 (leafOf a) stream (pos + 1) errs
        (by simp only [List.length_cons] at hf ⊢; omega) hops
        (by simp [wellAssoc, leafOf]) hhb
        (by rw [chainTokens_cons]; exact hrem1)
    have hsuf : suf = [] := by
      cases suf with
      | nil => rfl
      | cons q qs =>
        obtain ⟨o3, d3⟩ := q
        exfalso
        have hlt0 : getOpPrec o3 < 0 := hF
        have hops2 : opsOK ((o3, d3) :: qs) = true := by
          rw [hB] at hops
          exact opsOK_right hops
        obtain ⟨h0, -, -⟩ := opsOK_cons hops2
        omega
    subst hsuf
    have hpre : pre = (o, d) :: rest1 := by simpa using hB.symm
    subst hpre
    refine ⟨e, pos2, ?_, ?_, hD, ?_⟩
    · simp only [parseExpression, hpl, hcur1, hfacts.1, hfacts.2.1, hov, hsome]
      simp [hA]
    · simpa [chainTokens] using hC
    · rw [hE]
      simp [chainFrontier, frontier, leafOf]

/-- Helper: consume on an ASCII head byte decodes exactly that byte and
advances one position with width one. -/
theorem consume_ascii {input : List Nat} {pos : Nat} {b : Nat} {rest : List Nat}
    (start width : Nat) (stream : List Token)
    (hdrop : input.drop pos = b :: rest) (hb : b < 128) :
    consume ⟨input, pos, start, width, stream⟩ =
      (.ch b, ⟨input, pos + 1, start, 1, stream⟩) := by
  have hpos : pos < input.length := by
    by_contra hc
    push_neg at hc
    rw [List.drop_eq_nil_of_le hc] at hdrop
    exact List.cons_ne_nil _ _ hdrop.symm
  have hne : ¬(b = 65533) := by omega
  simp only [consume]
  rw [if_neg (by omega : ¬(input.length ≤ pos)), hdrop]
  simp [decodeRune, hb, hne]

/-- Helper: consume past the end of input returns the eof sentinel with
width zero and an unchanged position. -/
theorem consume_eof {input : List Nat} {pos : Nat} (start width : Nat)
    (stream : List Token) (h : input.length ≤ pos) :
    consume ⟨input, pos, start, width, stream⟩ =
      (.eof, ⟨input, pos, start, 0, stream⟩) := by
  simp only [consume]
  rw [if_pos h]

/-- Helper: the head of a dropWhile result fails the predicate. -/
theorem dropWhile_head_false {α : Type} {p : α → Bool} :
    ∀ (l : List α) {b : α} {t : List α}, l.dropWhile p = b :: t → p b = false := by
  intro l
  induction l with
  | nil => intro b t h; simp at h
  | cons c cs ih =>
    intro b t h
    rw [List.dropWhile_cons] at h
    by_cases hp : p c
    · rw [if_pos hp] at h
      exact ih h
    · rw [if_neg hp] at h
      injection h with h1 h2
      subst h1
      exact Bool.eq_false_iff.mpr hp

/-- Helper: dropping past an identified prefix of the remaining input. -/
theorem drop_past_chunk {input pre suf : List Nat} {pos : Nat}
    (h : input.drop pos = pre ++ suf) :
    input.drop (pos + pre.length) = suf := by
  have h2 : (input.drop pos).drop pre.length = suf := by
    rw [h, List.drop_left]
  rw [List.drop_drop] at h2
  exact h2

/-- Helper: a byte list avoiding 34 contributes no quote count. -/
theorem count34_zero {l : List Nat} (h : ∀ x ∈ l, x ≠ 34) : l.count 34 = 0 :=
  List.count_eq_zero.mpr (fun hc => h 34 hc rfl)

/-- Helper: the quote-scanning loop never terminates once the cursor is at
or past the end of input: consume keeps answering eof with the position
unchanged, so every fuel is exhausted. -/
theorem lexQuoteLoop_eof :
    ∀ (fuel : Nat) (input : List Nat) (pos start width : Nat) (stream : List Token),
      input.length ≤ pos →
      lexQuoteLoop fuel ⟨input, pos, start, width, stream⟩ = .fuelOut := by
  intro fuel
  induction fuel with
  | zero => intro input pos start width stream h; rfl
  | succ f ih =>
    intro input pos start width stream h
    simp only [lexQuoteLoop, consume_eof start width stream h]
    exact ih input pos start 0 stream h

/-- Helper: acceptRun consumes exactly a maximal valid ASCII chunk and
rewinds once, given fuel beyond the chunk length. -/
theorem acceptRun_ascii :
    ∀ (chunk : List Nat) (fuel : Nat) (valid : List Nat) (input : List Nat)
      (pos start width : Nat) (stream : List Token) (rest2 : List Nat),
      input.drop pos = chunk ++ rest2 →
      (∀ b ∈ chunk, b < 128 ∧ valid.contains b = true) →
      (∀ c t, rest2 = c :: t → c < 128 ∧ valid.contains c = false) →
      chunk.length + 1 ≤ fuel →
      ∃ w, acceptRun fuel valid ⟨input, pos, start, width, stream⟩ =
        .ok ⟨input, pos + chunk.length, start, w, stream⟩ := by
  intro chunk
  induction chunk with
  | nil =>
    intro fuel valid input pos start width stream rest2 hdrop hall hstop hfuel
    obtain ⟨f, rfl⟩ : ∃ f, fuel = f + 1 := ⟨fuel - 1, by omega⟩
    simp only [List.nil_append] at hdrop
    cases rest2 with
    | nil =>
      have hlen : input.length ≤ pos := by
        have h0 := congrArg List.length hdrop
        rw [List.length_drop] at h0
        simp at h0
        omega
      refine ⟨0, ?_⟩
      simp only [acceptRun, consume_eof start width stream hlen]
      simp [rewind]
    | cons b rb =>
      obtain ⟨hb, hnv⟩ := hstop b rb rfl
      refine ⟨1, ?_⟩
      simp only [acceptRun, consume_ascii start width stream hdrop hb, hnv]
      simp [rewind]
  | cons c ct ih =>
    intro fuel valid input pos start width stream rest2 hdrop hall hstop hfuel
    obtain ⟨f, rfl⟩ : ∃ f, fuel = f + 1 := ⟨fuel - 1, by omega⟩
    have hc := hall c (by simp)
    have hdrop2 : input.drop pos = c :: (ct ++ rest2) := by simpa using hdrop
    have hdropt : input.drop (pos + 1) = ct ++ rest2 := by
      have h0 := congrArg List.tail hdrop2
      rw [List.tail_drop] at h0
      simpa using h0
    have hct : ∀ b ∈ ct, b < 128 ∧ valid.contains b = true :=
      fun b hb => hall b (by simp [hb])
    obtain ⟨w, hw⟩ := ih f valid input (pos + 1) start 1 stream rest2 hdropt hct hstop
      (by simp only [List.length_cons] at hfuel; omega)
    refine ⟨w, ?_⟩
    simp only [acceptRun, consume_ascii start width stream hdrop2 hc.1, hc.2, if_true]
    rw [hw]
    have heq : pos + 1 + ct.length = pos + (c :: ct).length := by
      simp only [List.length_cons]
      omega
    rw [heq]

/-- Helper: lexIdentifier consumes a maximal alphanumeric ASCII chunk,
emits one Identifier token and hands the scan back to lexStart, losing one
fuel unit per consumed byte plus one for the stop step. -/
theorem lexIdentifier_run :
    ∀ (chunk : List Nat) (fuel : Nat) (input : List Nat) (pos start width : Nat)
      (stream : List Token) (rest2 : List Nat),
      input.drop pos = chunk ++ rest2 →
      (∀ b ∈ chunk, b < 128 ∧ isAlphaNumericB b = true) →
      (∀ c t, rest2 = c :: t → c < 128 ∧ isAlphaNumericB c = false) →
      ∃ w, lexIdentifier (fuel + (chunk.length + 1)) ⟨input, pos, start, width, stream⟩ =
        lexStart fuel (emit .identifier ⟨input, pos + chunk.length, start, w, stream⟩) := by
  intro chunk
  induction chunk with
  | nil =>
    intro fuel input pos start width stream rest2 hdrop hall hstop
    simp only [List.nil_append] at hdrop
    cases rest2 with
    | nil =>
      have hlen : input.length ≤ pos := by
        have h0 := congrArg List.length hdrop
        rw [List.length_drop] at h0
        simp at h0
        omega
      refine ⟨0, ?_⟩
      simp only [lexIdentifier, consume_eof start width stream hlen]
      simp [rewind]
    | cons b rb =>
      obtain ⟨hb, hna⟩ := hstop b rb rfl
      refine ⟨1, ?_⟩
      simp only [lexIdentifier, consume_ascii start width stream hdrop hb, hna]
      simp [rewind]
  | cons c ct ih =>
    intro fuel input pos start width stream rest2 hdrop hall hstop
    have hc := hall c (by simp)
    have hdrop2 : input.drop pos = c :: (ct ++ rest2) := by simpa using hdrop
    have hdropt : input.drop (pos + 1) = ct ++ rest2 := by
      have h0 := congrArg List.tail hdrop2
      rw [List.tail_drop] at h0
      simpa using h0
    have hct : ∀ b ∈ ct, b < 128 ∧ isAlphaNumericB b = true :=
      fun b hb => hall b (by simp [hb])
    obtain ⟨w, hw⟩ := ih fuel input (pos + 1) start 1 stream rest2 hdropt hct hstop
    refine ⟨w, ?_⟩
    have hsh : fuel + ((c :: ct).length + 1) = (fuel + (ct.length + 1)) + 1 := by
      simp only [List.length_cons]
      omega
    rw [hsh]
    generalize hF : fuel + (ct.length + 1) = F
    rw [hF] at hw
    simp only [lexIdentifier, consume_ascii start width stream hdrop2 hc.1, hc.2, if_true]
    rw [hw]
    have heq : pos + 1 + ct.length = pos + (c :: ct).length := by
      simp only [List.length_cons]
      omega
    rw [heq]

/-- Helper: the quote-scanning loop passes over the ASCII interior of a
terminated string literal, consumes the closing quote and emits one String
token. -/
theorem lexQuoteLoop_run :
    ∀ (chunk : List Nat) (fuel : Nat) (input : List Nat) (pos start width : Nat)
      (stream : List Token) (rest2 : List Nat),
      input.drop pos = chunk ++ 34 :: rest2 →
      (∀ b ∈ chunk, b < 128 ∧ b ≠ 34) →
      lexQuoteLoop (fuel + (chunk.length + 1)) ⟨input, pos, start, width, stream⟩ =
        lexStart fuel (emit .stringTok ⟨input, pos + chunk.length + 1, start, 1, stream⟩) := by
  intro chunk
  induction chunk with
  | nil =>
    intro fuel input pos start width stream rest2 hdrop hall
    simp only [List.nil_append] at hdrop
    simp only [lexQuoteLoop,
      consume_ascii start width stream hdrop (by omega : (34 : Nat) < 128)]
    simp
  | cons c ct ih =>
    intro fuel input pos start width stream rest2 hdrop hall
    have hc := hall c (by simp)
    have hdrop2 : input.drop pos = c :: (ct ++ 34 :: rest2) := by simpa using hdrop
    have hdropt : input.drop (pos + 1) = ct ++ 34 :: rest2 := by
      have h0 := congrArg List.tail hdrop2
      rw [List.tail_drop] at h0
      simpa using h0
    have hct : ∀ b ∈ ct, b < 128 ∧ b ≠ 34 := fun b hb => hall b (by simp [hb])
    have hiq := ih fuel input (pos + 1) start 1 stream rest2 hdropt hct
    have hsh : fuel + ((c :: ct).length + 1) = (fuel + (ct.length + 1)) + 1 := by
      simp only [List.length_cons]
      omega
    rw [hsh]
    generalize hF : fuel + (ct.length + 1) = F
    rw [hF] at hiq
    simp only [lexQuoteLoop, consume_ascii start width stream hdrop2 hc.1]
    rw [if_neg (by exact hc.2)]
    rw [hiq]
    have heq : pos + 1 + ct.length + 1 = pos + (c :: ct).length + 1 := by
      simp only [List.length_cons]
      omega
    rw [heq]

/-- Helper: accept consumes a matching ASCII head byte. -/
theorem accept_mem {input : List Nat} {pos b : Nat} {rest valid : List Nat}
    (start width : Nat) (stream : List Token)
    (hdrop : input.drop pos = b :: rest) (hb : b < 128)
    (hv : valid.contains b = true) :
    accept valid ⟨input, pos, start, width, stream⟩ =
      some (true, ⟨input, pos + 1, start, 1, stream⟩) := by
  simp only [accept, consume_ascii start width stream hdrop hb, hv]
  simp

/-- Helper: accept rewinds over a non-matching ASCII head byte. -/
theorem accept_notmem {input : List Nat} {pos b : Nat} {rest valid : List Nat}
    (start width : Nat) (stream : List Token)
    (hdrop : input.drop pos = b :: rest) (hb : b < 128)
    (hv : valid.contains b = false) :
    accept valid ⟨input, pos, start, width, stream⟩ =
      some (false, ⟨input, pos, start, 1, stream⟩) := by
  simp only [accept, consume_ascii start width stream hdrop hb, hv]
  simp [rewind]

/-- Helper: accept at the end of input answers false without moving. -/
theorem accept_eof {input : List Nat} {pos : Nat} (valid : List Nat)
    (start width : Nat) (stream : List Token) (h : input.length ≤ pos) :
    accept valid ⟨input, pos, start, width, stream⟩ =
      some (false, ⟨input, pos, start, 0, stream⟩) := by
  simp only [accept, consume_eof start width stream h]
  simp [rewind]

/-- Helper: the integer digit set is exactly the embedded IsDigit class. -/
theorem digitRun_contains (x : Nat) : digitRun.contains x = isDigitB x := by
  cases hx : isDigitB x with
  | true =>
    simp only [isDigitB, Bool.and_eq_true, decide_eq_true_eq] at hx
    obtain ⟨h1, h2⟩ := hx
    interval_cases x <;> decide
  | false =>
    by_contra hc
    simp only [Bool.not_eq_false] at hc
    have hmem : x ∈ digitRun := by simpa using hc
    simp only [digitRun, List.mem_cons, List.not_mem_nil, or_false] at hmem
    rcases hmem with rfl | rfl | rfl | rfl | rfl | rfl | rfl | rfl | rfl | rfl <;>
      exact absurd hx (by decide)

/-- Helper: integer digits are not the quote byte. -/
theorem digitRun_ne34 {x : Nat} (h : digitRun.contains x = true) : x ≠ 34 := by
  rintro rfl
  exact absurd h (by decide)

/-- Helper: fractional digits are not the quote byte. -/
theorem fracRun_ne34 {x : Nat} (h : fracRun.contains x = true) : x ≠ 34 := by
  rintro rfl
  exact absurd h (by decide)

/-- Helper: alphanumeric bytes are not the quote byte. -/
theorem alnum_ne34 {x : Nat} (h : isAlphaNumericB x = true) : x ≠ 34 := by
  rintro rfl
  exact absurd h (by decide)

/-- Helper: dropping an identified no-quote prefix keeps the quote count of
the remaining input. -/
theorem count34_suffix {input : List Nat} {pos : Nat} {pre suf : List Nat}
    (h : input.drop pos = pre ++ suf) (hpre : ∀ x ∈ pre, x ≠ 34) :
    (input.drop (pos + pre.length)).count 34 = (input.drop pos).count 34 := by
  rw [drop_past_chunk h, h, List.count_append, count34_zero hpre]
  omega

/-- Helper: registered symbols are not the quote byte. -/
theorem symbol_ne34 {x : Nat} (h : isSymbolB x = true) : x ≠ 34 := by
  rintro rfl
  exact absurd h (by decide)

/-- Helper: the second byte of a two-character operator is not the quote
byte. -/
theorem doubleSym_ne34 {x y : Nat} (h : doubleSymB x y = true) : y ≠ 34 := by
  rintro rfl
  simp only [doubleSymB, Bool.or_eq_true, Bool.and_eq_true, decide_eq_true_eq] at h
  omega

/-- Helper: the stop condition a maximal-run split hands to the accept-run
lemmas: the first unconsumed byte fails the predicate. -/
theorem dropWhile_stop {p : Nat → Bool} {l dw : List Nat}
    (hdw : l.dropWhile p = dw) (hascii : ∀ x ∈ dw, x < 128) :
    ∀ c t, dw = c :: t → c < 128 ∧ p c = false := by
  intro c t hct
  subst hct
  exact ⟨hascii c (by simp), dropWhile_head_false _ hdw⟩

/-- Helper: on ASCII input whose pending quote count is even, the lexer
state machine always reaches a final state, given fuel linear in the
remaining input. -/
theorem lexStart_total :
    ∀ (n : Nat) (input : List Nat) (pos start width : Nat) (stream : List Token)
      (fuel : Nat),
      allAscii input = true →
      Even ((input.drop pos).count 34) →
      input.length - pos < n →
      3 * (input.length - pos) + 2 ≤ fuel →
      ∃ s2, lexStart fuel ⟨input, pos, start, width, stream⟩ = .ok s2 := by
  intro n
  induction n with
  | zero =>
    intro input pos start width stream fuel hasc hev hn hfuel
    omega
  | succ n ih =>
    intro input pos start width stream fuel hasc hev hn hfuel
    obtain ⟨F1, rfl⟩ : ∃ f, fuel = f + 1 := ⟨fuel - 1, by omega⟩
    by_cases hpos : input.length ≤ pos
    · refine ⟨rewind ⟨input, pos, start, 0, stream⟩, ?_⟩
      simp only [lexStart, consume_eof start width stream hpos]
    · push_neg at hpos
      obtain ⟨b, rest, hdrop⟩ : ∃ b rest, input.drop pos = b :: rest := by
        cases hd : input.drop pos with
        | nil =>
          exfalso
          have h0 := congrArg List.length hd
          rw [List.length_drop] at h0
          simp at h0
          omega
        | cons b r => exact ⟨b, r, rfl⟩
      have hsub : input.drop pos ⊆ input := (List.drop_sublist pos input).subset
      have hball : ∀ x ∈ input, x < 128 := by
        intro x hx
        have hx2 := List.all_eq_true.mp hasc x hx
        simpa using hx2
      have hb : b < 128 := hball b (hsub (by rw [hdrop]; simp))
      have hcons := consume_ascii start width stream hdrop hb
      have hrlen : rest.length = input.length - pos - 1 := by
        have h0 := congrArg List.length hdrop
        rw [List.length_drop] at h0
        simp at h0
        omega
      have hdropt : input.drop (pos + 1) = rest := by
        have h0 := congrArg List.tail hdrop
        rw [List.tail_drop] at h0
        simpa using h0
      have hevm := Nat.even_iff.mp hev
      by_cases hdig : isDigitB b
      · -- lexNumber branch
        obtain ⟨F2, rfl⟩ : ∃ f, F1 = f + 1 := ⟨F1 - 1, by omega⟩
        have hsplit : input.drop pos =
            (input.drop pos).takeWhile (fun x => digitRun.contains x) ++
            (input.drop pos).dropWhile (fun x => digitRun.contains x) :=
          (List.takeWhile_append_dropWhile _ _).symm
        generalize htw : (input.drop pos).takeWhile (fun x => digitRun.contains x) = tw
          at hsplit
        generalize hdw : (input.drop pos).dropWhile (fun x => digitRun.contains x) = dw
          at hsplit
        have htw_all : ∀ x ∈ tw, x < 128 ∧ digitRun.contains x = true := by
          intro x hx
          rw [← htw] at hx
          exact ⟨hball x (hsub ((List.takeWhile_sublist _).subset hx)),
            List.mem_takeWhile_imp hx⟩
        have htw_ne34 : ∀ x ∈ tw, x ≠ 34 := fun x hx => digitRun_ne34 (htw_all x hx).2
        obtain ⟨twr, htwc⟩ : ∃ twr, tw = b :: twr := by
          rw [← htw, hdrop, List.takeWhile_cons_of_pos]
          · exact ⟨_, rfl⟩
          · rw [digitRun_contains]
            exact hdig
        have htwlen : 1 ≤ tw.length := by rw [htwc]; simp
        have htwlen2 : tw.length ≤ input.length - pos := by
          have h0 := congrArg List.length hsplit
          rw [List.length_drop, List.length_append] at h0
          omega
        have hdw_ascii : ∀ x ∈ dw, x < 128 := by
          intro x hx
          apply hball
          apply hsub
          rw [hsplit]
          simp [hx]
        have hstop := dropWhile_stop hdw hdw_ascii
        obtain ⟨w1, hrun⟩ := acceptRun_ascii tw (F2 + 1) digitRun input pos start 1
          stream dw hsplit htw_all hstop (by omega)
        have hdropq : input.drop (pos + tw.length) = dw := drop_past_chunk hsplit
        have hcnt : (input.drop (pos + tw.length)).count 34 =
            (input.drop pos).count 34 := count34_suffix hsplit htw_ne34
        cases hdwc : dw with
        | nil =>
          have hq : input.length ≤ pos + tw.length := by
            rw [hdwc] at hdropq
            have h0 := congrArg List.length hdropq
            rw [List.length_drop] at h0
            simp at h0
            omega
          have hstep : lexStart (F2 + 1 + 1) ⟨input, pos, start, width, stream⟩ =
              lexStart F2 (emit .number ⟨input, pos + tw.length, start, 0, stream⟩) := by
            simp only [lexStart, hcons, hdig, if_true]
            simp only [rewind, Nat.add_sub_cancel]
            simp only [lexNumber, hrun, accept_eof [46] start w1 stream hq]
          rw [hstep]
          simp only [emit]
          exact ih input (pos + tw.length) _ _ _ F2 hasc
            (by rw [Nat.even_iff, hcnt]; exact hevm) (by omega) (by omega)
        | cons e1 dr =>
          have he1lt : e1 < 128 := by
            apply hball
            apply hsub
            rw [hsplit, hdwc]
            simp
          have he1nd : digitRun.contains e1 = false := by
            rw [hdwc] at hdw
            exact dropWhile_head_false _ hdw.symm.symm
          rw [hdwc] at hdropq
          by_cases hdot : e1 = 46
          · subst hdot
            have hdropr : input.drop (pos + tw.length + 1) = dr := by
              have h0 := congrArg List.tail hdropq
              rw [List.tail_drop] at h0
              simpa using h0
            have hsplit2 : input.drop (pos + tw.length + 1) =
                (input.drop (pos + tw.length + 1)).takeWhile
                  (fun x => fracRun.contains x) ++
                (input.drop (pos + tw.length + 1)).dropWhile
                  (fun x => fracRun.contains x) :=
              (List.takeWhile_append_dropWhile _ _).symm
            generalize htw2 : (input.drop (pos + tw.length + 1)).takeWhile
                (fun x => fracRun.contains x) = tw2 at hsplit2
            generalize hdw2 : (input.drop (pos + tw.length + 1)).dropWhile
                (fun x => fracRun.contains x) = dw2 at hsplit2
            have htw2_all : ∀ x ∈ tw2, x < 128 ∧ fracRun.contains x = true := by
              intro x hx
              rw [← htw2] at hx
              refine ⟨?_, List.mem_takeWhile_imp hx⟩
              apply hball
              have hx2 := (List.takeWhile_sublist _).subset hx
              exact (List.drop_sublist _ _).subset hx2
            have htw2_ne34 : ∀ x ∈ tw2, x ≠ 34 :=
              fun x hx => fracRun_ne34 (htw2_all x hx).2
            have htw2len : tw2.length ≤ input.length - (pos + tw.length + 1) := by
              have h0 := congrArg List.length hsplit2
              rw [List.length_drop, List.length_append] at h0
              omega
            have hdw2_ascii : ∀ x ∈ dw2, x < 128 := by
              intro x hx
              apply hball
              have hx2 : x ∈ input.drop (pos + tw.length + 1) := by
                rw [hsplit2]
                simp [hx]
              exact (List.drop_sublist _ _).subset hx2
            have hstop2 := dropWhile_stop hdw2 hdw2_ascii
            obtain ⟨w3, hrun2⟩ := acceptRun_ascii tw2 (F2 + 1) fracRun input
              (pos + tw.length + 1) start 1 stream dw2 hsplit2 htw2_all hstop2
              (by omega)
            have hcnt2 : (input.drop (pos + tw.length + 1 + tw2.length)).count 34 =
                dw2.count 34 := by
              rw [drop_past_chunk hsplit2, ← hdw2]
            have hcnt3 : dw2.count 34 = (input.drop pos).count 34 := by
              have h1 : (input.drop (pos + tw.length + 1)).count 34 =
                  tw2.count 34 + dw2.count 34 := by
                rw [hsplit2, List.count_append]
              rw [count34_zero htw2_ne34] at h1
              have h2 : (input.drop (pos + tw.length)).count 34 =
                  (input.drop (pos + tw.length + 1)).count 34 := by
                rw [hdropq, hdropr]
                simp [List.count_cons]
              omega
            have hstep : lexStart (F2 + 1 + 1) ⟨input, pos, start, width, stream⟩ =
                lexStart F2 (emit .number
                  ⟨input, pos + tw.length + 1 + tw2.length, start, w3, stream⟩) := by
              simp only [lexStart, hcons, hdig, if_true]
              simp only [rewind, Nat.add_sub_cancel]
              simp only [lexNumber, hrun,
                @accept_mem input (pos + tw.length) 46 dr [46] start w1 stream hdropq
                  (by omega) (by decide), hrun2]
            rw [hstep]
            simp only [emit]
            exact ih input (pos + tw.length + 1 + tw2.length) _ _ _ F2 hasc
              (by rw [Nat.even_iff, hcnt2, hcnt3]; exact hevm) (by omega) (by omega)
          · have hnc : ([46] : List Nat).contains e1 = false := by
              by_contra hc
              simp only [Bool.not_eq_false] at hc
              have : e1 ∈ ([46] : List Nat) := by simpa using hc
              simp at this
              exact hdot this
            have hstep : lexStart (F2 + 1 + 1) ⟨input, pos, start, width, stream⟩ =
                lexStart F2 (emit .number
                  ⟨input, pos + tw.length, start, 1, stream⟩) := by
              simp only [lexStart, hcons, hdig, if_true]
              simp only [rewind, Nat.add_sub_cancel]
              simp only [lexNumber, hrun,
                accept_notmem start w1 stream hdropq he1lt hnc]
            rw [hstep]
            simp only [emit]
            exact ih input (pos + tw.length) _ _ _ F2 hasc
              (by rw [Nat.even_iff, hcnt]; exact hevm) (by omega) (by omega)
      · by_cases halnum : isAlphaNumericB b
        · -- lexIdentifier branch
          have hsplit : input.drop pos =
              (input.drop pos).takeWhile (fun x => isAlphaNumericB x) ++
              (input.drop pos).dropWhile (fun x => isAlphaNumericB x) :=
            (List.takeWhile_append_dropWhile _ _).symm
          generalize htw : (input.drop pos).takeWhile (fun x => isAlphaNumericB x) = tw
            at hsplit
          generalize hdw : (input.drop pos).dropWhile (fun x => isAlphaNumericB x) = dw
            at hsplit
          have htw_all : ∀ x ∈ tw, x < 128 ∧ isAlphaNumericB x = true := by
            intro x hx
            rw [← htw] at hx
            exact ⟨hball x (hsub ((List.takeWhile_sublist _).subset hx)),
              List.mem_takeWhile_imp hx⟩
          have htw_ne34 : ∀ x ∈ tw, x ≠ 34 := fun x hx => alnum_ne34 (htw_all x hx).2
          obtain ⟨twr, htwc⟩ : ∃ twr, tw = b :: twr := by
            rw [← htw, hdrop, List.takeWhile_cons_of_pos halnum]
            exact ⟨_, rfl⟩
          have htwlen : 1 ≤ tw.length := by rw [htwc]; simp
          have htwlen2 : tw.length ≤ input.length - pos := by
            have h0 := congrArg List.length hsplit
            rw [List.length_drop, List.length_append] at h0
            omega
          have hdw_ascii : ∀ x ∈ dw, x < 128 := by
            intro x hx
            apply hball
            apply hsub
            rw [hsplit]
            simp [hx]
          have hstop := dropWhile_stop hdw hdw_ascii
          obtain ⟨fuel3, hF1⟩ : ∃ g, F1 = g + (tw.length + 1) :=
            ⟨F1 - (tw.length + 1), by omega⟩
          obtain ⟨w, hid⟩ := lexIdentifier_run tw fuel3 input pos
            start 1 stream dw hsplit htw_all hstop
          have hcnt : (input.drop (pos + tw.length)).count 34 =
              (input.drop pos).count 34 := count34_suffix hsplit htw_ne34
          have hstep : lexStart (F1 + 1) ⟨input, pos, start, width, stream⟩ =
              lexStart fuel3 (emit .identifier
                ⟨input, pos + tw.length, start, w, stream⟩) := by
            simp only [lexStart, hcons, hdig, halnum, if_true, Bool.false_eq_true,
              if_false]
            simp only [rewind, Nat.add_sub_cancel]
            rw [hF1]
            exact hid
          rw [hstep]
          simp only [emit]
          exact ih input (pos + tw.length) _ _ _ fuel3 hasc
            (by rw [Nat.even_iff, hcnt]; exact hevm) (by omega) (by omega)
        · by_cases hsym : isSymbolB b
          · -- lexSymbol branch
            obtain ⟨F2, rfl⟩ : ∃ f, F1 = f + 1 := ⟨F1 - 1, by omega⟩
            have hb34 : b ≠ 34 := symbol_ne34 hsym
            cases hrest : rest with
            | nil =>
              have hq : input.length ≤ pos + 1 := by
                rw [hrest] at hdropt
                have h0 := congrArg List.length hdropt
                rw [List.length_drop] at h0
                simp at h0
                omega
              have hstep : lexStart (F2 + 1 + 1) ⟨input, pos, start, width, stream⟩ =
                  lexStart F2 (emit .symbol ⟨input, pos + 1, start, 0, stream⟩) := by
                simp only [lexStart, hcons, hdig, halnum, hsym, if_true,
                  Bool.false_eq_true, if_false]
                simp only [rewind, Nat.add_sub_cancel]
                simp only [lexSymbol, consume_ascii start 1 stream hdrop hb]
                simp only [peekRune, consume_eof start 1 stream hq]
                simp only [rewind]
                simp
              rw [hstep]
              simp only [emit]
              refine ih input (pos + 1) _ _ _ F2 hasc ?_ (by omega) (by omega)
              rw [Nat.even_iff, hdropt, hrest]
              simp
            | cons c2 rest2 =>
              rw [hrest] at hdropt
              have hc2lt : c2 < 128 := by
                apply hball
                apply (List.drop_sublist (pos + 1) input).subset
                rw [hdropt]
                simp
              have hdropt2 : input.drop (pos + 1 + 1) = rest2 := by
                have h0 := congrArg List.tail hdropt
                rw [List.tail_drop] at h0
                simpa using h0
              have hcnt1 : rest2.count 34 + (if c2 == 34 then 1 else 0) +
                  (if b == 34 then 1 else 0) = (input.drop pos).count 34 := by
                rw [hdrop, hrest]
                simp [List.count_cons]
              by_cases hds : doubleSymB b c2
              · have hc234 : c2 ≠ 34 := doubleSym_ne34 hds
                have hstep : lexStart (F2 + 1 + 1) ⟨input, pos, start, width, stream⟩ =
                    lexStart F2 (emit .symbol ⟨input, pos + 1 + 1, start, 1, stream⟩) := by
                  simp only [lexStart, hcons, hdig, halnum, hsym, if_true,
                    Bool.false_eq_true, if_false]
                  simp only [rewind, Nat.add_sub_cancel]
                  simp only [lexSymbol, consume_ascii start 1 stream hdrop hb]
                  simp only [peekRune, consume_ascii start 1 stream hdropt hc2lt]
                  simp only [rewind, Nat.add_sub_cancel]
                  simp only [hds, if_true]
                  simp only [consume_ascii start 1 stream hdropt hc2lt]
                rw [hstep]
                simp only [emit]
                refine ih input (pos + 1 + 1) _ _ _ F2 hasc ?_ (by omega) (by omega)
                rw [Nat.even_iff, hdropt2]
                rw [if_neg (by simpa using hc234), if_neg (by simpa using hb34)] at hcnt1
                omega
              · have hstep : lexStart (F2 + 1 + 1) ⟨input, pos, start, width, stream⟩ =
                    lexStart F2 (emit .symbol ⟨input, pos + 1, start, 1, stream⟩) := by
                  simp only [lexStart, hcons, hdig, halnum, hsym, if_true,
                    Bool.false_eq_true, if_false]
                  simp only [rewind, Nat.add_sub_cancel]
                  simp only [lexSymbol, consume_ascii start 1 stream hdrop hb]
                  simp only [peekRune, consume_ascii start 1 stream hdropt hc2lt]
                  simp only [rewind, Nat.add_sub_cancel]
                  simp only [hds, Bool.false_eq_true, if_false]
                rw [hstep]
                simp only [emit]
                refine ih input (pos + 1) _ _ _ F2 hasc ?_ (by omega) (by omega)
                rw [Nat.even_iff, hdropt]
                have h1 := hevm
                rw [hdrop, hrest] at h1
                simp only [List.count_cons, beq_iff_eq, hb34, if_false] at h1 ⊢
                omega
          · by_cases hq34 : b = 34
            · -- lexQuote branch
              subst hq34
              obtain ⟨F2, rfl⟩ : ∃ f, F1 = f + 1 := ⟨F1 - 1, by omega⟩
              have hodd : rest.count 34 % 2 = 1 := by
                rw [hdrop] at hevm
                simp [List.count_cons] at hevm
                omega
              have hmem34 : (34 : Nat) ∈ rest :=
                List.count_pos_iff.mp (by omega)
              have hsplit : rest = rest.takeWhile (fun x => !(x == 34)) ++
                  rest.dropWhile (fun x => !(x == 34)) :=
                (List.takeWhile_append_dropWhile _ _).symm
              generalize htw : rest.takeWhile (fun x => !(x == 34)) = tw3 at hsplit
              generalize hdw : rest.dropWhile (fun x => !(x == 34)) = dw3 at hsplit
              have htw3_ne : ∀ x ∈ tw3, x < 128 ∧ x ≠ 34 := by
                intro x hx
                rw [← htw] at hx
                refine ⟨?_, ?_⟩
                · apply hball
                  apply hsub
                  rw [hdrop]
                  have := (List.takeWhile_sublist _).subset hx
                  simp [this]
                · have hp := List.mem_takeWhile_imp hx
                  simpa using hp
              obtain ⟨dr3, hdw3c⟩ : ∃ dr3, dw3 = 34 :: dr3 := by
                cases hdw3 : dw3 with
                | nil =>
                  exfalso
                  rw [hdw3] at hsplit
                  simp at hsplit
                  rw [hsplit] at hmem34
                  have := (htw3_ne 34 hmem34).2
                  exact this rfl
                | cons c cr =>
                  have hpc : (fun x => !(x == 34)) c = false := by
                    rw [← hdw] at hdw3
                    exact dropWhile_head_false (p := fun x => !(x == 34)) rest hdw3
                  have hpc2 : c = 34 := by simpa using hpc
                  exact ⟨cr, by rw [hpc2]⟩
              rw [hdw3c] at hsplit
              have hdroprest : input.drop (pos + 1) = tw3 ++ 34 :: dr3 := by
                rw [hdropt]
                exact hsplit
              have htw3len : tw3.length ≤ rest.length := by
                have h0 := congrArg List.length hsplit
                rw [List.length_append] at h0
                simp at h0
                omega
              obtain ⟨fuel3, hF2⟩ : ∃ g, F2 = g + (tw3.length + 1) :=
                ⟨F2 - (tw3.length + 1), by omega⟩
              have hql := lexQuoteLoop_run tw3 fuel3 input (pos + 1)
                start 1 stream dr3 hdroprest htw3_ne
              have hcntdr : dr3.count 34 % 2 = 0 := by
                have h1 : rest.count 34 = tw3.count 34 + (34 :: dr3).count 34 := by
                  rw [hsplit, List.count_append]
                rw [count34_zero (fun x hx => (htw3_ne x hx).2)] at h1
                simp [List.count_cons] at h1
                omega
              have hdropdr : input.drop (pos + 1 + tw3.length + 1) = dr3 := by
                have h1 : input.drop (pos + 1 + tw3.length) = 34 :: dr3 := by
                  have := drop_past_chunk hdroprest
                  simpa using this
                have h0 := congrArg List.tail h1
                rw [List.tail_drop] at h0
                simpa using h0
              have hstep : lexStart (F2 + 1 + 1) ⟨input, pos, start, width, stream⟩ =
                  lexStart fuel3 (emit .stringTok
                    ⟨input, pos + 1 + tw3.length + 1, start, 1, stream⟩) := by
                simp only [lexStart, hcons, hdig, halnum, hsym, Bool.false_eq_true,
                  if_false, if_true]
                simp only [rewind, Nat.add_sub_cancel]
                simp only [lexQuote,
                  @accept_mem input pos 34 rest [34] start 1 stream hdrop
                    (by omega) (by decide)]
                rw [hF2]
                exact hql
              rw [hstep]
              simp only [emit]
              exact ih input (pos + 1 + tw3.length + 1) _ _ _ fuel3
                hasc (by rw [Nat.even_iff, hdropdr]; exact hcntdr) (by omega) (by omega)
            · by_cases hws : b ≤ 32
              · -- whitespace: skip and continue
                have hb34 : b ≠ 34 := by omega
                have hstep : lexStart (F1 + 1) ⟨input, pos, start, width, stream⟩ =
                    lexStart F1 ⟨input, pos + 1, pos + 1, 1, stream⟩ := by
                  simp only [lexStart, hcons, hdig, halnum, hsym, hq34, hws,
                    Bool.false_eq_true, if_false, if_true]
                  simp only [ignore]
                rw [hstep]
                refine ih input (pos + 1) _ _ _ F1 hasc ?_ (by omega) (by omega)
                rw [Nat.even_iff, hdropt]
                rw [hdrop] at hevm
                simp [List.count_cons, hb34] at hevm
                omega
              · -- unclassified byte: EndOfFile token, scan stops
                refine ⟨emit .endOfFile (rewind ⟨input, pos + 1, start, 1, stream⟩), ?_⟩
                simp only [lexStart, hcons, hdig, halnum, hsym, hq34, hws,
                  Bool.false_eq_true, if_false]

/-- Helper: on the unterminated string input, the quote-scanning loop never
terminates from any position after the opening quote. -/
theorem lexQuoteLoop_unterminated :
    ∀ (fuel pos start width : Nat) (stream : List Token),
      1 ≤ pos →
      lexQuoteLoop fuel ⟨[34, 97, 98], pos, start, width, stream⟩ = .fuelOut := by
  intro fuel
  induction fuel with
  | zero => intro pos start width stream h; rfl
  | succ f ih =>
    intro pos start width stream h
    by_cases h3 : 3 ≤ pos
    · simp only [lexQuoteLoop,
        @consume_eof [34, 97, 98] pos start width stream (by simp; omega)]
      exact ih pos start 0 stream h
    · interval_cases pos
      · simp only [lexQuoteLoop,
          consume_ascii start width stream (show ([34, 97, 98] : List Nat).drop 1 =
            97 :: [98] from rfl) (by omega)]
        rw [if_neg (by omega : ¬(97 = 34))]
        exact ih 2 start 1 stream (by omega)
      · simp only [lexQuoteLoop,
          consume_ascii start width stream (show ([34, 97, 98] : List Nat).drop 2 =
            98 :: [] from rfl) (by omega)]
        rw [if_neg (by omega : ¬(98 = 34))]
        exact ih 3 start 1 stream (by omega)

/-- c3 (amended): the lexer is not total on arbitrary byte input (the
counterexample theorem shows the panic on invalid UTF-8, and an
unterminated string literal diverges — second conjunct, at every fuel);
on ASCII inputs whose double-quote count is even it does terminate with a
token stream, with fuel linear in the input length (first conjunct). -/
theorem c3_lexer_ascii_total_unterminated_diverges :
    (∀ (input : List Nat) (fuel : Nat),
        allAscii input = true →
        Even (input.count 34) →
        3 * input.length + 2 ≤ fuel →
        ∃ toks, tokenizeInput fuel input = .ok toks) ∧
    (∀ fuel, tokenizeInput fuel (strBytes ("\"ab")) = .fuelOut) := by
  constructor
  · intro input fuel hasc hev hfuel
    obtain ⟨s2, hs2⟩ := lexStart_total (input.length + 1) input 0 0 0 [] fuel hasc
      (by rw [List.drop_zero]; exact hev) (by omega) (by simpa using hfuel)
    exact ⟨s2.stream, by simp only [tokenizeInput, hs2]⟩
  · intro fuel
    have hsb : strBytes ("\"ab") = [34, 97, 98] := rfl
    rw [hsb]
    match fuel with
    | 0 => rfl
    | 1 => rfl
    | (g + 2) =>
      have hchain : lexStart (g + 2) ⟨[34, 97, 98], 0, 0, 0, []⟩ =
          lexQuoteLoop g ⟨[34, 97, 98], 1, 0, 1, []⟩ := rfl
      simp only [tokenizeInput, hchain, lexQuoteLoop_unterminated g 1 0 1 [] (by omega)]

end KrugSpec
